import Mathlib

/-!
FAT allocation-table checker (`sbin/fsck_msdosfs/fat.c`).

A shallow embedding of the allocation-table accessor, the cluster bitmaps, the
load-time linear scan of `readfat` and the chain walker `checkchain`, followed
by theorems about them.

Conventions of the embedding

* `cl_t` is `u_int32_t`: cluster values are natural numbers, and every
  operation of the source that can leave the 32-bit range is reduced modulo
  `2 ^ 32` explicitly.
* The table buffer `fatbuf` is a list of bytes.  A load of a `uint8_t` is
  `rdb`, which yields a value below 256; a store is `List.set`.
  An access outside the buffer is undefined behaviour in C; here such a load
  yields 0 and such a store is dropped, and the theorems that depend on an
  access being inside the buffer say so in a hypothesis.
* `assert` is modelled by `Option`: a failed assertion aborts, giving `none`.
* The global `rdonly` and the operator's answers (`ask`) are parameters.
-/

namespace FsckMsdosfs

/-! ## Constants of `dosfs.h` and `ext.h` -/

/-- Modelled from the spec: `dosfs.h` is not among the sources; the
free marker, "0 means cluster is free". -/
def CLUST_FREE : Nat := 0
/-- Modelled from the spec: `dosfs.h` is not among the sources; the
first valid cluster number `FIRST`. -/
def CLUST_FIRST : Nat := 2
/-- Modelled from the spec: `dosfs.h` is not among the sources; start
of the band of reserved values. -/
def CLUST_RSRVD : Nat := 0xfffffff6
/-- Modelled from the spec: `dosfs.h` is not among the sources; the
marker of a defective cluster. -/
def CLUST_BAD : Nat := 0xfffffff7
/-- Modelled from the spec: `dosfs.h` is not among the sources; start
of the end-of-chain band (raw `0x..F8`). -/
def CLUST_EOFS : Nat := 0xfffffff8
/-- Modelled from the spec: `dosfs.h` is not among the sources; the
canonical end-of-chain marker (raw `0x..FF`). -/
def CLUST_EOF : Nat := 0xffffffff
/-- Modelled from the spec: `dosfs.h` is not among the sources; the
value returned when an access fails. -/
def CLUST_DEAD : Nat := 0xfdeadc0d

/-- Modelled from the spec: `dosfs.h` is not among the sources; entry
mask of the 12-bit encoding. -/
def CLUST12_MASK : Nat := 0xfff
/-- Modelled from the spec: `dosfs.h` is not among the sources; entry
mask of the 16-bit encoding. -/
def CLUST16_MASK : Nat := 0xffff
/-- Modelled from the spec: `dosfs.h` is not among the sources; entry
mask of the 32-bit encoding (28 significant bits). -/
def CLUST32_MASK : Nat := 0xfffffff

/-- Modelled from the spec: `ext.h` is not among the sources; outcome
"Ok". -/
def FSOK : Nat := 0
/-- Modelled from the spec: `ext.h` is not among the sources; outcome
"Modified" for the allocation table. -/
def FSFATMOD : Nat := 4
/-- Modelled from the spec: `ext.h` is not among the sources; outcome
"Unresolved". -/
def FSERROR : Nat := 8
/-- Modelled from the spec: `ext.h` is not among the sources; outcome
"Fatal". -/
def FSFATAL : Nat := 16
/-- Modelled from the spec: `ext.h` is not among the sources; outcome
"Dirty". -/
def FSDIRTY : Nat := 32

/-- Modelled from the spec: `sys/limits.h` is not among the sources; the width
of the machine word `unsigned long`, 64 bits on the LP64 platforms the tool is
built for. -/
def LONG_BIT : Nat := 64

/-- The 32-bit complement `~x` of a `cl_t`. -/
def not32 (x : Nat) : Nat := 0xffffffff - x % 2 ^ 32

/-! ## Data model -/

/-- Modelled from the spec: `ext.h` is not among the sources; the fields of
`struct bootblock`, the geometry supplied by the boot-sector parser, that
`fat.c` uses. -/
structure bootblock where
  bpbBytesPerSec : Nat
  bpbResSectors : Nat
  bpbFATs : Nat
  bpbMedia : Nat
  bpbFSInfo : Nat
  FATsecs : Nat
  ClustMask : Nat
  NumClusters : Nat
  NumFree : Nat
  NumBad : Nat
  FSFree : Nat
  FSNext : Nat
deriving DecidableEq

/-- Representation of `struct fat_descriptor`. -/
structure fat_descriptor where
  boot : bootblock
  fatsize : Nat
  fatbuf : List Nat
deriving DecidableEq

/-- Load of the `uint8_t` at offset `i` of a buffer. -/
def rdb (buf : List Nat) (i : Nat) : Nat := buf.getD i 0 % 256

/-! ## Little-endian helpers of `sys/endian.h` -/

/-- Modelled from the spec: `sys/endian.h` is not among the sources;
little-endian read of 16 bits at offset `off`. -/
def le16dec (buf : List Nat) (off : Nat) : Nat :=
  (rdb buf (off + 1) <<< 8) ||| rdb buf off

/-- Modelled from the spec: `sys/endian.h` is not among the sources;
little-endian write of the 16-bit value `u` at offset `off`. -/
def le16enc (buf : List Nat) (off : Nat) (u : Nat) : List Nat :=
  (buf.set off (u &&& 0xff)).set (off + 1) ((u >>> 8) &&& 0xff)

/-- Modelled from the spec: `sys/endian.h` is not among the sources;
little-endian read of 32 bits at offset `off`. -/
def le32dec (buf : List Nat) (off : Nat) : Nat :=
  (rdb buf (off + 3) <<< 24) ||| (rdb buf (off + 2) <<< 16) |||
    (rdb buf (off + 1) <<< 8) ||| rdb buf off

/-- Modelled from the spec: `sys/endian.h` is not among the sources;
little-endian write of the 32-bit value `u` at offset `off`. -/
def le32enc (buf : List Nat) (off : Nat) (u : Nat) : List Nat :=
  (((buf.set off (u &&& 0xff)).set (off + 1) ((u >>> 8) &&& 0xff)).set
    (off + 2) ((u >>> 16) &&& 0xff)).set (off + 3) ((u >>> 24) &&& 0xff)

/-! ## Allocation-table accessors -/

/-- Offset of the byte pair of cluster `cl` in a 12-bit table
(`fat_get_fat12_ptr`); the sum is computed in `cl_t`. -/
def fat_get_fat12_ptr (cl : Nat) : Nat := (cl + (cl >>> 1)) % 2 ^ 32

/-- 12-bit read (`fat_get_fat12_next`). -/
def fat_get_fat12_next (fat : fat_descriptor) (cl : Nat) : Nat :=
  let p := fat_get_fat12_ptr cl
  let retval := le16dec fat.fatbuf p
  let retval := if cl &&& 1 = 1 then retval >>> 4 else retval
  let retval := retval &&& CLUST12_MASK
  if retval ≥ (CLUST_BAD &&& CLUST12_MASK) then retval ||| not32 CLUST12_MASK
  else retval

/-- 12-bit write (`fat_set_fat12_next`). -/
def fat_set_fat12_next (fat : fat_descriptor) (cl nextcl : Nat) :
    Nat × fat_descriptor :=
  let nextcl := nextcl &&& CLUST12_MASK
  let p := fat_get_fat12_ptr cl
  let nextcl :=
    if cl &&& 1 = 0 then nextcl ||| ((rdb fat.fatbuf (p + 1) &&& 0xf0) <<< 8)
    else ((nextcl <<< 4) % 2 ^ 32) ||| (rdb fat.fatbuf p &&& 0x0f)
  (0, { fat with fatbuf := le16enc fat.fatbuf p (nextcl % 2 ^ 16) })

/-- Offset of the entry of cluster `cl` in a 16-bit table
(`fat_get_fat16_ptr`); the shift is computed in `cl_t`. -/
def fat_get_fat16_ptr (cl : Nat) : Nat := (cl <<< 1) % 2 ^ 32

/-- 16-bit read (`fat_get_fat16_next`). -/
def fat_get_fat16_next (fat : fat_descriptor) (cl : Nat) : Nat :=
  let p := fat_get_fat16_ptr cl
  let retval := le16dec fat.fatbuf p &&& CLUST16_MASK
  if retval ≥ (CLUST_BAD &&& CLUST16_MASK) then retval ||| not32 CLUST16_MASK
  else retval

/-- 16-bit write (`fat_set_fat16_next`). -/
def fat_set_fat16_next (fat : fat_descriptor) (cl nextcl : Nat) :
    Nat × fat_descriptor :=
  let nextcl := nextcl &&& CLUST16_MASK
  let p := fat_get_fat16_ptr cl
  (0, { fat with fatbuf := le16enc fat.fatbuf p (nextcl % 2 ^ 16) })

/-- Offset of the entry of cluster `cl` in a 32-bit table
(`fat_get_fat32_ptr`); the shift is computed in `cl_t`. -/
def fat_get_fat32_ptr (cl : Nat) : Nat := (cl <<< 2) % 2 ^ 32

/-- 32-bit read (`fat_get_fat32_next`). -/
def fat_get_fat32_next (fat : fat_descriptor) (cl : Nat) : Nat :=
  let p := fat_get_fat32_ptr cl
  let retval := le32dec fat.fatbuf p &&& CLUST32_MASK
  if retval ≥ (CLUST_BAD &&& CLUST32_MASK) then retval ||| not32 CLUST32_MASK
  else retval

/-- 32-bit write (`fat_set_fat32_next`). -/
def fat_set_fat32_next (fat : fat_descriptor) (cl nextcl : Nat) :
    Nat × fat_descriptor :=
  let nextcl := nextcl &&& CLUST32_MASK
  let p := fat_get_fat32_ptr cl
  (0, { fat with fatbuf := le32enc fat.fatbuf p (nextcl % 2 ^ 32) })

/-- Generic read accessor (`fat_get_cl_next`). -/
def fat_get_cl_next (fat : fat_descriptor) (cl : Nat) : Nat :=
  if cl < CLUST_FIRST ∨ cl ≥ fat.boot.NumClusters then CLUST_DEAD
  else if fat.boot.ClustMask = CLUST12_MASK then fat_get_fat12_next fat cl
  else if fat.boot.ClustMask = CLUST16_MASK then fat_get_fat16_next fat cl
  else if fat.boot.ClustMask = CLUST32_MASK then fat_get_fat32_next fat cl
  else CLUST_DEAD

/-- Generic write accessor (`fat_set_cl_next`): the status and the descriptor
after the call. -/
def fat_set_cl_next (rdonly : Bool) (fat : fat_descriptor) (cl nextcl : Nat) :
    Nat × fat_descriptor :=
  if rdonly then (FSFATAL, fat)
  else if cl < CLUST_FIRST ∨ cl ≥ fat.boot.NumClusters then (FSFATAL, fat)
  else if fat.boot.ClustMask = CLUST12_MASK then fat_set_fat12_next fat cl nextcl
  else if fat.boot.ClustMask = CLUST16_MASK then fat_set_fat16_next fat cl nextcl
  else if fat.boot.ClustMask = CLUST32_MASK then fat_set_fat32_next fat cl nextcl
  else (FSFATAL, fat)

/-- The boot block of a 12-bit volume with `n` clusters, used in examples. -/
def boot12 (n : Nat) : bootblock :=
  ⟨512, 1, 2, 0xf8, 0, 1, CLUST12_MASK, n, 0, 0, 0, 0⟩

/-! ## Specification-side notions for the accessor -/

/-- The three entry encodings. -/
def is_fat_mask (m : Nat) : Prop :=
  m = CLUST12_MASK ∨ m = CLUST16_MASK ∨ m = CLUST32_MASK

instance (m : Nat) : Decidable (is_fat_mask m) := by
  unfold is_fat_mask; infer_instance

/-- The sign-extended form of a masked entry `raw`, in the words of the
accessor contract: a value at or above the masked "bad" marker gets the high bits
of the 32-bit word set. -/
def sign_extend (mask raw : Nat) : Nat :=
  if raw ≥ (CLUST_BAD &&& mask) then raw ||| not32 mask else raw

/-- Arithmetic form of sign extension: add `ext` to a value at or above `lim`. -/
def sx (lim ext raw : Nat) : Nat := if raw ≥ lim then raw + ext else raw

/-- One past the last buffer offset touched by an access to the entry of `cl`. -/
def fat_entry_end (fat : fat_descriptor) (cl : Nat) : Nat :=
  if fat.boot.ClustMask = CLUST12_MASK then fat_get_fat12_ptr cl + 2
  else if fat.boot.ClustMask = CLUST16_MASK then fat_get_fat16_ptr cl + 2
  else fat_get_fat32_ptr cl + 4

/-- Number of bytes taken by the two reserved entries 0 and 1, which hold the
signature of the table. -/
def fat_signature_bytes (mask : Nat) : Nat :=
  if mask = CLUST12_MASK then 3 else if mask = CLUST16_MASK then 4 else 8

/-- The byte stream of a buffer read as one little-endian number: byte `i` has
weight `256 ^ i`. -/
def stream : List Nat → Nat
  | [] => 0
  | b :: bs => b % 256 + 256 * stream bs

/-- The stored entry of cluster `cl` masked to the width of the encoding, in the
words of the specification: entries are packed little-endian, 12 bits apart in a
12-bit table (bits `12*cl .. 12*cl+11` of the byte stream), 16 bits apart in a
16-bit table, and 32 bits apart, of which 28 count, in a 32-bit table. -/
def raw_entry (fat : fat_descriptor) (cl : Nat) : Nat :=
  if fat.boot.ClustMask = CLUST12_MASK then
    (stream fat.fatbuf >>> (12 * cl)) &&& CLUST12_MASK
  else if fat.boot.ClustMask = CLUST16_MASK then
    (stream fat.fatbuf >>> (16 * cl)) &&& CLUST16_MASK
  else (stream fat.fatbuf >>> (32 * cl)) &&& CLUST32_MASK

/-! ## Bitmaps -/

/-- Representation of `long_bitmap_t`: the incrementally maintained count and the
words of the map. -/
structure long_bitmap_t where
  count : Nat
  map : List Nat
deriving DecidableEq

/-- Load of the `unsigned long` at index `i` of a map.  An index outside the map,
where the load is undefined in C, gives 0. -/
def rdw (map : List Nat) (i : Nat) : Nat := map.getD i 0 % 2 ^ 64

/-- Whether the word `map[cl / LONG_BIT]`, which `bitmap_set`, `bitmap_clear` and
`bitmap_get` access for the bit `cl`, lies inside the map.  The source does not
test this; where it is false the access is undefined in C, and the model reads
0 and stores nothing. -/
def bitmap_word_inside (lbp : long_bitmap_t) (cl : Nat) : Bool :=
  decide (cl / LONG_BIT < lbp.map.length)

/-- Setting a bit (`bitmap_set`); `none` when the assertion fails.  The result
is that of the source when the word of the bit lies inside the map
(`bitmap_word_inside`). -/
def bitmap_set (lbp : long_bitmap_t) (cl : Nat) : Option long_bitmap_t :=
  let i := cl / LONG_BIT
  let setbit := 1 <<< (cl % LONG_BIT)
  if rdw lbp.map i &&& setbit = 0 then
    some { count := (lbp.count + 1) % 2 ^ 64,
           map := lbp.map.set i (rdw lbp.map i ||| setbit) }
  else none

/-- Clearing a bit (`bitmap_clear`); `none` when the assertion fails.  The
result is that of the source when the word of the bit lies inside the map
(`bitmap_word_inside`). -/
def bitmap_clear (lbp : long_bitmap_t) (cl : Nat) : Option long_bitmap_t :=
  let i := cl / LONG_BIT
  let clearmask := 2 ^ 64 - 1 - (1 <<< (cl % LONG_BIT))
  if rdw lbp.map i &&& (2 ^ 64 - 1 - clearmask) ≠ 0 then
    some { count := (lbp.count + 2 ^ 64 - 1) % 2 ^ 64,
           map := lbp.map.set i (rdw lbp.map i &&& clearmask) }
  else none

/-- Query of a bit (`bitmap_get`).  The result is that of the source when the
word of the bit lies inside the map (`bitmap_word_inside`). -/
def bitmap_get (lbp : long_bitmap_t) (cl : Nat) : Bool :=
  let i := cl / LONG_BIT
  let usedbit := 1 <<< (cl % LONG_BIT)
  rdw lbp.map i &&& usedbit == usedbit

/-- Test of a whole word (`bitmap_any_in_range`): true when the word that holds
bit `cl` has no bit set. -/
def bitmap_any_in_range (lbp : long_bitmap_t) (cl : Nat) : Bool :=
  let i := cl / LONG_BIT
  rdw lbp.map i == 0

/-- The maintained count (`bitmap_count`). -/
def bitmap_count (lbp : long_bitmap_t) : Nat := lbp.count

/-- Modelled from the spec: `sys/param.h` is not among the sources; the macro
`roundup2(x, y)`, which rounds `x` up to a multiple of the power of two `y`
as `(x + (y - 1)) & ~(y - 1)`, in `size_t` arithmetic. -/
def roundup2 (x y : Nat) : Nat :=
  ((x + (y - 1)) % 2 ^ 64) &&& (2 ^ 64 - 1 - (y - 1))

/-- Construction of a bitmap (`bitmap_ctor`): the status and the bitmap
afterwards.  `calloc_ok` tells whether the allocation succeeds. -/
def bitmap_ctor (calloc_ok : Bool) (lbp : long_bitmap_t) (bits : Nat) (allone : Bool) :
    Nat × long_bitmap_t :=
  let bitmap_size := roundup2 bits LONG_BIT / (LONG_BIT / 8)
  if ¬ calloc_ok then (FSFATAL, { lbp with map := [] })
  else if allone then
    (FSOK, { count := bits, map := List.replicate (bitmap_size / 8) (2 ^ 64 - 1) })
  else
    (FSOK, { count := 0, map := List.replicate (bitmap_size / 8) 0 })

/-- An operation on a bitmap. -/
inductive bitmap_op where
  | set (i : Nat)
  | clear (i : Nat)
deriving DecidableEq

/-- The bit an operation is applied to. -/
def bitmap_op.index : bitmap_op → Nat
  | .set i => i
  | .clear i => i

/-- Application of one operation. -/
def bitmap_apply (lbp : long_bitmap_t) : bitmap_op → Option long_bitmap_t
  | .set i => bitmap_set lbp i
  | .clear i => bitmap_clear lbp i

/-- Application of a sequence of operations, aborting at the first failed
assertion. -/
def bitmap_run (lbp : long_bitmap_t) : List bitmap_op → Option long_bitmap_t
  | [] => some lbp
  | op :: ops =>
    match bitmap_apply lbp op with
    | some lbp1 => bitmap_run lbp1 ops
    | none => none

/-- The number of indices `i < n` for which `bitmap_get` is true. -/
def bitmap_popcount (lbp : long_bitmap_t) (n : Nat) : Nat :=
  ((List.range n).filter (fun i => bitmap_get lbp i)).length

/-- The invariant of a bitmap for `n` bits: the map holds every bit below `n`, and
the count is the number of set bits below `n`. -/
def bitmap_inv (lbp : long_bitmap_t) (n : Nat) : Prop :=
  n ≤ 64 * lbp.map.length ∧ n < 2 ^ 64 ∧ lbp.count = bitmap_popcount lbp n

/-! ## The operator's policy -/

/-- The questions `fat.c` puts to the operator through `ask`, named by their
text. -/
inductive question where
  | Correct
  | Truncate
  | Clear
  | Fix
  | fix
deriving DecidableEq

/-- The answers of the operator: `ask def q cl` is the answer to question `q`
with default `def`, put after a warning about cluster `cl` (0 when the warning
names no cluster).  Within one pass every cluster is asked about at most once,
so this covers every sequence of answers. -/
abbrev policy := Nat → question → Nat → Bool

/-! ## Loading: `readfat` -/

/-- The state that the linear scan of `readfat` works on: the descriptor (whose
boot block holds the counters `NumFree` and `NumBad`), the head bitmap and the
status `ret`. -/
structure scan_state where
  fat : fat_descriptor
  headbitmap : long_bitmap_t
  ret : Nat
deriving DecidableEq

/-- The body of the loop "Traverse the FAT table and populate head map" of
`readfat` for cluster `cl`; `none` when an assertion of `bitmap_clear` fails. -/
def readfat_step (ask : policy) (rdonly : Bool) (cl : Nat) (s : scan_state) :
    Option scan_state :=
  let boot := s.fat.boot
  let nextcl := fat_get_cl_next s.fat cl
  if nextcl = CLUST_FREE then
    match bitmap_clear s.headbitmap cl with
    | none => none
    | some hb =>
      some { s with
        headbitmap := hb,
        fat := { s.fat with boot := { boot with NumFree := (boot.NumFree + 1) % 2 ^ 32 } } }
  else if nextcl = CLUST_BAD then
    match bitmap_clear s.headbitmap cl with
    | none => none
    | some hb =>
      some { s with
        headbitmap := hb,
        fat := { s.fat with boot := { boot with NumBad := (boot.NumBad + 1) % 2 ^ 32 } } }
  else if nextcl < CLUST_FIRST ∨ (nextcl ≥ boot.NumClusters ∧ nextcl < CLUST_EOFS) then
    if ask 0 question.Truncate cl then
      some { s with
        fat := (fat_set_cl_next rdonly s.fat cl CLUST_EOF).2,
        ret := s.ret ||| FSFATMOD }
    else some s
  else if nextcl < boot.NumClusters then
    if bitmap_get s.headbitmap nextcl then
      match bitmap_clear s.headbitmap nextcl with
      | none => none
      | some hb => some { s with headbitmap := hb }
    else some s
  else some s

/-- The loop `for (cl = CLUST_FIRST; cl < boot->NumClusters; cl++)` of `readfat`:
`k` iterations starting at cluster `cl`.  The body never changes `NumClusters`,
so the loop of the source runs `NumClusters - CLUST_FIRST` times. -/
def readfat_loop (ask : policy) (rdonly : Bool) : Nat → Nat → scan_state → Option scan_state
  | 0, _, s => some s
  | k + 1, cl, s =>
    match readfat_step ask rdonly cl s with
    | none => none
    | some s1 => readfat_loop ask rdonly k (cl + 1) s1

/-- The check of the signature in the reserved entries at the start of
`readfat`: the status and the buffer afterwards. -/
def readfat_signature (ask : policy) (boot : bootblock) (buffer : List Nat) :
    Nat × List Nat :=
  let b := rdb buffer
  if b 0 ≠ boot.bpbMedia ∨ b 1 ≠ 0xff ∨ b 2 ≠ 0xff
      ∨ (boot.ClustMask = CLUST16_MASK ∧ b 3 ≠ 0xff)
      ∨ (boot.ClustMask = CLUST32_MASK
          ∧ ((b 3 &&& 0x0f) ≠ 0x0f ∨ b 4 ≠ 0xff ∨ b 5 ≠ 0xff
              ∨ b 6 ≠ 0xff ∨ (b 7 &&& 0x0f) ≠ 0x0f)) then
    if b 0 = boot.bpbMedia ∧ b 1 = 0xff ∧ b 2 = 0xff
        ∧ ((boot.ClustMask = CLUST16_MASK ∧ b 3 = 0x7f)
            ∨ (boot.ClustMask = CLUST32_MASK
                ∧ b 3 = 0x0f ∧ b 4 = 0xff ∧ b 5 = 0xff ∧ b 6 = 0xff ∧ b 7 = 0x07)) then
      (FSOK ||| FSDIRTY, buffer)
    else if ask 1 question.Correct 0 then
      let p := ((buffer.set 0 (boot.bpbMedia % 256)).set 1 0xff).set 2 0xff
      if boot.ClustMask = CLUST16_MASK then (FSOK, p.set 3 0xff)
      else if boot.ClustMask = CLUST32_MASK then
        (FSOK, ((((p.set 3 0x0f).set 4 0xff).set 5 0xff).set 6 0xff).set 7 0x0f)
      else (FSOK, p)
    else (FSOK, buffer)
  else (FSOK, buffer)

/-- What `readfat` leaves behind: the returned status, the descriptor stored
through `fp`, and the two global bitmaps. -/
structure readfat_result where
  ret : Nat
  fat : fat_descriptor
  usedbitmap : long_bitmap_t
  headbitmap : long_bitmap_t
deriving DecidableEq

/-- The function `readfat` on a table whose bytes `buffer` were obtained by
`_readfat` and whose allocations succeeded (every failure of these returns
`FSFATAL` before the table is looked at).  The descriptor comes from `calloc`
and `fatsize` is never assigned, so it is 0.  The status of this path never
carries `FSFATAL` (`readfat_ret_not_fatal`), so the final test of the source
always stores the descriptor through `fp`.  The result is `none` when an
assertion fails during the scan. -/
def readfat (ask : policy) (rdonly : Bool) (boot : bootblock) (buffer : List Nat) :
    Option readfat_result :=
  let boot := { boot with NumFree := 0, NumBad := 0 }
  let usedbitmap := (bitmap_ctor true ⟨0, []⟩ boot.NumClusters false).2
  let headbitmap := (bitmap_ctor true ⟨0, []⟩ boot.NumClusters true).2
  let sig := readfat_signature ask boot buffer
  let fat : fat_descriptor := ⟨boot, 0, sig.2⟩
  match readfat_loop ask rdonly (boot.NumClusters - CLUST_FIRST) CLUST_FIRST
      ⟨fat, headbitmap, sig.1⟩ with
  | none => none
  | some s => some ⟨s.ret, s.fat, usedbitmap, s.headbitmap⟩

/-- The descriptor that the scan of `readfat` starts from: the counters reset,
`fatsize` 0, and the buffer as the signature check leaves it. -/
def readfat_fat (ask : policy) (boot : bootblock) (buffer : List Nat) : fat_descriptor :=
  ⟨{ boot with NumFree := 0, NumBad := 0 }, 0,
    (readfat_signature ask { boot with NumFree := 0, NumBad := 0 } buffer).2⟩

/-- The status with which the scan of `readfat` starts. -/
def readfat_ret0 (ask : policy) (boot : bootblock) (buffer : List Nat) : Nat :=
  (readfat_signature ask { boot with NumFree := 0, NumBad := 0 } buffer).1

/-- A successor value that the scan treats as corruption: below `CLUST_FIRST`
but not free, or at or above `n` and below the end-of-chain band but not bad. -/
def bad_link (n v : Nat) : Prop :=
  v ≠ CLUST_FREE ∧ v ≠ CLUST_BAD ∧ (v < CLUST_FIRST ∨ (v ≥ n ∧ v < CLUST_EOFS))

instance (n v : Nat) : Decidable (bad_link n v) := by
  unfold bad_link; infer_instance

/-- The number of clusters `c` with `CLUST_FIRST ≤ c < n` whose entry, as given by
`g`, is `v`. -/
def count_clusters (g : Nat → Nat) (v n : Nat) : Nat :=
  ((List.range n).filter (fun c => decide (CLUST_FIRST ≤ c) && decide (g c = v))).length

/-- A descriptor as the boot-sector parser supplies it: one of the three
encodings, at most `2 ^ 30` clusters (a 32-bit table has at most `2 ^ 28`), and
a buffer that holds the entry of every cluster. -/
def fat_wf (fat : fat_descriptor) : Prop :=
  is_fat_mask fat.boot.ClustMask ∧ fat.boot.NumClusters ≤ 2 ^ 30 ∧
    (fat.boot.NumClusters ≤ CLUST_FIRST ∨
      fat_entry_end fat (fat.boot.NumClusters - 1) ≤ fat.fatbuf.length)

instance (fat : fat_descriptor) : Decidable (fat_wf fat) := by
  unfold fat_wf; infer_instance

/-! ## Walking a chain: `checkchain` -/

/-- How a call of the model ends: the function returns, an assertion fails, or
the fuel given to the model is used up. -/
inductive outcome (α : Type) where
  | ok (a : α)
  | abort
  | timeout
deriving DecidableEq

/-- The state that `checkchain` works on: the descriptor, the used bitmap and
the length `*chainsize`. -/
structure chain_state where
  fat : fat_descriptor
  usedbitmap : long_bitmap_t
  chainsize : Nat
deriving DecidableEq

/-- The loop of `checkchain` from `current_cl` on, together with the code after
the loop; `fuel` bounds the number of iterations of the model. -/
def checkchain_loop (ask : policy) (rdonly : Bool) :
    Nat → Nat → chain_state → outcome (Nat × chain_state)
  | 0, _, _ => outcome.timeout
  | fuel + 1, current_cl, s =>
    let next_cl := fat_get_cl_next s.fat current_cl
    if next_cl < CLUST_FIRST ∨ next_cl > s.fat.boot.NumClusters then
      if next_cl > CLUST_EOFS then
        outcome.ok (FSOK, { s with chainsize := (s.chainsize + 1) % 2 ^ 64 })
      else if ask 0 question.Truncate current_cl then
        outcome.ok (FSFATMOD,
          { s with fat := (fat_set_cl_next rdonly s.fat current_cl CLUST_EOF).2 })
      else outcome.ok (FSERROR, s)
    else if bitmap_get s.usedbitmap next_cl then
      if ask 0 question.Truncate current_cl then
        outcome.ok (FSFATMOD,
          { s with fat := (fat_set_cl_next rdonly s.fat current_cl CLUST_EOF).2 })
      else outcome.ok (FSERROR, s)
    else
      match bitmap_set s.usedbitmap next_cl with
      | none => outcome.abort
      | some ub =>
        checkchain_loop ask rdonly fuel next_cl
          { s with chainsize := (s.chainsize + 1) % 2 ^ 64, usedbitmap := ub }

/-- The function `checkchain`: the returned status and the state afterwards. -/
def checkchain (ask : policy) (rdonly : Bool) (fuel : Nat) (fat : fat_descriptor)
    (usedbitmap : long_bitmap_t) (head : Nat) : outcome (Nat × chain_state) :=
  checkchain_loop ask rdonly fuel head ⟨fat, usedbitmap, 0⟩

/-- A chain in the table: the entry of `c` links to the first cluster of the
list, every cluster of the list links to the next one, and the last entry is
the end-of-chain marker `CLUST_EOF`. -/
def chain_from (fat : fat_descriptor) : Nat → List Nat → Prop
  | c, [] => fat_get_cl_next fat c = CLUST_EOF
  | c, d :: rest => fat_get_cl_next fat c = d ∧ chain_from fat d rest

instance chain_from_decidable (fat : fat_descriptor) :
    (c : Nat) → (l : List Nat) → Decidable (chain_from fat c l)
  | c, [] => by unfold chain_from; infer_instance
  | c, d :: rest => by
    unfold chain_from
    exact @instDecidableAnd _ _ _ (chain_from_decidable fat d rest)

/-- A 12-bit table with eight entries: the signature, the chain 2 → 5 → EOF, the
chain 3 → 6 → EOF whose cluster 4 is free, and cluster 7 with the reserved
successor 1. -/
def fat12_demo : fat_descriptor :=
  ⟨boot12 8, 12, [0xf8, 0xff, 0xff, 0x05, 0x60, 0x00, 0x00, 0xf0, 0xff, 0xff, 0x1f, 0x00]⟩

/-- The condition under which the scan leaves the head bit of `X` set once the
clusters below `cl` have been visited: `X` is not a visited free or bad cluster
and no visited cluster links to `X`.  The entries are given by `g`. -/
def head_kept (g : Nat → Nat) (cl X : Nat) : Prop :=
  ¬ (X < cl ∧ (g X = CLUST_FREE ∨ g X = CLUST_BAD)) ∧
    ∀ c, CLUST_FIRST ≤ c → c < cl → g c ≠ X

/-- Invariant of the scan of `readfat` before cluster `cl` is visited, relative
to the entries `g` of the table as it was loaded: the geometry is as loaded, the
entries from `cl` on are as loaded, the head bitmap is consistent and records
what the visited clusters say, and the counters count the visited free and bad
clusters. -/
def scan_inv (g : Nat → Nat) (mask n cl : Nat) (s : scan_state) : Prop :=
  s.fat.boot.ClustMask = mask ∧ s.fat.boot.NumClusters = n ∧
  (∀ c, cl ≤ c → fat_get_cl_next s.fat c = g c) ∧
  bitmap_inv s.headbitmap n ∧
  (∀ X, CLUST_FIRST ≤ X → X < n →
    (bitmap_get s.headbitmap X = true ↔ head_kept g cl X)) ∧
  s.fat.boot.NumFree = count_clusters g CLUST_FREE cl ∧
  s.fat.boot.NumBad = count_clusters g CLUST_BAD cl

/-- Invariant of the scan of `readfat` for the entries of the clusters below `cl`,
relative to the entries `g` of the table as it was loaded and to the status
`ret0` before the scan: the descriptor is well formed, an entry with a bad link
that the operator had truncated on a writable table reads `CLUST_EOF` and every
other visited entry reads as loaded; and the status has gained `FSFATMOD`
exactly if some truncation was accepted. -/
def trunc_inv (ask : policy) (rdonly : Bool) (g : Nat → Nat) (n ret0 cl : Nat)
    (s : scan_state) : Prop :=
  fat_wf s.fat ∧
  (∀ c, CLUST_FIRST ≤ c → c < cl →
    fat_get_cl_next s.fat c =
      if bad_link n (g c) ∧ ask 0 question.Truncate c = true ∧ rdonly = false
      then CLUST_EOF else g c) ∧
  ((∃ c, CLUST_FIRST ≤ c ∧ c < cl ∧ bad_link n (g c) ∧ ask 0 question.Truncate c = true) →
    s.ret = ret0 ||| FSFATMOD) ∧
  ((¬ ∃ c, CLUST_FIRST ≤ c ∧ c < cl ∧ bad_link n (g c) ∧ ask 0 question.Truncate c = true) →
    s.ret = ret0)

/-- The policy that accepts every question. -/
def policy_yes : policy := fun _ _ _ => true

/-- What `readfat` leaves behind on the table `fat12_demo` under `policy_yes`:
cluster 7 truncated, one free cluster counted, and the head bits of clusters 4,
5 and 6 cleared. -/
def readfat_demo : readfat_result :=
  ⟨4, ⟨{ boot12 8 with NumFree := 1 }, 0,
      [0xf8, 0xff, 0xff, 0x05, 0x60, 0x00, 0x00, 0xf0, 0xff, 0xff, 0xff, 0xff]⟩,
    ⟨0, [0]⟩, ⟨5, [18446744073709551503]⟩⟩

/-! ## Paths in the table -/

/-- A path in the table: the entry of `c` links to the first cluster of the
list and every cluster of the list links to the next one.  Nothing is said
about the entry of the last cluster. -/
def links_from (fat : fat_descriptor) : Nat → List Nat → Prop
  | _, [] => True
  | c, d :: rest => fat_get_cl_next fat c = d ∧ links_from fat d rest

instance links_from_decidable (fat : fat_descriptor) :
    (c : Nat) → (l : List Nat) → Decidable (links_from fat c l)
  | c, [] => by unfold links_from; infer_instance
  | c, d :: rest => by
    unfold links_from
    exact @instDecidableAnd _ _ _ (links_from_decidable fat d rest)

/-- A 12-bit table with four entries: the signature and the chain 2 → 3 whose
last entry is the raw end-of-chain value `0xff8`. -/
def fat12_eofs : fat_descriptor :=
  ⟨boot12 4, 6, [0xf8, 0xff, 0xff, 0x03, 0x80, 0xff]⟩

/-- The policy that declines every question. -/
def policy_no : policy := fun _ _ _ => false

/-- A 12-bit table with ten entries: the signature, the chain 3 → 4 → EOF, and
the chain 8 → 9 whose last cluster links to cluster 4 of the other chain. -/
def fat12_cross : fat_descriptor :=
  ⟨boot12 10, 15, [0xf8, 0xff, 0xff, 0x00, 0x40, 0x00, 0xff, 0x0f, 0x00,
    0x00, 0x00, 0x00, 0x09, 0x40, 0x00]⟩

/-! ## Clearing a chain: `clearchain` -/

/-- The loop of `clearchain` from `current_cl` on: the descriptor and the used
bitmap afterwards.  The argument `boot` of the source is the boot block of the
descriptor; `fuel` bounds the number of iterations of the model. -/
def clearchain_loop (rdonly : Bool) :
    Nat → Nat → fat_descriptor → long_bitmap_t → outcome (fat_descriptor × long_bitmap_t)
  | 0, _, _, _ => outcome.timeout
  | fuel + 1, current_cl, fat, usedbitmap =>
    if current_cl ≥ CLUST_FIRST ∧ current_cl < fat.boot.NumClusters then
      let next_cl := fat_get_cl_next fat current_cl
      let fat1 := (fat_set_cl_next rdonly fat current_cl CLUST_FREE).2
      if bitmap_get usedbitmap current_cl then
        match bitmap_clear usedbitmap current_cl with
        | none => outcome.abort
        | some ub => clearchain_loop rdonly fuel next_cl fat1 ub
      else clearchain_loop rdonly fuel next_cl fat1 usedbitmap
    else outcome.ok (fat, usedbitmap)

/-- The function `clearchain`. -/
def clearchain (rdonly : Bool) (fuel : Nat) (fat : fat_descriptor)
    (usedbitmap : long_bitmap_t) (head : Nat) : outcome (fat_descriptor × long_bitmap_t) :=
  clearchain_loop rdonly fuel head fat usedbitmap

/-- The clusters reachable from `c` by following the successor links of the
table while they stay inside `[CLUST_FIRST, NumClusters)`: `c` itself when it
is in that range, and whatever is reachable from its successor. -/
inductive reach (fat : fat_descriptor) : Nat → Nat → Prop
  | here (c : Nat) : CLUST_FIRST ≤ c → c < fat.boot.NumClusters → reach fat c c
  | next (c x : Nat) : CLUST_FIRST ≤ c → c < fat.boot.NumClusters →
      reach fat (fat_get_cl_next fat c) x → reach fat c x

/-- Invariant of the loop of `clearchain` on a table `fat0` with used bitmap
`used0`, started at `head`: `vis` are the clusters cleared so far and `c` is the
current cluster.  The cleared clusters read `CLUST_FREE` and are unused,
everything else is as at the start, and the clusters reachable from `head` are
the cleared ones and those reachable from `c`. -/
def clear_inv (fat0 : fat_descriptor) (used0 : long_bitmap_t) (head : Nat)
    (vis : List Nat) (c : Nat) (fat : fat_descriptor) (used : long_bitmap_t) : Prop :=
  fat_wf fat ∧ fat.boot = fat0.boot ∧
  (∀ x ∈ vis, fat_get_cl_next fat x = CLUST_FREE ∧ bitmap_get used x = false) ∧
  (∀ x, x ∉ vis → fat_get_cl_next fat x = fat_get_cl_next fat0 x ∧
    bitmap_get used x = bitmap_get used0 x) ∧
  (∀ x, reach fat0 head x ↔ (x ∈ vis ∨ reach fat0 c x)) ∧
  (∀ v ∈ vis, CLUST_FIRST ≤ fat_get_cl_next fat0 v →
    fat_get_cl_next fat0 v < fat0.boot.NumClusters →
    fat_get_cl_next fat0 v ∈ vis ∨ fat_get_cl_next fat0 v = c) ∧
  vis.Nodup ∧ ∀ v ∈ vis, v < fat0.boot.NumClusters

/-- A 12-bit table with eight entries: the signature, the loop 2 → 5 → 3 → 2,
the chain 6 → 7 → EOF and the free cluster 4. -/
def fat12_loop : fat_descriptor :=
  ⟨boot12 8, 12, [0xf8, 0xff, 0xff, 0x05, 0x20, 0x00, 0x00, 0x30, 0x00, 0x07, 0xf0, 0xff]⟩

/-! ## Lost chains: `checklost` -/

/-- The table and the two global bitmaps: the state that the functions of
`fat.c` share with the directory pass. -/
structure table_state where
  fat : fat_descriptor
  usedbitmap : long_bitmap_t
  headbitmap : long_bitmap_t
deriving DecidableEq

/-- Modelled from the spec: `dir.c` and `boot.c` are not among the sources; the
functions of these files that `checklost` calls.  `reconnect`, given the state,
the head and the length of a lost chain, gives a status and the state
afterwards; `writefsinfo`, given the boot block, gives a status.  `finishlf`,
which returns nothing and takes no argument, is left out. -/
structure collaborators where
  reconnect : table_state → Nat → Nat → Nat × table_state
  writefsinfo : bootblock → Nat

/-- The state that `checklost` works on: the table, the two bitmaps and the
status `mod`, together with a record of what the scan did: the heads that
`checkchain` was called on, and the heads and lengths that were reported as
lost chains and passed to `reconnect`. -/
structure lost_state where
  fat : fat_descriptor
  usedbitmap : long_bitmap_t
  headbitmap : long_bitmap_t
  mod : Nat
  walked : List Nat
  reported : List (Nat × Nat)
deriving DecidableEq

/-- The head scan loop of `checklost` from `head` on with `chains` heads left to
find.  `fuel` bounds the iterations of the model and `cfuel` those of the calls
of `checkchain` and `clearchain`.  The skip of an empty word adds `LONG_BIT`
to `head` and continues with the increment of the loop. -/
def checklost_loop (col : collaborators) (ask : policy) (rdonly : Bool) (cfuel : Nat) :
    Nat → Nat → Nat → lost_state → outcome lost_state
  | 0, _, _, _ => outcome.timeout
  | fuel + 1, head, chains, s =>
    if chains > 0 ∧ head < s.fat.boot.NumClusters then
      if head % LONG_BIT = 0 ∧ bitmap_any_in_range s.headbitmap head = true then
        checklost_loop col ask rdonly cfuel fuel (((head + LONG_BIT) % 2 ^ 32 + 1) % 2 ^ 32)
          (if chains ≥ LONG_BIT then chains - LONG_BIT else 0) s
      else if bitmap_get s.headbitmap head = true then
        match checkchain ask rdonly cfuel s.fat s.usedbitmap head with
        | outcome.timeout => outcome.timeout
        | outcome.abort => outcome.abort
        | outcome.ok (ret, cs) =>
          let s1 : lost_state :=
            { s with fat := cs.fat, usedbitmap := cs.usedbitmap, walked := s.walked ++ [head] }
          let r := col.reconnect ⟨s1.fat, s1.usedbitmap, s1.headbitmap⟩ head cs.chainsize
          let ret2 := if ret ≠ FSERROR then r.1 else ret
          let s2 : lost_state :=
            if ret ≠ FSERROR then
              { s1 with fat := r.2.fat, usedbitmap := r.2.usedbitmap,
                        headbitmap := r.2.headbitmap, mod := s1.mod ||| r.1,
                        reported := s1.reported ++ [(head, cs.chainsize)] }
            else s1
          if s2.mod &&& FSFATAL ≠ 0 then outcome.ok s2
          else if ret2 = FSERROR ∧ ask 0 question.Clear head = true then
            match clearchain rdonly cfuel s2.fat s2.usedbitmap head with
            | outcome.timeout => outcome.timeout
            | outcome.abort => outcome.abort
            | outcome.ok (fat3, ub3) =>
              checklost_loop col ask rdonly cfuel fuel ((head + 1) % 2 ^ 32) (chains - 1)
                { s2 with fat := fat3, usedbitmap := ub3, mod := s2.mod ||| FSFATMOD }
          else
            checklost_loop col ask rdonly cfuel fuel ((head + 1) % 2 ^ 32) (chains - 1) s2
      else
        checklost_loop col ask rdonly cfuel fuel ((head + 1) % 2 ^ 32) (chains - 1) s
    else outcome.ok s

/-- The reconciliation of the FSInfo hints at the end of `checklost`: the boot
block afterwards and the flag `ret` that tells whether a hint was rewritten. -/
def checklost_fsinfo (ask : policy) (fat : fat_descriptor) : bootblock × Nat :=
  let boot := fat.boot
  let fixfree : Bool :=
    boot.FSFree ≠ 0xffffffff ∧ boot.FSFree ≠ boot.NumFree ∧ ask 1 question.Fix 0 = true
  let boot1 := if fixfree then { boot with FSFree := boot.NumFree } else boot
  let ret1 := if fixfree then 1 else 0
  if boot1.FSNext ≠ 0xffffffff ∧
      (boot1.FSNext ≥ boot1.NumClusters ∨
        (boot1.NumFree ≠ 0 ∧ fat_get_cl_next fat boot1.FSNext ≠ CLUST_FREE)) then
    if ask 1 question.fix 0 = true then
      match (List.range' CLUST_FIRST (boot1.NumClusters - CLUST_FIRST)).find?
          (fun head => fat_get_cl_next fat head = CLUST_FREE) with
      | some head => ({ boot1 with FSNext := head }, 1)
      | none => (boot1, ret1)
    else (boot1, ret1)
  else (boot1, ret1)

/-- The function `checklost`: the returned status and the state afterwards.  The
boot block `boot` of the source is the one of the descriptor. -/
def checklost (col : collaborators) (ask : policy) (rdonly : Bool) (fuel cfuel : Nat)
    (t : table_state) : outcome (Nat × lost_state) :=
  match checklost_loop col ask rdonly cfuel fuel CLUST_FIRST (bitmap_count t.headbitmap)
      ⟨t.fat, t.usedbitmap, t.headbitmap, FSOK, [], []⟩ with
  | outcome.timeout => outcome.timeout
  | outcome.abort => outcome.abort
  | outcome.ok s =>
    let s1 : lost_state :=
      if s.fat.boot.bpbFSInfo ≠ 0 then
        let b := checklost_fsinfo ask s.fat
        { s with fat := { s.fat with boot := b.1 },
                 mod := if b.2 ≠ 0 then s.mod ||| col.writefsinfo b.1 else s.mod }
      else s
    outcome.ok (s1.mod, { s1 with usedbitmap := { s1.usedbitmap with map := [] } })

/-- Collaborators for the examples: `reconnect` succeeds and leaves the state
alone, `writefsinfo` succeeds. -/
def collab_ok : collaborators := ⟨fun t _ _ => (FSOK, t), fun _ => FSOK⟩

/-- The boot block of a 32-bit volume with `n` clusters, an FSInfo sector, and
the hints `fsfree` and `fsnext`, used in examples. -/
def boot32 (n fsfree fsnext : Nat) : bootblock :=
  ⟨512, 32, 2, 0xf8, 1, 1, CLUST32_MASK, n, 0, 0, fsfree, fsnext⟩

/-- The policy of an operator who declines every truncation and accepts every
other question. -/
def policy_keep_links : policy := fun _ q _ => decide (q ≠ question.Truncate)

/-- The bytes of a 12-bit table with ten entries: the signature, the chain
7 → 8 → EOF that no directory entry refers to, and free clusters otherwise. -/
def fat12_lost : List Nat :=
  [0xf8, 0xff, 0xff, 0x00, 0x00, 0x00, 0x00, 0x00, 0x00, 0x00, 0x80, 0x00, 0xff, 0x0f, 0x00]

/-- The bytes of a 32-bit table with six entries: the signature, the chain 2 → 3
whose last entry is the out-of-range value `0x0ffffff0`, the free cluster 4 and
the root directory in cluster 5. -/
def fat32_lost : List Nat :=
  [0xf8, 0xff, 0xff, 0x0f, 0xff, 0xff, 0xff, 0x0f, 0x03, 0x00, 0x00, 0x00,
   0xf0, 0xff, 0xff, 0x0f, 0x00, 0x00, 0x00, 0x00, 0xff, 0xff, 0xff, 0x0f]

/-- The bytes of a 32-bit table with six entries and no free cluster: the
signature, the chain 2 → 3 whose last entry is the out-of-range value
`0x0ffffff0`, and the root directory in the chain 4 → 5 → EOF. -/
def fat32_full : List Nat :=
  [0xf8, 0xff, 0xff, 0x0f, 0xff, 0xff, 0xff, 0x0f, 0x03, 0x00, 0x00, 0x00,
   0xf0, 0xff, 0xff, 0x0f, 0x05, 0x00, 0x00, 0x00, 0xff, 0xff, 0xff, 0x0f]

/-- The state in which `checklost` is entered on the 12-bit volume with the
table `fat12_lost` and no file: what `readfat` leaves behind.  The head bitmap
holds the bits of clusters 0, 1 and 7 (and the padding bits from 10 on). -/
def lost12_state : table_state :=
  ⟨⟨{ boot12 10 with NumFree := 6 }, 0, fat12_lost⟩, ⟨0, [0]⟩, ⟨3, [18446744073709550723]⟩⟩

/-- The state in which `checklost` is entered on the 32-bit volume with the
table `fat32_lost`, FSInfo hints `FSFree = 100` and `FSNext = 2`, and an empty
root directory in cluster 5, under `policy_keep_links`: what `readfat` and the
walk of the root directory leave behind, with the head bit of the root
directory cleared. -/
def lost32_state : table_state :=
  ⟨⟨{ boot32 6 100 2 with NumFree := 1 }, 0, fat32_lost⟩, ⟨0, [0]⟩,
    ⟨3, [18446744073709551559]⟩⟩

/-- The state in which `checklost` is entered on the 32-bit volume with the
table `fat32_full`, FSInfo hints `FSFree = 0` and `FSNext = 4`, and an empty root
directory in the chain 4 → 5, under `policy_keep_links`: what `readfat` and the
walk of the root directory, which marks cluster 5 used, leave behind, with the
head bit of the root directory cleared. -/
def full32_state : table_state :=
  ⟨⟨boot32 6 0 4, 0, fat32_full⟩, ⟨1, [32]⟩, ⟨3, [18446744073709551559]⟩⟩

/-! ## The dirty flag: `checkdirty` -/

/-- The function `checkdirty`.  `malloc_ok` and `lseek_ok` tell whether the
allocation and the seek succeed; `sector` is what `read` delivers, `none` when
it fails or comes short, and else the `bpbBytesPerSec` bytes of the first
sector of the table. -/
def checkdirty (malloc_ok lseek_ok : Bool) (sector : Option (List Nat)) (boot : bootblock) :
    Nat :=
  if boot.ClustMask ≠ CLUST16_MASK ∧ boot.ClustMask ≠ CLUST32_MASK then 0
  else if ¬ malloc_ok then 1
  else if ¬ lseek_ok then 0
  else
    match sector with
    | none => 0
    | some buffer =>
      let b := rdb buffer
      if b 0 ≠ boot.bpbMedia ∨ b 1 ≠ 0xff then 0
      else if boot.ClustMask = CLUST16_MASK then
        if (b 2 &&& 0xf8) ≠ 0xf8 ∨ (b 3 &&& 0x3f) ≠ 0x3f then 0
        else if (b 3 &&& 0xc0) = 0xc0 then 1
        else 0
      else
        if b 2 ≠ 0xff ∨ (b 3 &&& 0x0f) ≠ 0x0f ∨ (b 4 &&& 0xf8) ≠ 0xf8 ∨ b 5 ≠ 0xff
            ∨ b 6 ≠ 0xff ∨ (b 7 &&& 0x03) ≠ 0x03 then 0
        else if (b 7 &&& 0x0c) = 0x0c then 1
        else 0

/-- The reserved entry `i` (0 or 1) of the table in `buf` as a little-endian
word of the width of the encoding. -/
def header_entry (mask : Nat) (buf : List Nat) (i : Nat) : Nat :=
  if mask = CLUST16_MASK then le16dec buf (2 * i) else le32dec buf (4 * i)

/-- Specification of a recognised header, in the words of the layout comment:
the low byte of entry 0 is the media byte and the bits above it (up to bit 15,
or bit 27 below the reserved bits of a 32-bit entry) are ones; the bits of
entry 1 from bit 3 up to the bit below the flag `h` are ones. -/
def header_recognized (boot : bootblock) (buf : List Nat) : Prop :=
  if boot.ClustMask = CLUST16_MASK then
    header_entry boot.ClustMask buf 0 % 256 = boot.bpbMedia ∧
    header_entry boot.ClustMask buf 0 / 256 = 2 ^ 8 - 1 ∧
    header_entry boot.ClustMask buf 1 / 8 % 2 ^ 11 = 2 ^ 11 - 1
  else
    header_entry boot.ClustMask buf 0 % 256 = boot.bpbMedia ∧
    header_entry boot.ClustMask buf 0 / 256 % 2 ^ 20 = 2 ^ 20 - 1 ∧
    header_entry boot.ClustMask buf 1 / 8 % 2 ^ 23 = 2 ^ 23 - 1

instance (boot : bootblock) (buf : List Nat) : Decidable (header_recognized boot buf) := by
  unfold header_recognized; infer_instance

/-- Specification of the clean flag `s` of the layout comment: bit 15 of entry
1 of a 16-bit table, bit 27 of entry 1 of a 32-bit table. -/
def clean_flag (boot : bootblock) (buf : List Nat) : Bool :=
  (header_entry boot.ClustMask buf 1).testBit
    (if boot.ClustMask = CLUST16_MASK then 15 else 27)

/-- Specification of the hard error flag `h` of the layout comment (1 = ok):
bit 14 of entry 1 of a 16-bit table, bit 26 of entry 1 of a 32-bit table. -/
def hard_error_flag (boot : bootblock) (buf : List Nat) : Bool :=
  (header_entry boot.ClustMask buf 1).testBit
    (if boot.ClustMask = CLUST16_MASK then 14 else 26)

/-- The boot block of a 16-bit volume with `n` clusters, used in examples. -/
def boot16 (n : Nat) : bootblock :=
  ⟨512, 1, 2, 0xf8, 0, 1, CLUST16_MASK, n, 0, 0, 0, 0⟩

/-! ## The chains of a table -/

/-- The clusters of a list of chains, each given by its head and the clusters
after the head. -/
def chain_clusters : List (Nat × List Nat) → List Nat
  | [] => []
  | ch :: chains => (ch.1 :: ch.2) ++ chain_clusters chains

/-- The clusters after the heads of a list of chains. -/
def chain_rests : List (Nat × List Nat) → List Nat
  | [] => []
  | ch :: chains => ch.2 ++ chain_rests chains

/-- The number of allocated clusters of a table with entries `g`: the clusters
`c` with `CLUST_FIRST ≤ c < n` whose entry is neither free nor bad. -/
def count_allocated (g : Nat → Nat) (n : Nat) : Nat :=
  ((List.range n).filter (fun c =>
    decide (CLUST_FIRST ≤ c ∧ g c ≠ CLUST_FREE ∧ g c ≠ CLUST_BAD))).length

/-- Invariant of the head scan of `checklost` on a table whose allocated
clusters are made up of the chains `chains`, before cluster `head` is looked
at: the table and the head bitmap are as at the start, no status has been
recorded, the heads walked are heads of chains and lie below `head`, and the
used bitmap holds exactly the clusters `marked`, which are the clusters after
the heads of the chains walked. -/
def lost_inv (fat0 : fat_descriptor) (hb0 : long_bitmap_t) (chains : List (Nat × List Nat))
    (head : Nat) (marked : List Nat) (s : lost_state) : Prop :=
  s.fat = fat0 ∧ s.headbitmap = hb0 ∧ s.mod = FSOK ∧
  (∀ w ∈ s.walked, w < head ∧ ∃ ch ∈ chains, ch.1 = w) ∧
  marked.Nodup ∧ s.usedbitmap.count = marked.length ∧
  (∀ x, bitmap_get s.usedbitmap x = decide (x ∈ marked)) ∧
  (∀ x, x ∈ marked ↔ ∃ ch ∈ chains, ch.1 ∈ s.walked ∧ x ∈ ch.2) ∧
  fat0.boot.NumClusters ≤ 64 * s.usedbitmap.map.length

/-- The bytes of a 12-bit table with ten entries: the signature, the chain
2 → 3 → EOF that no directory entry refers to, and free clusters otherwise. -/
def fat12_lost_low : List Nat :=
  [0xf8, 0xff, 0xff, 0x03, 0xf0, 0xff, 0x00, 0x00, 0x00, 0x00, 0x00, 0x00, 0x00, 0x00, 0x00]

/-- The state in which `checklost` is entered on the 12-bit volume with the
table `fat12_lost_low` and no file: what `readfat` leaves behind.  The head
bitmap holds the bits of clusters 0, 1 and 2 (and the padding bits from 10
on). -/
def lost12_low_state : table_state :=
  ⟨⟨{ boot12 10 with NumFree := 6 }, 0, fat12_lost_low⟩, ⟨0, [0]⟩, ⟨3, [18446744073709550599]⟩⟩

/-! ## Notions for the repetition of `readfat` -/

/-- The boot block with the counters `NumFree` and `NumBad` at 0, as `readfat`
sets them at its start. -/
def reset_counters (boot : bootblock) : bootblock :=
  { boot with NumFree := 0, NumBad := 0 }

/-- The first test of the signature check of `readfat`: the reserved entries
do not hold the expected bytes. -/
def signature_odd (boot : bootblock) (buffer : List Nat) : Prop :=
  rdb buffer 0 ≠ boot.bpbMedia ∨ rdb buffer 1 ≠ 0xff ∨ rdb buffer 2 ≠ 0xff
    ∨ (boot.ClustMask = CLUST16_MASK ∧ rdb buffer 3 ≠ 0xff)
    ∨ (boot.ClustMask = CLUST32_MASK
        ∧ ((rdb buffer 3 &&& 0x0f) ≠ 0x0f ∨ rdb buffer 4 ≠ 0xff ∨ rdb buffer 5 ≠ 0xff
            ∨ rdb buffer 6 ≠ 0xff ∨ (rdb buffer 7 &&& 0x0f) ≠ 0x0f))

instance (boot : bootblock) (buffer : List Nat) : Decidable (signature_odd boot buffer) := by
  unfold signature_odd; infer_instance

/-- The second test of the signature check of `readfat`: the reserved entries
hold the pattern that marks a volume in use. -/
def signature_dirty (boot : bootblock) (buffer : List Nat) : Prop :=
  rdb buffer 0 = boot.bpbMedia ∧ rdb buffer 1 = 0xff ∧ rdb buffer 2 = 0xff
    ∧ ((boot.ClustMask = CLUST16_MASK ∧ rdb buffer 3 = 0x7f)
        ∨ (boot.ClustMask = CLUST32_MASK
            ∧ rdb buffer 3 = 0x0f ∧ rdb buffer 4 = 0xff ∧ rdb buffer 5 = 0xff
            ∧ rdb buffer 6 = 0xff ∧ rdb buffer 7 = 0x07))

instance (boot : bootblock) (buffer : List Nat) : Decidable (signature_dirty boot buffer) := by
  unfold signature_dirty; infer_instance

/-- The buffer after the correction of the signature in `readfat`. -/
def signature_fix (boot : bootblock) (buffer : List Nat) : List Nat :=
  let p := ((buffer.set 0 (boot.bpbMedia % 256)).set 1 0xff).set 2 0xff
  if boot.ClustMask = CLUST16_MASK then p.set 3 0xff
  else if boot.ClustMask = CLUST32_MASK then
    ((((p.set 3 0x0f).set 4 0xff).set 5 0xff).set 6 0xff).set 7 0x0f
  else p

/-- The byte at offset `j` that the correction of the signature stores. -/
def signature_byte (boot : bootblock) (j : Nat) : Nat :=
  if j = 0 then boot.bpbMedia % 256
  else if boot.ClustMask = CLUST32_MASK ∧ (j = 3 ∨ j = 7) then 0x0f
  else 0xff

/-! ## Writing the table back: `writefat` -/

/-- One iteration of the loop of `writefat`, for the copy `i`, on the status and
the record of the writes issued so far (the offset sought and the bytes
handed to `write`, the first `fatsize` bytes of the buffer).  `lseek_ok` tells
whether the seek to an offset succeeds and `write_ret` what `write` returns.
The sector number is computed in `u_int` and the offset in `off_t`. -/
def writefat_step (lseek_ok : Nat → Bool) (write_ret : Nat → List Nat → Nat)
    (boot : bootblock) (fat : fat_descriptor) (i : Nat) (st : Nat × List (Nat × List Nat)) :
    Nat × List (Nat × List Nat) :=
  let fatsz := fat.fatsize
  let off := ((boot.bpbResSectors + i * boot.FATsecs) % 2 ^ 32) * boot.bpbBytesPerSec
  if lseek_ok off = false then (FSFATAL, st.2)
  else if write_ret off (fat.fatbuf.take fatsz) ≠ fatsz then
    (FSFATAL, st.2 ++ [(off, fat.fatbuf.take fatsz)])
  else (st.1, st.2 ++ [(off, fat.fatbuf.take fatsz)])

/-- The function `writefat`: the returned status and the record of the writes
issued.  `is_mmapped` is the global of that name. -/
def writefat (is_mmapped : Bool) (lseek_ok : Nat → Bool) (write_ret : Nat → List Nat → Nat)
    (boot : bootblock) (fat : fat_descriptor) : Nat × List (Nat × List Nat) :=
  let first := if is_mmapped then 1 else 0
  (List.range' first (boot.bpbFATs - first)).foldl
    (fun st i => writefat_step lseek_ok write_ret boot fat i st) (FSOK, [])

/-- The bytes of the one-sector 12-bit table of `fat12_demo`, padded to the 512
bytes of the sector. -/
def fat12_sector : List Nat :=
  [0xf8, 0xff, 0xff, 0x05, 0x60, 0x00, 0x00, 0xf0, 0xff, 0xff, 0x1f, 0x00]
    ++ List.replicate 500 0

/-! ## Further example tables -/

/-- The bytes of the 12-bit table `fat12_lost` with a damaged first signature
byte. -/
def fat12_odd : List Nat :=
  [0x00, 0xff, 0xff, 0x00, 0x00, 0x00, 0x00, 0x00, 0x00, 0x00, 0x80, 0x00, 0xff, 0x0f, 0x00]

/-- The bytes of a 12-bit table with eight entries in which cluster 2 links to
cluster 3 and cluster 3 is free. -/
def fat12_link_to_free : List Nat :=
  [0xf8, 0xff, 0xff, 0x03, 0x00, 0x00, 0x00, 0x00, 0x00, 0x00, 0x00, 0x00]

/-- A 12-bit table with eight entries in which cluster 2 has the successor 8, the
value of `NumClusters`, and all other clusters are free. -/
def fat12_edge : fat_descriptor :=
  ⟨boot12 8, 0, [0xf8, 0xff, 0xff, 0x08, 0x00, 0x00, 0x00, 0x00, 0x00, 0x00, 0x00, 0x00]⟩

/-- The state in which `checklost` is entered on a 16-bit volume with 256
clusters and no file: clusters 2 to 127 and 253 to 255 are free and each of the
clusters 128 to 252 is a lost chain of one cluster.  The head bitmap, as
`readfat` leaves it, holds the bits of clusters 0 and 1 and of the 125 lost
heads. -/
def lost16_state : table_state :=
  ⟨⟨{ boot16 256 with NumFree := 129 }, 0,
      [0xf8, 0xff, 0xff, 0xff] ++ List.replicate 252 0x00 ++ List.replicate 250 0xff
        ++ List.replicate 6 0x00⟩,
    ⟨0, [0, 0, 0, 0]⟩, ⟨127, [3, 0, 2 ^ 64 - 1, 2 ^ 61 - 1]⟩⟩

/-! ## A measure for the chain walker -/

/-- The number of clusters `c` with `CLUST_FIRST ≤ c < n` whose used bit is
clear. -/
def unused_count (lbp : long_bitmap_t) (n : Nat) : Nat :=
  count_clusters (fun c => if bitmap_get lbp c = true then 1 else 0) 0 n

/-- A 32-bit table with six entries in which the word of cluster 2 is
`0xf0000005`: the successor 5 in the low 28 bits and the four reserved high
bits set. -/
def fat32_reserved : fat_descriptor :=
  ⟨boot32 6 0 0, 0,
    [0xf8, 0xff, 0xff, 0x0f, 0xff, 0xff, 0xff, 0x0f, 0x05, 0x00, 0x00, 0xf0,
     0x00, 0x00, 0x00, 0x00, 0x00, 0x00, 0x00, 0x00, 0xff, 0xff, 0xff, 0x0f]⟩

/-- The bytes of a 12-bit table with 64 entries in which cluster 2 has the
successor 64, the value of `NumClusters`, and all other clusters are free. -/
def fat12_edge64 : List Nat :=
  [0xf8, 0xff, 0xff, 0x40, 0x00, 0x00] ++ List.replicate 90 0x00

/-- The bytes of a 12-bit table with eight entries in which cluster 2 has the
successor 1, a value below `CLUST_FIRST` that is not free, and all other
clusters are free. -/
def fat12_reserved_link : List Nat :=
  [0xf8, 0xff, 0xff, 0x01, 0x00, 0x00, 0x00, 0x00, 0x00, 0x00, 0x00, 0x00]

/-- The state that `readfat` leaves on the 12-bit volume with the table
`fat12_reserved_link` when the operator declines the truncation of cluster 2:
the table as loaded, five free clusters counted, and the head bits of clusters
0, 1 and 2 (and the padding bits from 8 on). -/
def reserved_link_state : table_state :=
  ⟨⟨{ boot12 8 with NumFree := 5 }, 0, fat12_reserved_link⟩, ⟨0, [0]⟩,
    ⟨3, [18446744073709551367]⟩⟩


/-! ## Bit arithmetic -/

theorem and_ff (x : Nat) : x &&& 0xff = x % 256 := Nat.and_pow_two_sub_one_eq_mod x 8
theorem and_0f (x : Nat) : x &&& 0x0f = x % 16 := Nat.and_pow_two_sub_one_eq_mod x 4
theorem and_one (x : Nat) : x &&& 1 = x % 2 := Nat.and_pow_two_sub_one_eq_mod x 1
theorem and_fff (x : Nat) : x &&& 0xfff = x % 4096 := Nat.and_pow_two_sub_one_eq_mod x 12
theorem and_ffff (x : Nat) : x &&& 0xffff = x % 65536 := Nat.and_pow_two_sub_one_eq_mod x 16
theorem and_fffffff (x : Nat) : x &&& 0xfffffff = x % 268435456 := Nat.and_pow_two_sub_one_eq_mod x 28
theorem and_f0 (x : Nat) : x &&& 0xf0 = x / 16 % 16 * 16 := by
  apply Nat.eq_of_testBit_eq
  intro i
  have h : (0xf0 : Nat) = (2 ^ 4 - 1) <<< 4 := by decide
  rw [h, Nat.testBit_and, Nat.testBit_shiftLeft, Nat.testBit_two_pow_sub_one]
  have h2 : x / 16 % 16 * 16 = ((x >>> 4) % 2 ^ 4) <<< 4 := by
    rw [Nat.shiftLeft_eq, Nat.shiftRight_eq_div_pow]; norm_num
  rw [h2, Nat.testBit_shiftLeft, Nat.testBit_mod_two_pow, Nat.testBit_shiftRight]
  by_cases hi : i ≥ 4
  · have : 4 + (i - 4) = i := by omega
    simp [hi, this, Bool.and_comm]
  · simp [hi]
theorem or_add (a b i : Nat) (h : b < 2 ^ i) : (a <<< i) ||| b = a * 2 ^ i + b := by
  rw [Nat.shiftLeft_eq, Nat.mul_comm, ← Nat.mul_add_lt_is_or h]
theorem or_add2 (a b i : Nat) (h : b < 2 ^ i) : b ||| (a <<< i) = a * 2 ^ i + b := by
  rw [Nat.lor_comm]; exact or_add a b i h

theorem rdb_lt (buf : List Nat) (i : Nat) : rdb buf i < 256 :=
  Nat.mod_lt _ (by decide)

theorem rdb_set (buf : List Nat) (i j v : Nat) :
    rdb (buf.set i v) j = if i = j ∧ i < buf.length then v % 256 else rdb buf j := by
  unfold rdb
  rw [List.getD_eq_getElem?_getD, List.getD_eq_getElem?_getD, List.getElem?_set]
  by_cases h1 : i = j
  · by_cases h2 : i < buf.length
    · subst h1
      simp [h2]
    · subst h1
      have : buf.length ≤ i := by omega
      simp [h2, List.getElem?_eq_none this]
  · simp [h1]

theorem le16dec_eq (buf : List Nat) (off : Nat) :
    le16dec buf off = rdb buf (off + 1) * 256 + rdb buf off := by
  unfold le16dec
  rw [or_add _ _ 8 (rdb_lt _ _)]; norm_num

theorem or_add_dvd (x y i : Nat) (hx : 2 ^ i ∣ x) (hy : y < 2 ^ i) :
    x ||| y = x + y := by
  obtain ⟨a, rfl⟩ := hx
  exact (Nat.mul_add_lt_is_or hy a).symm

theorem le32dec_eq (buf : List Nat) (off : Nat) :
    le32dec buf off = rdb buf (off + 3) * 16777216 + rdb buf (off + 2) * 65536
      + rdb buf (off + 1) * 256 + rdb buf off := by
  unfold le32dec
  have h0 := rdb_lt buf off
  have h1 := rdb_lt buf (off + 1)
  have h2 := rdb_lt buf (off + 2)
  simp only [Nat.shiftLeft_eq]
  have e1 : rdb buf (off + 3) * 2 ^ 24 ||| rdb buf (off + 2) * 2 ^ 16
      = rdb buf (off + 3) * 2 ^ 24 + rdb buf (off + 2) * 2 ^ 16 :=
    or_add_dvd _ _ 24 (Dvd.intro_left _ rfl) (by omega)
  have e2 : (rdb buf (off + 3) * 2 ^ 24 + rdb buf (off + 2) * 2 ^ 16) |||
      rdb buf (off + 1) * 2 ^ 8
      = rdb buf (off + 3) * 2 ^ 24 + rdb buf (off + 2) * 2 ^ 16
        + rdb buf (off + 1) * 2 ^ 8 :=
    or_add_dvd _ _ 16 (by omega) (by omega)
  have e3 : (rdb buf (off + 3) * 2 ^ 24 + rdb buf (off + 2) * 2 ^ 16
        + rdb buf (off + 1) * 2 ^ 8) ||| rdb buf off
      = rdb buf (off + 3) * 2 ^ 24 + rdb buf (off + 2) * 2 ^ 16
        + rdb buf (off + 1) * 2 ^ 8 + rdb buf off :=
    or_add_dvd _ _ 8 (by omega) (by omega)
  rw [e1, e2, e3]
  norm_num

theorem rdb_le16enc (buf : List Nat) (off u j : Nat) :
    rdb (le16enc buf off u) j =
      if j = off + 1 ∧ off + 1 < buf.length then u / 256 % 256
      else if j = off ∧ off < buf.length then u % 256 else rdb buf j := by
  unfold le16enc
  rw [rdb_set, rdb_set, List.length_set, and_ff, and_ff, Nat.shiftRight_eq_div_pow]
  by_cases h1 : j = off + 1
  · subst h1
    by_cases h2 : off + 1 < buf.length
    · simp [h2]
    · simp [h2]
  · have h1' : ¬ (off + 1 = j) := fun h => h1 h.symm
    by_cases h3 : j = off
    · subst h3
      by_cases h4 : j < buf.length
      · simp [h4]
      · simp [h4]
    · have h3' : ¬ (off = j) := fun h => h3 h.symm
      simp [h1, h1', h3, h3']

theorem sign12 (raw : Nat) (h : raw < 4096) :
    raw ||| not32 CLUST12_MASK = raw + 0xfffff000 := by
  rw [Nat.lor_comm, or_add_dvd _ _ 12 (by decide) h]
  simp [not32, CLUST12_MASK]; omega

theorem sign16 (raw : Nat) (h : raw < 65536) :
    raw ||| not32 CLUST16_MASK = raw + 0xffff0000 := by
  rw [Nat.lor_comm, or_add_dvd _ _ 16 (by decide) h]
  simp [not32, CLUST16_MASK]; omega

theorem sign32 (raw : Nat) (h : raw < 268435456) :
    raw ||| not32 CLUST32_MASK = raw + 0xf0000000 := by
  rw [Nat.lor_comm, or_add_dvd _ _ 28 (by decide) h]
  simp [not32, CLUST32_MASK]; omega

theorem bad12 : CLUST_BAD &&& CLUST12_MASK = 0xff7 := by decide
theorem bad16 : CLUST_BAD &&& CLUST16_MASK = 0xfff7 := by decide
theorem bad32 : CLUST_BAD &&& CLUST32_MASK = 0xffffff7 := by decide

/-- Arithmetic form of the 12-bit read. -/
theorem fat12_get_eq (fat : fat_descriptor) (cl : Nat) :
    fat_get_fat12_next fat cl =
      (let w := rdb fat.fatbuf (fat_get_fat12_ptr cl + 1) * 256
          + rdb fat.fatbuf (fat_get_fat12_ptr cl)
       let raw := (if cl % 2 = 1 then w / 16 else w) % 4096
       if raw ≥ 0xff7 then raw + 0xfffff000 else raw) := by
  unfold fat_get_fat12_next
  simp only [le16dec_eq, and_one, bad12, Nat.shiftRight_eq_div_pow]
  simp only [CLUST12_MASK, and_fff]
  split_ifs <;> first | rfl | (rw [← CLUST12_MASK, sign12 _ (Nat.mod_lt _ (by decide))])

/-- Arithmetic form of the 16-bit read. -/
theorem fat16_get_eq (fat : fat_descriptor) (cl : Nat) :
    fat_get_fat16_next fat cl =
      (let raw := rdb fat.fatbuf (fat_get_fat16_ptr cl + 1) * 256
          + rdb fat.fatbuf (fat_get_fat16_ptr cl)
       if raw ≥ 0xfff7 then raw + 0xffff0000 else raw) := by
  unfold fat_get_fat16_next
  have h0 := rdb_lt fat.fatbuf (fat_get_fat16_ptr cl)
  have h1 := rdb_lt fat.fatbuf (fat_get_fat16_ptr cl + 1)
  have hm : (rdb fat.fatbuf (fat_get_fat16_ptr cl + 1) * 256
      + rdb fat.fatbuf (fat_get_fat16_ptr cl)) % 65536
      = rdb fat.fatbuf (fat_get_fat16_ptr cl + 1) * 256
      + rdb fat.fatbuf (fat_get_fat16_ptr cl) := Nat.mod_eq_of_lt (by omega)
  simp only [le16dec_eq, bad16]
  simp only [CLUST16_MASK, and_ffff, hm]
  split_ifs <;> first | rfl | (rw [← CLUST16_MASK, sign16 _ (by omega)])

/-- Arithmetic form of the 32-bit read. -/
theorem fat32_get_eq (fat : fat_descriptor) (cl : Nat) :
    fat_get_fat32_next fat cl =
      (let raw := (rdb fat.fatbuf (fat_get_fat32_ptr cl + 3) % 16) * 16777216
          + rdb fat.fatbuf (fat_get_fat32_ptr cl + 2) * 65536
          + rdb fat.fatbuf (fat_get_fat32_ptr cl + 1) * 256
          + rdb fat.fatbuf (fat_get_fat32_ptr cl)
       if raw ≥ 0xffffff7 then raw + 0xf0000000 else raw) := by
  unfold fat_get_fat32_next
  have h0 := rdb_lt fat.fatbuf (fat_get_fat32_ptr cl)
  have h1 := rdb_lt fat.fatbuf (fat_get_fat32_ptr cl + 1)
  have h2 := rdb_lt fat.fatbuf (fat_get_fat32_ptr cl + 2)
  have h3 := rdb_lt fat.fatbuf (fat_get_fat32_ptr cl + 3)
  have hm : (rdb fat.fatbuf (fat_get_fat32_ptr cl + 3) * 16777216
      + rdb fat.fatbuf (fat_get_fat32_ptr cl + 2) * 65536
      + rdb fat.fatbuf (fat_get_fat32_ptr cl + 1) * 256
      + rdb fat.fatbuf (fat_get_fat32_ptr cl)) % 268435456
      = (rdb fat.fatbuf (fat_get_fat32_ptr cl + 3) % 16) * 16777216
      + rdb fat.fatbuf (fat_get_fat32_ptr cl + 2) * 65536
      + rdb fat.fatbuf (fat_get_fat32_ptr cl + 1) * 256
      + rdb fat.fatbuf (fat_get_fat32_ptr cl) := by omega
  simp only [le32dec_eq, bad32]
  simp only [CLUST32_MASK, and_fffffff, hm]
  split_ifs <;> first | rfl | (rw [← CLUST32_MASK, sign32 _ (by omega)])

/-- Bytes of the buffer after a 12-bit write. -/
theorem fat12_set_rdb (fat : fat_descriptor) (cl v j : Nat) :
    rdb (fat_set_fat12_next fat cl v).2.fatbuf j =
      (let p := fat_get_fat12_ptr cl
       if j = p + 1 ∧ p + 1 < fat.fatbuf.length then
         (if cl % 2 = 0 then v % 4096 / 256 + rdb fat.fatbuf (p + 1) / 16 * 16
          else v % 4096 / 16)
       else if j = p ∧ p < fat.fatbuf.length then
         (if cl % 2 = 0 then v % 256 else v % 16 * 16 + rdb fat.fatbuf p % 16)
       else rdb fat.fatbuf j) := by
  unfold fat_set_fat12_next
  have h0 := rdb_lt fat.fatbuf (fat_get_fat12_ptr cl)
  have h1 := rdb_lt fat.fatbuf (fat_get_fat12_ptr cl + 1)
  simp only [rdb_le16enc, and_one, and_f0, and_0f]
  simp only [CLUST12_MASK, and_fff]
  by_cases hpar : cl % 2 = 0
  · simp only [hpar, if_true]
    have e : v % 4096 ||| (rdb fat.fatbuf (fat_get_fat12_ptr cl + 1) / 16 % 16 * 16) <<< 8
        = rdb fat.fatbuf (fat_get_fat12_ptr cl + 1) / 16 % 16 * 4096 + v % 4096 := by
      rw [Nat.lor_comm, Nat.shiftLeft_eq, or_add_dvd _ _ 12 (by omega) (by omega)]; omega
    rw [e]
    split_ifs <;> omega
  · simp only [hpar, if_false]
    have e : (v % 4096) <<< 4 % 2 ^ 32 ||| rdb fat.fatbuf (fat_get_fat12_ptr cl) % 16
        = v % 4096 * 16 + rdb fat.fatbuf (fat_get_fat12_ptr cl) % 16 := by
      rw [Nat.shiftLeft_eq, or_add_dvd _ _ 4 (by omega) (by omega)]; omega
    rw [e]
    split_ifs <;> omega

/-- Bytes of the buffer after a 16-bit write. -/
theorem fat16_set_rdb (fat : fat_descriptor) (cl v j : Nat) :
    rdb (fat_set_fat16_next fat cl v).2.fatbuf j =
      (let p := fat_get_fat16_ptr cl
       if j = p + 1 ∧ p + 1 < fat.fatbuf.length then v % 65536 / 256
       else if j = p ∧ p < fat.fatbuf.length then v % 256
       else rdb fat.fatbuf j) := by
  unfold fat_set_fat16_next
  simp only [rdb_le16enc]
  simp only [CLUST16_MASK, and_ffff]
  split_ifs <;> omega

theorem rdb_le32enc (buf : List Nat) (off u j : Nat) :
    rdb (le32enc buf off u) j =
      if j = off + 3 ∧ off + 3 < buf.length then u / 16777216 % 256
      else if j = off + 2 ∧ off + 2 < buf.length then u / 65536 % 256
      else if j = off + 1 ∧ off + 1 < buf.length then u / 256 % 256
      else if j = off ∧ off < buf.length then u % 256 else rdb buf j := by
  unfold le32enc
  simp only [rdb_set, List.length_set, and_ff, Nat.shiftRight_eq_div_pow]
  by_cases h3 : j = off + 3
  · subst h3; by_cases hl : off + 3 < buf.length <;> simp [hl]
  · by_cases h2 : j = off + 2
    · subst h2; by_cases hl : off + 2 < buf.length <;> simp [hl]
    · by_cases h1 : j = off + 1
      · subst h1; by_cases hl : off + 1 < buf.length <;> simp [hl]
      · by_cases h0 : j = off
        · subst h0; by_cases hl : j < buf.length <;> simp [hl]
        · have a3 : ¬ (off + 3 = j) := fun h => h3 h.symm
          have a2 : ¬ (off + 2 = j) := fun h => h2 h.symm
          have a1 : ¬ (off + 1 = j) := fun h => h1 h.symm
          have a0 : ¬ (off = j) := fun h => h0 h.symm
          simp [h3, h2, h1, h0, a3, a2, a1, a0]

/-- Bytes of the buffer after a 32-bit write. -/
theorem fat32_set_rdb (fat : fat_descriptor) (cl v j : Nat) :
    rdb (fat_set_fat32_next fat cl v).2.fatbuf j =
      (let p := fat_get_fat32_ptr cl
       if j = p + 3 ∧ p + 3 < fat.fatbuf.length then v % 268435456 / 16777216
       else if j = p + 2 ∧ p + 2 < fat.fatbuf.length then v / 65536 % 256
       else if j = p + 1 ∧ p + 1 < fat.fatbuf.length then v / 256 % 256
       else if j = p ∧ p < fat.fatbuf.length then v % 256
       else rdb fat.fatbuf j) := by
  unfold fat_set_fat32_next
  simp only [rdb_le32enc]
  simp only [CLUST32_MASK, and_fffffff]
  split_ifs <;> omega


theorem fat12_roundtrip (fat : fat_descriptor) (cl v : Nat)
    (hbuf : fat_get_fat12_ptr cl + 2 ≤ fat.fatbuf.length) :
    fat_get_fat12_next (fat_set_fat12_next fat cl v).2 cl
      = sx 0xff7 0xfffff000 (v % 4096) := by
  rw [fat12_get_eq]
  simp only [fat12_set_rdb, sx]
  have h0 := rdb_lt fat.fatbuf (fat_get_fat12_ptr cl)
  have h1 := rdb_lt fat.fatbuf (fat_get_fat12_ptr cl + 1)
  have hl1 : fat_get_fat12_ptr cl + 1 < fat.fatbuf.length := by omega
  have hl0 : fat_get_fat12_ptr cl < fat.fatbuf.length := by omega
  simp only [hl1, hl0, and_true, if_true, true_and]
  have hne : ¬ (fat_get_fat12_ptr cl = fat_get_fat12_ptr cl + 1) := by omega
  simp only [hne, if_false]
  by_cases hpar : cl % 2 = 0
  · simp only [hpar, (by decide : ¬ (0 : Nat) = 1), if_true, if_false]
    have e : ((v % 4096 / 256 + rdb fat.fatbuf (fat_get_fat12_ptr cl + 1) / 16 * 16) * 256
        + v % 256) % 4096 = v % 4096 := by omega
    rw [e]
  · have hpar' : cl % 2 = 1 := by omega
    simp only [hpar', (by decide : ¬ (1 : Nat) = 0), if_true, if_false]
    have e : ((v % 4096 / 16 * 256 + (v % 16 * 16
        + rdb fat.fatbuf (fat_get_fat12_ptr cl) % 16)) / 16) % 4096 = v % 4096 := by omega
    rw [e]

theorem fat16_roundtrip (fat : fat_descriptor) (cl v : Nat)
    (hbuf : fat_get_fat16_ptr cl + 2 ≤ fat.fatbuf.length) :
    fat_get_fat16_next (fat_set_fat16_next fat cl v).2 cl
      = sx 0xfff7 0xffff0000 (v % 65536) := by
  rw [fat16_get_eq]
  simp only [fat16_set_rdb, sx]
  have hl1 : fat_get_fat16_ptr cl + 1 < fat.fatbuf.length := by omega
  have hl0 : fat_get_fat16_ptr cl < fat.fatbuf.length := by omega
  have hne : ¬ (fat_get_fat16_ptr cl = fat_get_fat16_ptr cl + 1) := by omega
  simp only [hl1, hl0, and_true, if_true, true_and, hne, if_false]
  have e : v % 65536 / 256 * 256 + v % 256 = v % 65536 := by omega
  rw [e]

theorem fat32_roundtrip (fat : fat_descriptor) (cl v : Nat)
    (hbuf : fat_get_fat32_ptr cl + 4 ≤ fat.fatbuf.length) :
    fat_get_fat32_next (fat_set_fat32_next fat cl v).2 cl
      = sx 0xffffff7 0xf0000000 (v % 268435456) := by
  rw [fat32_get_eq]
  simp only [fat32_set_rdb, sx]
  have hl3 : fat_get_fat32_ptr cl + 3 < fat.fatbuf.length := by omega
  have hl2 : fat_get_fat32_ptr cl + 2 < fat.fatbuf.length := by omega
  have hl1 : fat_get_fat32_ptr cl + 1 < fat.fatbuf.length := by omega
  have hl0 : fat_get_fat32_ptr cl < fat.fatbuf.length := by omega
  have n1 : ¬ (fat_get_fat32_ptr cl = fat_get_fat32_ptr cl + 1) := by omega
  have n2 : ¬ (fat_get_fat32_ptr cl = fat_get_fat32_ptr cl + 2) := by omega
  have n3 : ¬ (fat_get_fat32_ptr cl = fat_get_fat32_ptr cl + 3) := by omega
  have n4 : ¬ (fat_get_fat32_ptr cl + 1 = fat_get_fat32_ptr cl + 2) := by omega
  have n5 : ¬ (fat_get_fat32_ptr cl + 1 = fat_get_fat32_ptr cl + 3) := by omega
  have n6 : ¬ (fat_get_fat32_ptr cl + 2 = fat_get_fat32_ptr cl + 3) := by omega
  simp only [hl3, hl2, hl1, hl0, and_true, if_true, true_and, n1, n2, n3, n4, n5, n6,
    if_false]
  have e : v % 268435456 / 16777216 % 16 * 16777216 + v / 65536 % 256 * 65536
      + v / 256 % 256 * 256 + v % 256 = v % 268435456 := by omega
  rw [e]

/-! ## Round trip of the accessor -/

theorem sign_extend12 (v : Nat) :
    sign_extend CLUST12_MASK (v &&& CLUST12_MASK) = sx 0xff7 0xfffff000 (v % 4096) := by
  unfold sign_extend sx
  rw [bad12]
  simp only [CLUST12_MASK, and_fff]
  split_ifs <;> first | rfl | (rw [← CLUST12_MASK, sign12 _ (Nat.mod_lt _ (by decide))])

theorem sign_extend16 (v : Nat) :
    sign_extend CLUST16_MASK (v &&& CLUST16_MASK) = sx 0xfff7 0xffff0000 (v % 65536) := by
  unfold sign_extend sx
  rw [bad16]
  simp only [CLUST16_MASK, and_ffff]
  split_ifs <;> first | rfl | (rw [← CLUST16_MASK, sign16 _ (Nat.mod_lt _ (by decide))])

theorem sign_extend32 (v : Nat) :
    sign_extend CLUST32_MASK (v &&& CLUST32_MASK)
      = sx 0xffffff7 0xf0000000 (v % 268435456) := by
  unfold sign_extend sx
  rw [bad32]
  simp only [CLUST32_MASK, and_fffffff]
  split_ifs <;> first | rfl | (rw [← CLUST32_MASK, sign32 _ (Nat.mod_lt _ (by decide))])

theorem mask_distinct : CLUST12_MASK ≠ CLUST16_MASK ∧ CLUST12_MASK ≠ CLUST32_MASK
    ∧ CLUST16_MASK ≠ CLUST32_MASK := by decide

/-- The generic write on a writable table and a valid cluster. -/
theorem fat_set_cl_next_valid (fat : fat_descriptor) (cl v : Nat)
    (hlo : CLUST_FIRST ≤ cl) (hhi : cl < fat.boot.NumClusters) :
    fat_set_cl_next false fat cl v =
      if fat.boot.ClustMask = CLUST12_MASK then fat_set_fat12_next fat cl v
      else if fat.boot.ClustMask = CLUST16_MASK then fat_set_fat16_next fat cl v
      else if fat.boot.ClustMask = CLUST32_MASK then fat_set_fat32_next fat cl v
      else (FSFATAL, fat) := by
  unfold fat_set_cl_next
  have h : ¬ (cl < CLUST_FIRST ∨ cl ≥ fat.boot.NumClusters) := by omega
  simp [h]

/-- The generic read on a valid cluster. -/
theorem fat_get_cl_next_valid (fat : fat_descriptor) (cl : Nat)
    (hlo : CLUST_FIRST ≤ cl) (hhi : cl < fat.boot.NumClusters) :
    fat_get_cl_next fat cl =
      if fat.boot.ClustMask = CLUST12_MASK then fat_get_fat12_next fat cl
      else if fat.boot.ClustMask = CLUST16_MASK then fat_get_fat16_next fat cl
      else if fat.boot.ClustMask = CLUST32_MASK then fat_get_fat32_next fat cl
      else CLUST_DEAD := by
  unfold fat_get_cl_next
  have h : ¬ (cl < CLUST_FIRST ∨ cl ≥ fat.boot.NumClusters) := by omega
  simp [h]

/-- A write never changes the geometry. -/
theorem fat_set_cl_next_boot (rdonly : Bool) (fat : fat_descriptor) (cl v : Nat) :
    (fat_set_cl_next rdonly fat cl v).2.boot = fat.boot := by
  unfold fat_set_cl_next fat_set_fat12_next fat_set_fat16_next fat_set_fat32_next
  split_ifs <;> rfl

/-- A write never changes the length of the buffer. -/
theorem fat_set_cl_next_length (rdonly : Bool) (fat : fat_descriptor) (cl v : Nat) :
    (fat_set_cl_next rdonly fat cl v).2.fatbuf.length = fat.fatbuf.length := by
  unfold fat_set_cl_next fat_set_fat12_next fat_set_fat16_next fat_set_fat32_next
    le16enc le32enc
  split_ifs <;> simp

/-- Reading back a written entry, in arithmetic form. -/
theorem fat_get_set_same (fat : fat_descriptor) (cl v : Nat)
    (hmask : is_fat_mask fat.boot.ClustMask)
    (hlo : CLUST_FIRST ≤ cl) (hhi : cl < fat.boot.NumClusters)
    (hbuf : fat_entry_end fat cl ≤ fat.fatbuf.length) :
    (fat_set_cl_next false fat cl v).1 = FSOK ∧
    fat_get_cl_next (fat_set_cl_next false fat cl v).2 cl
      = sign_extend fat.boot.ClustMask (v &&& fat.boot.ClustMask) := by
  have hb := fat_set_cl_next_boot false fat cl v
  rw [fat_get_cl_next_valid _ cl hlo (by rw [hb]; exact hhi), hb,
    fat_set_cl_next_valid fat cl v hlo hhi]
  unfold fat_entry_end at hbuf
  obtain ⟨d1, d2, d3⟩ := mask_distinct
  rcases hmask with h | h | h
  · simp only [h, if_true] at hbuf ⊢
    exact ⟨rfl, by rw [fat12_roundtrip fat cl v hbuf, sign_extend12]⟩
  · simp only [h, d1.symm, if_true, if_false] at hbuf ⊢
    exact ⟨rfl, by rw [fat16_roundtrip fat cl v hbuf, sign_extend16]⟩
  · simp only [h, d2.symm, d3.symm, if_true, if_false] at hbuf ⊢
    exact ⟨rfl, by rw [fat32_roundtrip fat cl v hbuf, sign_extend32]⟩

/-- Sign extension is the identity on the representable values. -/
theorem sign_extend_representable (m v : Nat) (hmask : is_fat_mask m)
    (hv : v < 2 ^ 32) (hr : v < (CLUST_BAD &&& m) ∨ v ≥ CLUST_BAD) :
    sign_extend m (v &&& m) = v := by
  rcases hmask with h | h | h
  · subst h
    rw [sign_extend12]
    rw [bad12] at hr
    unfold sx; unfold CLUST_BAD at hr
    split_ifs <;> omega
  · subst h
    rw [sign_extend16]
    rw [bad16] at hr
    unfold sx; unfold CLUST_BAD at hr
    split_ifs <;> omega
  · subst h
    rw [sign_extend32]
    rw [bad32] at hr
    unfold sx; unfold CLUST_BAD at hr
    split_ifs <;> omega

/-- C1: on a writable table in any of the three encodings, writing `v` to a valid
cluster whose entry lies inside the buffer succeeds, and reading the cluster back
gives the sign-extended form of `v & mask`; that is `v` itself whenever `v` is
below the masked bad marker or at least `CLUST_BAD`. -/
theorem fat_set_get_roundtrip (fat : fat_descriptor) (cl v : Nat)
    (hmask : is_fat_mask fat.boot.ClustMask)
    (hlo : CLUST_FIRST ≤ cl) (hhi : cl < fat.boot.NumClusters)
    (hv : v < 2 ^ 32)
    (hbuf : fat_entry_end fat cl ≤ fat.fatbuf.length) :
    (fat_set_cl_next false fat cl v).1 = FSOK ∧
    fat_get_cl_next (fat_set_cl_next false fat cl v).2 cl
      = sign_extend fat.boot.ClustMask (v &&& fat.boot.ClustMask) ∧
    ((v < (CLUST_BAD &&& fat.boot.ClustMask) ∨ v ≥ CLUST_BAD) →
      fat_get_cl_next (fat_set_cl_next false fat cl v).2 cl = v) := by
  obtain ⟨h1, h2⟩ := fat_get_set_same fat cl v hmask hlo hhi hbuf
  exact ⟨h1, h2, fun hr => by rw [h2, sign_extend_representable _ v hmask hv hr]⟩

/-! ## Frame of a write -/

theorem fat12_ptr_eq (cl : Nat) (h : cl ≤ 2 ^ 30) : fat_get_fat12_ptr cl = cl + cl / 2 := by
  unfold fat_get_fat12_ptr
  rw [Nat.shiftRight_eq_div_pow]
  omega

theorem fat16_ptr_eq (cl : Nat) (h : cl ≤ 2 ^ 30) : fat_get_fat16_ptr cl = 2 * cl := by
  unfold fat_get_fat16_ptr
  rw [Nat.shiftLeft_eq]
  omega

theorem fat32_ptr_eq (cl : Nat) (h : cl < 2 ^ 30) : fat_get_fat32_ptr cl = 4 * cl := by
  unfold fat_get_fat32_ptr
  rw [Nat.shiftLeft_eq]
  omega

theorem fat12_frame (fat : fat_descriptor) (cl v c : Nat)
    (hcl : cl ≤ 2 ^ 30) (hc : c ≤ 2 ^ 30) (hne : c ≠ cl) :
    fat_get_fat12_next (fat_set_fat12_next fat cl v).2 c = fat_get_fat12_next fat c := by
  rw [fat12_get_eq, fat12_get_eq]
  simp only [fat12_set_rdb]
  rw [fat12_ptr_eq cl hcl, fat12_ptr_eq c hc]
  have h0 := rdb_lt fat.fatbuf (c + c / 2)
  have h1 := rdb_lt fat.fatbuf (c + c / 2 + 1)
  by_cases e1 : c + c / 2 + 1 = cl + cl / 2
  · -- `c` is even and `cl = c + 1`
    have hc2 : c % 2 = 0 := by omega
    have hcl2 : ¬ cl % 2 = 0 := by omega
    have n1 : ¬ (c + c / 2 + 1 = cl + cl / 2 + 1) := by omega
    have n2 : ¬ (c + c / 2 = cl + cl / 2 + 1) := by omega
    have n3 : ¬ (c + c / 2 = cl + cl / 2) := by omega
    have hb : rdb fat.fatbuf (cl + cl / 2) = rdb fat.fatbuf (c + c / 2 + 1) := by rw [e1]
    simp only [n1, n2, n3, false_and, if_false, hcl2, hc2, (by decide : ¬ (0 : Nat) = 1)]
    split_ifs <;> omega
  · by_cases e2 : c + c / 2 = cl + cl / 2 + 1
    · -- `c` is odd and `cl = c - 1`
      have hc2 : c % 2 = 1 := by omega
      have hcl2 : cl % 2 = 0 := by omega
      have n1 : ¬ (c + c / 2 + 1 = cl + cl / 2 + 1) := by omega
      have n3 : ¬ (c + c / 2 = cl + cl / 2) := by omega
      have hb : rdb fat.fatbuf (cl + cl / 2 + 1) = rdb fat.fatbuf (c + c / 2) := by rw [e2]
      simp only [n1, e1, n3, false_and, if_false, hcl2, hc2, if_true]
      split_ifs <;> omega
    · have n1 : ¬ (c + c / 2 + 1 = cl + cl / 2 + 1) := by omega
      have n3 : ¬ (c + c / 2 = cl + cl / 2) := by omega
      simp only [n1, e1, e2, n3, false_and, if_false]

theorem fat16_frame (fat : fat_descriptor) (cl v c : Nat)
    (hcl : cl ≤ 2 ^ 30) (hc : c ≤ 2 ^ 30) (hne : c ≠ cl) :
    fat_get_fat16_next (fat_set_fat16_next fat cl v).2 c = fat_get_fat16_next fat c := by
  rw [fat16_get_eq, fat16_get_eq]
  simp only [fat16_set_rdb]
  rw [fat16_ptr_eq cl hcl, fat16_ptr_eq c hc]
  have n1 : ¬ (2 * c + 1 = 2 * cl + 1) := by omega
  have n2 : ¬ (2 * c + 1 = 2 * cl) := by omega
  have n3 : ¬ (2 * c = 2 * cl + 1) := by omega
  have n4 : ¬ (2 * c = 2 * cl) := by omega
  simp only [n1, n2, n3, n4, false_and, if_false]

theorem fat32_frame (fat : fat_descriptor) (cl v c : Nat)
    (hcl : cl < 2 ^ 30) (hc : c < 2 ^ 30) (hne : c ≠ cl) :
    fat_get_fat32_next (fat_set_fat32_next fat cl v).2 c = fat_get_fat32_next fat c := by
  rw [fat32_get_eq, fat32_get_eq]
  simp only [fat32_set_rdb]
  rw [fat32_ptr_eq cl hcl, fat32_ptr_eq c hc]
  have a0 : ∀ i j : Nat, i < 4 → j < 4 → ¬ (4 * c + i = 4 * cl + j) := by
    intro i j hi hj; omega
  have b0 := a0 0 0 (by decide) (by decide)
  have b1 := a0 0 1 (by decide) (by decide)
  have b2 := a0 0 2 (by decide) (by decide)
  have b3 := a0 0 3 (by decide) (by decide)
  simp only [Nat.add_zero] at b0 b1 b2 b3
  have c0 := a0 1 0 (by decide) (by decide)
  have c2 := a0 2 0 (by decide) (by decide)
  have c3 := a0 3 0 (by decide) (by decide)
  simp only [Nat.add_zero] at c0 c2 c3
  simp only [b0, b1, b2, b3, c0, c2, c3, a0 1 1 (by decide) (by decide),
    a0 1 2 (by decide) (by decide), a0 1 3 (by decide) (by decide),
    a0 2 1 (by decide) (by decide), a0 2 2 (by decide) (by decide),
    a0 2 3 (by decide) (by decide), a0 3 1 (by decide) (by decide),
    a0 3 2 (by decide) (by decide), a0 3 3 (by decide) (by decide),
    false_and, if_false]

/-- A write to a valid cluster leaves the signature bytes alone. -/
theorem fat_set_signature (fat : fat_descriptor) (cl v j : Nat)
    (hmask : is_fat_mask fat.boot.ClustMask)
    (hlo : CLUST_FIRST ≤ cl) (hhi : cl < fat.boot.NumClusters)
    (hgeom : fat.boot.NumClusters ≤ 2 ^ 30)
    (hj : j < fat_signature_bytes fat.boot.ClustMask) :
    rdb (fat_set_cl_next false fat cl v).2.fatbuf j = rdb fat.fatbuf j := by
  rw [fat_set_cl_next_valid fat cl v hlo hhi]
  unfold fat_signature_bytes at hj
  unfold CLUST_FIRST at hlo
  obtain ⟨d1, d2, d3⟩ := mask_distinct
  rcases hmask with h | h | h
  · simp only [h, if_true] at hj ⊢
    rw [fat12_set_rdb, fat12_ptr_eq cl (by omega)]
    have n1 : ¬ (j = cl + cl / 2 + 1) := by omega
    have n2 : ¬ (j = cl + cl / 2) := by omega
    simp only [n1, n2, false_and, if_false]
  · simp only [h, d1.symm, if_true, if_false] at hj ⊢
    rw [fat16_set_rdb, fat16_ptr_eq cl (by omega)]
    have n1 : ¬ (j = 2 * cl + 1) := by omega
    have n2 : ¬ (j = 2 * cl) := by omega
    simp only [n1, n2, false_and, if_false]
  · simp only [h, d2.symm, d3.symm, if_true, if_false] at hj ⊢
    rw [fat32_set_rdb, fat32_ptr_eq cl (by omega)]
    have n0 : ¬ (j = 4 * cl) := by omega
    have n1 : ¬ (j = 4 * cl + 1) := by omega
    have n2 : ¬ (j = 4 * cl + 2) := by omega
    have n3 : ¬ (j = 4 * cl + 3) := by omega
    simp only [n0, n1, n2, n3, false_and, if_false]

/-- A write leaves the entry of every other valid cluster alone. -/
theorem fat_get_set_other (fat : fat_descriptor) (cl v c : Nat)
    (hmask : is_fat_mask fat.boot.ClustMask)
    (hlo : CLUST_FIRST ≤ cl) (hhi : cl < fat.boot.NumClusters)
    (hchi : c < fat.boot.NumClusters)
    (hgeom : fat.boot.NumClusters ≤ 2 ^ 30) (hne : c ≠ cl) :
    fat_get_cl_next (fat_set_cl_next false fat cl v).2 c = fat_get_cl_next fat c := by
  have hb := fat_set_cl_next_boot false fat cl v
  by_cases hclo : CLUST_FIRST ≤ c
  · rw [fat_get_cl_next_valid _ c hclo (by rw [hb]; exact hchi), hb,
      fat_get_cl_next_valid fat c hclo hchi, fat_set_cl_next_valid fat cl v hlo hhi]
    obtain ⟨d1, d2, d3⟩ := mask_distinct
    rcases hmask with h | h | h
    · simp only [h, if_true]
      exact fat12_frame fat cl v c (by omega) (by omega) hne
    · simp only [h, d1.symm, if_true, if_false]
      exact fat16_frame fat cl v c (by omega) (by omega) hne
    · simp only [h, d2.symm, d3.symm, if_true, if_false]
      exact fat32_frame fat cl v c (by omega) (by omega) hne
  · unfold fat_get_cl_next
    have h1 : c < CLUST_FIRST ∨ c ≥ fat.boot.NumClusters := by omega
    have h2 : c < CLUST_FIRST ∨ c ≥ (fat_set_cl_next false fat cl v).2.boot.NumClusters := by
      rw [hb]; exact h1
    simp [h1, h2]

/-- The half byte that a 12-bit entry shares with its neighbour keeps the
neighbour's four bits. -/
theorem fat12_set_neighbour_bits (fat : fat_descriptor) (cl v : Nat) :
    (cl &&& 1 = 0 →
      rdb (fat_set_fat12_next fat cl v).2.fatbuf (fat_get_fat12_ptr cl + 1) &&& 0xf0
        = rdb fat.fatbuf (fat_get_fat12_ptr cl + 1) &&& 0xf0) ∧
    (cl &&& 1 = 1 →
      rdb (fat_set_fat12_next fat cl v).2.fatbuf (fat_get_fat12_ptr cl) &&& 0x0f
        = rdb fat.fatbuf (fat_get_fat12_ptr cl) &&& 0x0f) := by
  have h0 := rdb_lt fat.fatbuf (fat_get_fat12_ptr cl)
  have h1 := rdb_lt fat.fatbuf (fat_get_fat12_ptr cl + 1)
  simp only [fat12_set_rdb, and_one, and_f0, and_0f]
  have n : ¬ (fat_get_fat12_ptr cl = fat_get_fat12_ptr cl + 1) := by omega
  constructor
  · intro hpar
    simp only [hpar, if_true, true_and]
    split_ifs <;> omega
  · intro hpar
    have hpar' : ¬ (cl % 2 = 0) := by omega
    simp only [hpar', if_false, true_and, n, false_and]
    split_ifs <;> omega

/-- C2: a write to a valid cluster of a writable table changes no other entry:
every other valid cluster reads as before, the bytes of the reserved entries 0
and 1 are unchanged, and in the 12-bit encoding the four bits of the shared byte
that belong to the neighbouring cluster keep their value, for both parities. -/
theorem fat_set_touches_only_entry (fat : fat_descriptor) (cl v : Nat)
    (hmask : is_fat_mask fat.boot.ClustMask)
    (hlo : CLUST_FIRST ≤ cl) (hhi : cl < fat.boot.NumClusters)
    (hgeom : fat.boot.NumClusters ≤ 2 ^ 30) :
    (∀ c, CLUST_FIRST ≤ c → c < fat.boot.NumClusters → c ≠ cl →
      fat_get_cl_next (fat_set_cl_next false fat cl v).2 c = fat_get_cl_next fat c) ∧
    (∀ j, j < fat_signature_bytes fat.boot.ClustMask →
      rdb (fat_set_cl_next false fat cl v).2.fatbuf j = rdb fat.fatbuf j) ∧
    (fat.boot.ClustMask = CLUST12_MASK →
      (cl &&& 1 = 0 →
        rdb (fat_set_cl_next false fat cl v).2.fatbuf (fat_get_fat12_ptr cl + 1) &&& 0xf0
          = rdb fat.fatbuf (fat_get_fat12_ptr cl + 1) &&& 0xf0) ∧
      (cl &&& 1 = 1 →
        rdb (fat_set_cl_next false fat cl v).2.fatbuf (fat_get_fat12_ptr cl) &&& 0x0f
          = rdb fat.fatbuf (fat_get_fat12_ptr cl) &&& 0x0f)) := by
  refine ⟨fun c _ hchi hne => fat_get_set_other fat cl v c hmask hlo hhi hchi hgeom hne,
    fun j hj => fat_set_signature fat cl v j hmask hlo hhi hgeom hj, fun h12 => ?_⟩
  rw [fat_set_cl_next_valid fat cl v hlo hhi]
  simp only [h12, if_true]
  exact fat12_set_neighbour_bits fat cl v

/-! ## Sign-extension normal form of reads -/

theorem rdb_drop (buf : List Nat) (k i : Nat) : rdb (buf.drop k) i = rdb buf (k + i) := by
  unfold rdb
  rw [List.getD_eq_getElem?_getD, List.getD_eq_getElem?_getD, List.getElem?_drop]

theorem stream_step (buf : List Nat) : stream buf = rdb buf 0 + 256 * stream (buf.drop 1) := by
  cases buf with
  | nil => simp [stream, rdb]
  | cons b bs => simp [stream, rdb]

theorem stream_div (buf : List Nat) (k : Nat) :
    stream buf / 256 ^ k = stream (buf.drop k) := by
  induction k generalizing buf with
  | zero => simp
  | succ k ih =>
    have h := stream_step buf
    have hlt := rdb_lt buf 0
    rw [pow_succ, Nat.mul_comm, ← Nat.div_div_eq_div_mul]
    have e : stream buf / 256 = stream (buf.drop 1) := by omega
    rw [e, ih, List.drop_drop]
    congr 2
    omega

/-- Sixteen bits of the stream at byte offset `k`. -/
theorem stream_word16 (buf : List Nat) (k : Nat) :
    stream buf / 256 ^ k % 65536 = rdb buf (k + 1) * 256 + rdb buf k := by
  rw [stream_div]
  have h0 := stream_step (buf.drop k)
  have h1 := stream_step ((buf.drop k).drop 1)
  have e0 := rdb_drop buf k 0
  have e1 := rdb_drop (buf.drop k) 1 0
  rw [rdb_drop buf k 1] at e1
  have l0 := rdb_lt buf k
  have l1 := rdb_lt buf (k + 1)
  simp only [Nat.add_zero] at e0 e1
  omega

/-- Thirty-two bits of the stream at byte offset `k`. -/
theorem stream_word32 (buf : List Nat) (k : Nat) :
    stream buf / 256 ^ k % 4294967296 = rdb buf (k + 3) * 16777216
      + rdb buf (k + 2) * 65536 + rdb buf (k + 1) * 256 + rdb buf k := by
  rw [stream_div]
  have h0 := stream_step (buf.drop k)
  have h1 := stream_step ((buf.drop k).drop 1)
  have h2 := stream_step (((buf.drop k).drop 1).drop 1)
  have h3 := stream_step ((((buf.drop k).drop 1).drop 1).drop 1)
  have e0 := rdb_drop buf k 0
  have e1 := rdb_drop (buf.drop k) 1 0
  have e2 := rdb_drop ((buf.drop k).drop 1) 1 0
  have e3 := rdb_drop (((buf.drop k).drop 1).drop 1) 1 0
  rw [rdb_drop buf k 1] at e1
  rw [rdb_drop (buf.drop k) 1 1, rdb_drop buf k (1 + 1)] at e2
  rw [rdb_drop ((buf.drop k).drop 1) 1 1, rdb_drop (buf.drop k) 1 (1 + 1),
    rdb_drop buf k (1 + (1 + 1))] at e3
  have l0 := rdb_lt buf k
  have l1 := rdb_lt buf (k + 1)
  have l2 := rdb_lt buf (k + 2)
  have l3 := rdb_lt buf (k + 3)
  simp only [Nat.add_zero, Nat.reduceAdd] at e0 e1 e2 e3
  omega

theorem stream_bits12 (buf : List Nat) (cl : Nat) :
    stream buf / 2 ^ (12 * cl) % 4096 =
      (if cl % 2 = 1 then
        (rdb buf (cl + cl / 2 + 1) * 256 + rdb buf (cl + cl / 2)) / 16
       else rdb buf (cl + cl / 2 + 1) * 256 + rdb buf (cl + cl / 2)) % 4096 := by
  have hw := stream_word16 buf (cl + cl / 2)
  have hp : (256 : Nat) ^ (cl + cl / 2) = 2 ^ (8 * (cl + cl / 2)) := by
    rw [show (256 : Nat) = 2 ^ 8 by norm_num, ← pow_mul]
  by_cases hpar : cl % 2 = 1
  · have e : 12 * cl = 8 * (cl + cl / 2) + 4 := by omega
    rw [e, pow_add, ← hp, ← Nat.div_div_eq_div_mul]
    simp only [hpar, if_true]
    norm_num
    omega
  · have e : 12 * cl = 8 * (cl + cl / 2) := by omega
    rw [e, ← hp]
    simp only [hpar, if_false]
    omega

theorem stream_bits16 (buf : List Nat) (cl : Nat) :
    stream buf / 2 ^ (16 * cl) % 65536 = rdb buf (2 * cl + 1) * 256 + rdb buf (2 * cl) := by
  have hw := stream_word16 buf (2 * cl)
  have hp : (256 : Nat) ^ (2 * cl) = 2 ^ (16 * cl) := by
    rw [show (256 : Nat) = 2 ^ 8 by norm_num, ← pow_mul]; congr 1; omega
  rw [← hp]
  exact hw

theorem stream_bits32 (buf : List Nat) (cl : Nat) :
    stream buf / 2 ^ (32 * cl) % 268435456 = rdb buf (4 * cl + 3) % 16 * 16777216
      + rdb buf (4 * cl + 2) * 65536 + rdb buf (4 * cl + 1) * 256 + rdb buf (4 * cl) := by
  have hw := stream_word32 buf (4 * cl)
  have hp : (256 : Nat) ^ (4 * cl) = 2 ^ (32 * cl) := by
    rw [show (256 : Nat) = 2 ^ 8 by norm_num, ← pow_mul]; congr 1; omega
  have l0 := rdb_lt buf (4 * cl)
  have l1 := rdb_lt buf (4 * cl + 1)
  have l2 := rdb_lt buf (4 * cl + 2)
  have l3 := rdb_lt buf (4 * cl + 3)
  rw [← hp]
  omega

/-- The value read for a valid cluster is the sign-extended stored entry. -/
theorem fat_get_eq_sign_extend (fat : fat_descriptor) (cl : Nat)
    (hmask : is_fat_mask fat.boot.ClustMask)
    (hlo : CLUST_FIRST ≤ cl) (hhi : cl < fat.boot.NumClusters)
    (hgeom : fat.boot.NumClusters ≤ 2 ^ 30) :
    fat_get_cl_next fat cl = sign_extend fat.boot.ClustMask (raw_entry fat cl) := by
  rw [fat_get_cl_next_valid fat cl hlo hhi]
  unfold raw_entry
  obtain ⟨d1, d2, d3⟩ := mask_distinct
  rcases hmask with h | h | h
  · simp only [h, if_true]
    rw [sign_extend12, fat12_get_eq, fat12_ptr_eq cl (by omega), Nat.shiftRight_eq_div_pow,
      stream_bits12]
    rfl
  · simp only [h, d1.symm, if_true, if_false]
    rw [sign_extend16, fat16_get_eq, fat16_ptr_eq cl (by omega), Nat.shiftRight_eq_div_pow,
      stream_bits16]
    rfl
  · simp only [h, d2.symm, d3.symm, if_true, if_false]
    rw [sign_extend32, fat32_get_eq, fat32_ptr_eq cl (by omega), Nat.shiftRight_eq_div_pow,
      stream_bits32]
    rfl

theorem raw_entry_le (fat : fat_descriptor) (cl : Nat) (hmask : is_fat_mask fat.boot.ClustMask) :
    raw_entry fat cl ≤ fat.boot.ClustMask := by
  unfold raw_entry
  obtain ⟨d1, d2, d3⟩ := mask_distinct
  rcases hmask with h | h | h
  · simp only [h, if_true]
    exact Nat.and_le_right
  · simp only [h, d1.symm, if_true, if_false]
    exact Nat.and_le_right
  · simp only [h, d2.symm, d3.symm, if_true, if_false]
    exact Nat.and_le_right

/-- Sign extension of an entry `r` that fits the mask, by cases. -/
theorem sign_extend_cases (m r : Nat) (hmask : is_fat_mask m) (hr : r ≤ m) :
    (r < (CLUST_BAD &&& m) → sign_extend m r = r) ∧
    (r ≥ (CLUST_BAD &&& m) → sign_extend m r = r ||| not32 m) ∧
    (r = 0 → sign_extend m r = CLUST_FREE) ∧
    (r = (CLUST_BAD &&& m) → sign_extend m r = CLUST_BAD) ∧
    (r = m → sign_extend m r = CLUST_EOF) ∧
    ¬ ((CLUST_BAD &&& m) ≤ sign_extend m r ∧ sign_extend m r < CLUST_BAD) := by
  have hlt : ∀ a b : Nat, a < b → ¬ a ≥ b := fun a b h => by omega
  refine ⟨fun h => by unfold sign_extend; rw [if_neg (hlt _ _ h)],
    fun h => by unfold sign_extend; rw [if_pos h], ?_⟩
  rcases hmask with h | h | h
  · subst h
    have e : sign_extend CLUST12_MASK r = sx 0xff7 0xfffff000 r := by
      have := sign_extend12 r
      rwa [show r &&& CLUST12_MASK = r from by
        unfold CLUST12_MASK at hr ⊢; rw [and_fff]; omega,
        show r % 4096 = r from by unfold CLUST12_MASK at hr; omega] at this
    rw [e, bad12]
    unfold sx CLUST_FREE CLUST_BAD CLUST_EOF CLUST12_MASK
    unfold CLUST12_MASK at hr
    refine ⟨?_, ?_, ?_, ?_⟩ <;> (try intro h) <;> split_ifs at * <;> omega
  · subst h
    have e : sign_extend CLUST16_MASK r = sx 0xfff7 0xffff0000 r := by
      have := sign_extend16 r
      rwa [show r &&& CLUST16_MASK = r from by
        unfold CLUST16_MASK at hr ⊢; rw [and_ffff]; omega,
        show r % 65536 = r from by unfold CLUST16_MASK at hr; omega] at this
    rw [e, bad16]
    unfold sx CLUST_FREE CLUST_BAD CLUST_EOF CLUST16_MASK
    unfold CLUST16_MASK at hr
    refine ⟨?_, ?_, ?_, ?_⟩ <;> (try intro h) <;> split_ifs at * <;> omega
  · subst h
    have e : sign_extend CLUST32_MASK r = sx 0xffffff7 0xf0000000 r := by
      have := sign_extend32 r
      rwa [show r &&& CLUST32_MASK = r from by
        unfold CLUST32_MASK at hr ⊢; rw [and_fffffff]; omega,
        show r % 268435456 = r from by unfold CLUST32_MASK at hr; omega] at this
    rw [e, bad32]
    unfold sx CLUST_FREE CLUST_BAD CLUST_EOF CLUST32_MASK
    unfold CLUST32_MASK at hr
    refine ⟨?_, ?_, ?_, ?_⟩ <;> (try intro h) <;> split_ifs at * <;> omega

/-- C3: for a valid cluster in any of the three encodings the value read is the
stored entry `raw`, masked to the width of the encoding, when `raw` is below the
masked bad marker, and `raw | ~mask` otherwise; so a zero entry reads as
`CLUST_FREE`, the masked bad pattern as `CLUST_BAD`, the all-ones entry as
`CLUST_EOF`, and no value read lies in the gap from `CLUST_BAD & mask` up to
`CLUST_BAD`. -/
theorem fat_get_sign_extension_normal_form (fat : fat_descriptor) (cl : Nat)
    (hmask : is_fat_mask fat.boot.ClustMask)
    (hlo : CLUST_FIRST ≤ cl) (hhi : cl < fat.boot.NumClusters)
    (hgeom : fat.boot.NumClusters ≤ 2 ^ 30) :
    (raw_entry fat cl < (CLUST_BAD &&& fat.boot.ClustMask) →
      fat_get_cl_next fat cl = raw_entry fat cl) ∧
    (raw_entry fat cl ≥ (CLUST_BAD &&& fat.boot.ClustMask) →
      fat_get_cl_next fat cl = raw_entry fat cl ||| not32 fat.boot.ClustMask) ∧
    (raw_entry fat cl = 0 → fat_get_cl_next fat cl = CLUST_FREE) ∧
    (raw_entry fat cl = (CLUST_BAD &&& fat.boot.ClustMask) →
      fat_get_cl_next fat cl = CLUST_BAD) ∧
    (raw_entry fat cl = fat.boot.ClustMask → fat_get_cl_next fat cl = CLUST_EOF) ∧
    ¬ ((CLUST_BAD &&& fat.boot.ClustMask) ≤ fat_get_cl_next fat cl ∧
        fat_get_cl_next fat cl < CLUST_BAD) := by
  rw [fat_get_eq_sign_extend fat cl hmask hlo hhi hgeom]
  exact sign_extend_cases _ _ hmask (raw_entry_le fat cl hmask)

/-! ## Range check and read-only refusal -/

/-- A write to a cluster outside the valid range returns the descriptor as it was. -/
theorem fat_access_out_of_range_aux (rdonly : Bool) (fat : fat_descriptor) (cl v : Nat)
    (h : cl < CLUST_FIRST ∨ cl ≥ fat.boot.NumClusters) :
    (fat_set_cl_next rdonly fat cl v).2 = fat := by
  unfold fat_set_cl_next
  simp only [h, if_true]
  cases rdonly <;> simp

/-- C4: an access to a cluster below `CLUST_FIRST` or at or above `NumClusters`
is refused: the read gives `CLUST_DEAD`, the write gives `FSFATAL` and leaves the
descriptor, so every byte of the buffer, as it was, whatever the value. -/
theorem fat_access_out_of_range (rdonly : Bool) (fat : fat_descriptor) (cl v : Nat)
    (h : cl < CLUST_FIRST ∨ cl ≥ fat.boot.NumClusters) :
    fat_get_cl_next fat cl = CLUST_DEAD ∧
    (fat_set_cl_next rdonly fat cl v).1 = FSFATAL ∧
    (fat_set_cl_next rdonly fat cl v).2 = fat := by
  unfold fat_get_cl_next fat_set_cl_next
  simp only [h, if_true]
  cases rdonly <;> simp

/-- C5: on a read-only table every write is refused with `FSFATAL` and the
descriptor, so every byte of the buffer, stays as it was, for every cluster and
every value. -/
theorem fat_set_rdonly_refused (fat : fat_descriptor) (cl v : Nat) :
    (fat_set_cl_next true fat cl v).1 = FSFATAL ∧
    (fat_set_cl_next true fat cl v).2 = fat ∧
    (fat_set_cl_next true fat cl v).2.fatbuf = fat.fatbuf := by
  unfold fat_set_cl_next
  simp

/-! ## Bitmaps -/

theorem getD_set_eq (l : List Nat) (i j v : Nat) :
    (l.set i v).getD j 0 = if i = j ∧ i < l.length then v else l.getD j 0 := by
  rw [List.getD_eq_getElem?_getD, List.getD_eq_getElem?_getD, List.getElem?_set]
  by_cases h1 : i = j
  · by_cases h2 : i < l.length
    · subst h1
      simp [h2]
    · subst h1
      have : l.length ≤ i := by omega
      simp [h2, List.getElem?_eq_none this]
  · simp [h1]

theorem and_two_pow_eq_self (w k : Nat) : w &&& 2 ^ k = 2 ^ k ↔ w.testBit k = true := by
  rw [Nat.and_two_pow]
  have hp : 0 < 2 ^ k := Nat.two_pow_pos _
  cases h : w.testBit k
  · simp; omega
  · simp

theorem and_two_pow_eq_zero (w k : Nat) : w &&& 2 ^ k = 0 ↔ w.testBit k = false := by
  rw [Nat.and_two_pow]
  have hp : 0 < 2 ^ k := Nat.two_pow_pos _
  cases h : w.testBit k
  · simp
  · simp

theorem rdw_testBit (map : List Nat) (i k : Nat) (hk : k < 64) :
    (rdw map i).testBit k = (map.getD i 0).testBit k := by
  unfold rdw
  rw [Nat.testBit_mod_two_pow]
  simp [hk]

theorem rdw_lt (map : List Nat) (i : Nat) : rdw map i < 2 ^ 64 :=
  Nat.mod_lt _ (by decide)

/-- A bit of a bitmap is a bit of the word that holds it. -/
theorem bitmap_get_eq (lbp : long_bitmap_t) (cl : Nat) :
    bitmap_get lbp cl = (lbp.map.getD (cl / 64) 0).testBit (cl % 64) := by
  unfold bitmap_get LONG_BIT
  simp only [Nat.one_shiftLeft]
  rw [← rdw_testBit _ _ _ (Nat.mod_lt _ (by decide))]
  cases h : (rdw lbp.map (cl / 64)).testBit (cl % 64)
  · have := (and_two_pow_eq_zero (rdw lbp.map (cl / 64)) (cl % 64)).mpr h
    rw [this]
    have hp : 0 < 2 ^ (cl % 64) := Nat.two_pow_pos _
    simp; omega
  · have := (and_two_pow_eq_self (rdw lbp.map (cl / 64)) (cl % 64)).mpr h
    rw [this]
    simp

/-- The assertion of `bitmap_set` holds exactly on a clear bit. -/
theorem bitmap_set_eq (lbp : long_bitmap_t) (cl : Nat) :
    bitmap_set lbp cl =
      if bitmap_get lbp cl = false then
        some { count := (lbp.count + 1) % 2 ^ 64,
               map := lbp.map.set (cl / 64) (rdw lbp.map (cl / 64) ||| 2 ^ (cl % 64)) }
      else none := by
  rw [bitmap_get_eq, ← rdw_testBit _ _ _ (Nat.mod_lt _ (by decide))]
  unfold bitmap_set LONG_BIT
  simp only [Nat.one_shiftLeft, and_two_pow_eq_zero]

/-- The assertion of `bitmap_clear` holds exactly on a set bit. -/
theorem bitmap_clear_eq (lbp : long_bitmap_t) (cl : Nat) :
    bitmap_clear lbp cl =
      if bitmap_get lbp cl = true then
        some { count := (lbp.count + 2 ^ 64 - 1) % 2 ^ 64,
               map := lbp.map.set (cl / 64)
                 (rdw lbp.map (cl / 64) &&& (2 ^ 64 - 1 - 2 ^ (cl % 64))) }
      else none := by
  have hk : cl % 64 < 64 := Nat.mod_lt _ (by decide)
  have hp : 2 ^ (cl % 64) < 2 ^ 64 := Nat.pow_lt_pow_right (by decide) hk
  have e : 2 ^ 64 - 1 - (2 ^ 64 - 1 - 2 ^ (cl % 64)) = 2 ^ (cl % 64) := by
    generalize 2 ^ (cl % 64) = x at hp ⊢
    omega
  unfold bitmap_clear LONG_BIT
  simp only [Nat.one_shiftLeft]
  rw [e, bitmap_get_eq, ← rdw_testBit _ _ _ hk]
  cases h : (rdw lbp.map (cl / 64)).testBit (cl % 64)
  · rw [(and_two_pow_eq_zero _ _).mpr h]
    simp
  · have := (and_two_pow_eq_self _ _).mpr h
    rw [this]
    simp

theorem bitmap_get_set (lbp lbp' : long_bitmap_t) (cl c : Nat)
    (h : bitmap_set lbp cl = some lbp') (hin : cl / 64 < lbp.map.length) :
    bitmap_get lbp' c = if c = cl then true else bitmap_get lbp c := by
  rw [bitmap_set_eq] at h
  split at h
  · rename_i hclear
    injection h with h
    subst h
    rw [bitmap_get_eq] at hclear
    rw [bitmap_get_eq, bitmap_get_eq]
    simp only [getD_set_eq]
    have hk : c % 64 < 64 := Nat.mod_lt _ (by decide)
    by_cases hw : cl / 64 = c / 64
    · simp only [hw, hin, true_and]
      rw [hw] at hin
      simp only [hin, if_true]
      rw [Nat.testBit_or, rdw_testBit _ _ _ hk, Nat.testBit_two_pow]
      by_cases hc : c = cl
      · subst hc; simp
      · have : ¬ (cl % 64 = c % 64) := by omega
        simp [hc, this]
    · have hc : ¬ (c = cl) := fun e => hw (by rw [e])
      simp [hw, hc]
  · exact absurd h (by simp)

theorem bitmap_get_clear (lbp lbp' : long_bitmap_t) (cl c : Nat)
    (h : bitmap_clear lbp cl = some lbp') (hin : cl / 64 < lbp.map.length) :
    bitmap_get lbp' c = if c = cl then false else bitmap_get lbp c := by
  rw [bitmap_clear_eq] at h
  split at h
  · injection h with h
    subst h
    rw [bitmap_get_eq, bitmap_get_eq]
    simp only [getD_set_eq]
    have hk : c % 64 < 64 := Nat.mod_lt _ (by decide)
    have hk' : cl % 64 < 64 := Nat.mod_lt _ (by decide)
    have hp : 2 ^ (cl % 64) < 2 ^ 64 := Nat.pow_lt_pow_right (by decide) hk'
    have e : 2 ^ 64 - 1 - 2 ^ (cl % 64) = 2 ^ 64 - (2 ^ (cl % 64) + 1) := by
      generalize 2 ^ (cl % 64) = x at hp ⊢
      omega
    by_cases hw : cl / 64 = c / 64
    · simp only [hw, hin, true_and]
      rw [hw] at hin
      simp only [hin, if_true]
      rw [e, Nat.testBit_and, rdw_testBit _ _ _ hk, Nat.testBit_two_pow_sub_succ hp,
        Nat.testBit_two_pow]
      by_cases hc : c = cl
      · subst hc; simp
      · have : ¬ (cl % 64 = c % 64) := by omega
        simp [hc, this, hk]
    · have hc : ¬ (c = cl) := fun e => hw (by rw [e])
      simp [hw, hc]
  · exact absurd h (by simp)

theorem bitmap_set_map_length (lbp lbp' : long_bitmap_t) (cl : Nat)
    (h : bitmap_set lbp cl = some lbp') : lbp'.map.length = lbp.map.length := by
  rw [bitmap_set_eq] at h
  split at h
  · injection h with h; subst h; simp
  · exact absurd h (by simp)

theorem bitmap_clear_map_length (lbp lbp' : long_bitmap_t) (cl : Nat)
    (h : bitmap_clear lbp cl = some lbp') : lbp'.map.length = lbp.map.length := by
  rw [bitmap_clear_eq] at h
  split at h
  · injection h with h; subst h; simp
  · exact absurd h (by simp)

theorem bitmap_popcount_succ (lbp : long_bitmap_t) (n : Nat) :
    bitmap_popcount lbp (n + 1)
      = bitmap_popcount lbp n + (if bitmap_get lbp n = true then 1 else 0) := by
  unfold bitmap_popcount
  rw [List.range_succ, List.filter_append, List.length_append]
  by_cases h : bitmap_get lbp n = true
  · simp [h]
  · simp [h]

theorem bitmap_popcount_le (lbp : long_bitmap_t) (n : Nat) : bitmap_popcount lbp n ≤ n := by
  induction n with
  | zero => simp [bitmap_popcount]
  | succ n ih => rw [bitmap_popcount_succ]; split_ifs <;> omega

theorem bitmap_popcount_congr (a b : long_bitmap_t) (n : Nat)
    (h : ∀ j, j < n → bitmap_get a j = bitmap_get b j) :
    bitmap_popcount a n = bitmap_popcount b n := by
  induction n with
  | zero => simp [bitmap_popcount]
  | succ n ih =>
    rw [bitmap_popcount_succ, bitmap_popcount_succ, ih (fun j hj => h j (by omega)),
      h n (by omega)]

/-- Turning on one clear bit below `n` raises the number of set bits by one. -/
theorem bitmap_popcount_flip_on (a b : long_bitmap_t) (n i : Nat) (hi : i < n)
    (ha : bitmap_get a i = false)
    (h : ∀ c, bitmap_get b c = if c = i then true else bitmap_get a c) :
    bitmap_popcount b n = bitmap_popcount a n + 1 := by
  induction n with
  | zero => omega
  | succ n ih =>
    rw [bitmap_popcount_succ, bitmap_popcount_succ]
    by_cases hn : i = n
    · subst hn
      have hc : bitmap_popcount b i = bitmap_popcount a i :=
        bitmap_popcount_congr b a i (fun j hj => by
          rw [h j]; simp [show ¬ j = i by omega])
      rw [hc, h i, ha]
      simp
    · rw [ih (by omega), h n]
      simp [show ¬ n = i from fun e => hn e.symm]
      omega

/-- Turning off one set bit below `n` lowers the number of set bits by one. -/
theorem bitmap_popcount_flip_off (a b : long_bitmap_t) (n i : Nat) (hi : i < n)
    (ha : bitmap_get a i = true)
    (h : ∀ c, bitmap_get b c = if c = i then false else bitmap_get a c) :
    bitmap_popcount b n + 1 = bitmap_popcount a n := by
  induction n with
  | zero => omega
  | succ n ih =>
    rw [bitmap_popcount_succ, bitmap_popcount_succ]
    by_cases hn : i = n
    · subst hn
      have hc : bitmap_popcount b i = bitmap_popcount a i :=
        bitmap_popcount_congr b a i (fun j hj => by
          rw [h j]; simp [show ¬ j = i by omega])
      rw [hc, h i, ha]
      simp
    · have := ih (by omega)
      rw [h n]
      simp [show ¬ n = i from fun e => hn e.symm]
      omega

theorem and_not63 (x : Nat) (hx : x < 2 ^ 64) : x &&& (2 ^ 64 - 1 - 63) = x / 64 * 64 := by
  apply Nat.eq_of_testBit_eq
  intro i
  have e1 : (2 : Nat) ^ 64 - 1 - 63 = 2 ^ 64 - (63 + 1) := by norm_num
  have e2 : x / 64 * 64 = (x >>> 6) <<< 6 := by
    rw [Nat.shiftLeft_eq, Nat.shiftRight_eq_div_pow]
  have e3 : (63 : Nat) = 2 ^ 6 - 1 := by norm_num
  rw [e1, e2, Nat.testBit_and, Nat.testBit_two_pow_sub_succ (by norm_num), e3,
    Nat.testBit_two_pow_sub_one, Nat.testBit_shiftLeft, Nat.testBit_shiftRight]
  by_cases h6 : i < 6
  · have : ¬ i ≥ 6 := by omega
    simp [h6, this]
  · by_cases h64 : i < 64
    · have : 6 + (i - 6) = i := by omega
      simp [h6, h64, this, show i ≥ 6 by omega]
    · have hlt : x < 2 ^ i :=
        Nat.lt_of_lt_of_le hx (Nat.pow_le_pow_right (by decide) (by omega))
      have : 6 + (i - 6) = i := by omega
      simp [h64, this, Nat.testBit_lt_two_pow hlt]

/-- The number of words of a bitmap for `bits` bits. -/
theorem bitmap_ctor_words (bits : Nat) (h : bits + 63 < 2 ^ 64) :
    roundup2 bits LONG_BIT / (LONG_BIT / 8) / 8 = (bits + 63) / 64 := by
  unfold roundup2 LONG_BIT
  rw [show (64 : Nat) - 1 = 63 by norm_num, Nat.mod_eq_of_lt h, and_not63 _ h]
  omega

theorem bitmap_ctor_one (lbp : long_bitmap_t) (bits : Nat) (h : bits + 63 < 2 ^ 64) :
    bitmap_ctor true lbp bits true
      = (FSOK, { count := bits, map := List.replicate ((bits + 63) / 64) (2 ^ 64 - 1) }) := by
  unfold bitmap_ctor
  simp [bitmap_ctor_words bits h]

theorem bitmap_ctor_zero (lbp : long_bitmap_t) (bits : Nat) (h : bits + 63 < 2 ^ 64) :
    bitmap_ctor true lbp bits false
      = (FSOK, { count := 0, map := List.replicate ((bits + 63) / 64) 0 }) := by
  unfold bitmap_ctor
  simp [bitmap_ctor_words bits h]

theorem getD_replicate (k v i : Nat) :
    (List.replicate k v).getD i 0 = if i < k then v else 0 := by
  rw [List.getD_eq_getElem?_getD, List.getElem?_replicate]
  split_ifs <;> simp

theorem bitmap_get_ctor_one (lbp : long_bitmap_t) (bits i : Nat) (h : bits + 63 < 2 ^ 64)
    (hi : i < bits) : bitmap_get (bitmap_ctor true lbp bits true).2 i = true := by
  rw [bitmap_ctor_one lbp bits h, bitmap_get_eq]
  simp only [getD_replicate]
  have : i / 64 < (bits + 63) / 64 := by omega
  rw [if_pos this, Nat.testBit_two_pow_sub_one]
  simp
  omega

theorem bitmap_get_ctor_zero (lbp : long_bitmap_t) (bits i : Nat) (h : bits + 63 < 2 ^ 64) :
    bitmap_get (bitmap_ctor true lbp bits false).2 i = false := by
  rw [bitmap_ctor_zero lbp bits h, bitmap_get_eq]
  simp only [getD_replicate]
  split_ifs <;> simp

theorem bitmap_popcount_all (lbp : long_bitmap_t) (n : Nat)
    (h : ∀ i, i < n → bitmap_get lbp i = true) : bitmap_popcount lbp n = n := by
  induction n with
  | zero => simp [bitmap_popcount]
  | succ n ih =>
    rw [bitmap_popcount_succ, ih (fun i hi => h i (by omega)), h n (by omega)]
    simp

theorem bitmap_popcount_none (lbp : long_bitmap_t) (n : Nat)
    (h : ∀ i, i < n → bitmap_get lbp i = false) : bitmap_popcount lbp n = 0 := by
  induction n with
  | zero => simp [bitmap_popcount]
  | succ n ih =>
    rw [bitmap_popcount_succ, ih (fun i hi => h i (by omega)), h n (by omega)]
    simp

theorem bitmap_inv_ctor (lbp : long_bitmap_t) (n : Nat) (allone : Bool)
    (h : n + 63 < 2 ^ 64) : bitmap_inv (bitmap_ctor true lbp n allone).2 n := by
  cases allone
  · refine ⟨?_, by omega, ?_⟩
    · rw [bitmap_ctor_zero lbp n h]; simp; omega
    · rw [bitmap_popcount_none _ n (fun i _ => bitmap_get_ctor_zero lbp n i h),
        bitmap_ctor_zero lbp n h]
  · refine ⟨?_, by omega, ?_⟩
    · rw [bitmap_ctor_one lbp n h]; simp; omega
    · rw [bitmap_popcount_all _ n (fun i hi => bitmap_get_ctor_one lbp n i h hi),
        bitmap_ctor_one lbp n h]

/-- Setting a bit below `n` keeps the invariant. -/
theorem bitmap_inv_set (lbp lbp' : long_bitmap_t) (n cl : Nat) (hinv : bitmap_inv lbp n)
    (hcl : cl < n) (h : bitmap_set lbp cl = some lbp') :
    bitmap_inv lbp' n ∧ lbp'.count = lbp.count + 1 := by
  obtain ⟨hlen, hn, hcount⟩ := hinv
  have hin : cl / 64 < lbp.map.length := by omega
  have hget := fun c => bitmap_get_set lbp lbp' cl c h hin
  have hlen' := bitmap_set_map_length lbp lbp' cl h
  rw [bitmap_set_eq] at h
  split at h
  · rename_i hclear
    have hpc := bitmap_popcount_flip_on lbp lbp' n cl hcl hclear hget
    have hle := bitmap_popcount_le lbp' n
    injection h with h
    have hc : lbp'.count = (lbp.count + 1) % 2 ^ 64 := by rw [← h]
    have hc' : lbp'.count = lbp.count + 1 := by omega
    exact ⟨⟨by omega, hn, by omega⟩, hc'⟩
  · exact absurd h (by simp)

/-- Clearing a bit below `n` keeps the invariant. -/
theorem bitmap_inv_clear (lbp lbp' : long_bitmap_t) (n cl : Nat) (hinv : bitmap_inv lbp n)
    (hcl : cl < n) (h : bitmap_clear lbp cl = some lbp') :
    bitmap_inv lbp' n ∧ lbp'.count + 1 = lbp.count := by
  obtain ⟨hlen, hn, hcount⟩ := hinv
  have hin : cl / 64 < lbp.map.length := by omega
  have hget := fun c => bitmap_get_clear lbp lbp' cl c h hin
  have hlen' := bitmap_clear_map_length lbp lbp' cl h
  rw [bitmap_clear_eq] at h
  split at h
  · rename_i hset
    have hpc := bitmap_popcount_flip_off lbp lbp' n cl hcl hset hget
    have hle := bitmap_popcount_le lbp n
    injection h with h
    have hc : lbp'.count = (lbp.count + 2 ^ 64 - 1) % 2 ^ 64 := by rw [← h]
    have hc' : lbp'.count + 1 = lbp.count := by omega
    exact ⟨⟨by omega, hn, by omega⟩, hc'⟩
  · exact absurd h (by simp)

/-- Every sequence of operations on bits below `n` keeps the invariant. -/
theorem bitmap_inv_run (ops : List bitmap_op) (lbp lbp' : long_bitmap_t) (n : Nat)
    (hinv : bitmap_inv lbp n) (hops : ∀ op ∈ ops, op.index < n)
    (h : bitmap_run lbp ops = some lbp') : bitmap_inv lbp' n := by
  induction ops generalizing lbp with
  | nil =>
    simp only [bitmap_run, Option.some.injEq] at h
    rw [← h]; exact hinv
  | cons op ops ih =>
    simp only [bitmap_run] at h
    have hop := hops op (List.mem_cons_self _ _)
    cases hap : bitmap_apply lbp op with
    | none => rw [hap] at h; exact absurd h (by simp)
    | some lbp1 =>
      rw [hap] at h
      have hinv1 : bitmap_inv lbp1 n := by
        cases op with
        | set i => exact (bitmap_inv_set lbp lbp1 n i hinv hop hap).1
        | clear i => exact (bitmap_inv_clear lbp lbp1 n i hinv hop hap).1
      exact ih lbp1 hinv1 (fun o ho => hops o (List.mem_cons_of_mem _ ho)) h


/-- On a bitmap that satisfies the invariant, a set on a clear bit below `n`
succeeds, raises the count by one and changes that bit only. -/
theorem bitmap_set_spec (lbp : long_bitmap_t) (n i : Nat) (hinv : bitmap_inv lbp n)
    (hi : i < n) (hclear : bitmap_get lbp i = false) :
    ∃ lbp1, bitmap_set lbp i = some lbp1 ∧ lbp1.count = lbp.count + 1 ∧
      bitmap_inv lbp1 n ∧ bitmap_get lbp1 i = true ∧
      ∀ j, j ≠ i → bitmap_get lbp1 j = bitmap_get lbp j := by
  have hin : i / 64 < lbp.map.length := by have := hinv.1; omega
  cases hs : bitmap_set lbp i with
  | none =>
    rw [bitmap_set_eq, if_pos hclear] at hs
    exact absurd hs (by simp)
  | some lbp1 =>
    obtain ⟨hinv1, hc⟩ := bitmap_inv_set lbp lbp1 n i hinv hi hs
    have hget := fun c => bitmap_get_set lbp lbp1 i c hs hin
    refine ⟨lbp1, rfl, hc, hinv1, ?_, fun j hj => ?_⟩
    · rw [hget i]; simp
    · rw [hget j]; simp [hj]

/-- On a bitmap that satisfies the invariant, a clear on a set bit below `n`
succeeds, lowers the count by one and changes that bit only. -/
theorem bitmap_clear_spec (lbp : long_bitmap_t) (n i : Nat) (hinv : bitmap_inv lbp n)
    (hi : i < n) (hset : bitmap_get lbp i = true) :
    ∃ lbp1, bitmap_clear lbp i = some lbp1 ∧ lbp1.count + 1 = lbp.count ∧
      bitmap_inv lbp1 n ∧ bitmap_get lbp1 i = false ∧
      ∀ j, j ≠ i → bitmap_get lbp1 j = bitmap_get lbp j := by
  have hin : i / 64 < lbp.map.length := by have := hinv.1; omega
  cases hs : bitmap_clear lbp i with
  | none =>
    rw [bitmap_clear_eq, if_pos hset] at hs
    exact absurd hs (by simp)
  | some lbp1 =>
    obtain ⟨hinv1, hc⟩ := bitmap_inv_clear lbp lbp1 n i hinv hi hs
    have hget := fun c => bitmap_get_clear lbp lbp1 i c hs hin
    refine ⟨lbp1, rfl, hc, hinv1, ?_, fun j hj => ?_⟩
    · rw [hget i]; simp
    · rw [hget j]; simp [hj]

/-- C6: a bitmap constructed for `n` bits has count `n` and every bit below `n`
set when built all-one, and count 0 and every bit clear when built all-zero;
after any sequence of set and clear operations on bits below `n` whose
assertions hold, the count is the number of set bits below `n`; and on such a
bitmap a set on a clear bit and a clear on a set bit succeed, move the count by
one, keep it equal to the number of set bits, and change bit `i` only. -/
theorem bitmap_count_invariant (lbp0 : long_bitmap_t) (n : Nat) (hn : n + 63 < 2 ^ 64) :
    ((bitmap_ctor true lbp0 n true).1 = FSOK ∧
      bitmap_count (bitmap_ctor true lbp0 n true).2 = n ∧
      ∀ i, i < n → bitmap_get (bitmap_ctor true lbp0 n true).2 i = true) ∧
    ((bitmap_ctor true lbp0 n false).1 = FSOK ∧
      bitmap_count (bitmap_ctor true lbp0 n false).2 = 0 ∧
      ∀ i, bitmap_get (bitmap_ctor true lbp0 n false).2 i = false) ∧
    (∀ (allone : Bool) (ops : List bitmap_op) (lbp : long_bitmap_t),
      (∀ op ∈ ops, op.index < n) →
      bitmap_run (bitmap_ctor true lbp0 n allone).2 ops = some lbp →
      bitmap_count lbp = bitmap_popcount lbp n ∧
      ∀ i, i < n →
        (bitmap_get lbp i = false → ∃ lbp1, bitmap_set lbp i = some lbp1 ∧
          bitmap_count lbp1 = bitmap_count lbp + 1 ∧
          bitmap_count lbp1 = bitmap_popcount lbp1 n ∧
          bitmap_get lbp1 i = true ∧ ∀ j, j ≠ i → bitmap_get lbp1 j = bitmap_get lbp j) ∧
        (bitmap_get lbp i = true → ∃ lbp1, bitmap_clear lbp i = some lbp1 ∧
          bitmap_count lbp1 + 1 = bitmap_count lbp ∧
          bitmap_count lbp1 = bitmap_popcount lbp1 n ∧
          bitmap_get lbp1 i = false ∧ ∀ j, j ≠ i → bitmap_get lbp1 j = bitmap_get lbp j)) := by
  refine ⟨⟨?_, ?_, fun i hi => bitmap_get_ctor_one lbp0 n i hn hi⟩,
    ⟨?_, ?_, fun i => bitmap_get_ctor_zero lbp0 n i hn⟩, ?_⟩
  · rw [bitmap_ctor_one lbp0 n hn]
  · rw [bitmap_ctor_one lbp0 n hn]; rfl
  · rw [bitmap_ctor_zero lbp0 n hn]
  · rw [bitmap_ctor_zero lbp0 n hn]; rfl
  · intro allone ops lbp hops hrun
    have hinv := bitmap_inv_run ops _ lbp n (bitmap_inv_ctor lbp0 n allone hn) hops hrun
    refine ⟨hinv.2.2, fun i hi => ⟨fun hclear => ?_, fun hset => ?_⟩⟩
    · obtain ⟨lbp1, h1, h2, h3, h4, h5⟩ := bitmap_set_spec lbp n i hinv hi hclear
      exact ⟨lbp1, h1, h2, h3.2.2, h4, h5⟩
    · obtain ⟨lbp1, h1, h2, h3, h4, h5⟩ := bitmap_clear_spec lbp n i hinv hi hset
      exact ⟨lbp1, h1, h2, h3.2.2, h4, h5⟩

/-! ## The linear scan of `readfat` -/

/-- A read depends on the buffer, the mask and the number of clusters only. -/
theorem fat_get_cl_next_congr (a b : fat_descriptor) (c : Nat)
    (hbuf : a.fatbuf = b.fatbuf) (hmask : a.boot.ClustMask = b.boot.ClustMask)
    (hnum : a.boot.NumClusters = b.boot.NumClusters) :
    fat_get_cl_next a c = fat_get_cl_next b c := by
  unfold fat_get_cl_next fat_get_fat12_next fat_get_fat16_next fat_get_fat32_next
  rw [hbuf, hmask, hnum]

/-- A write, whether it is carried out or refused, leaves the entry of every
other cluster alone. -/
theorem fat_get_set_frame (rdonly : Bool) (fat : fat_descriptor) (cl v c : Nat)
    (hgeom : fat.boot.NumClusters ≤ 2 ^ 30) (hne : c ≠ cl) :
    fat_get_cl_next (fat_set_cl_next rdonly fat cl v).2 c = fat_get_cl_next fat c := by
  cases rdonly with
  | true => unfold fat_set_cl_next; simp
  | false =>
    by_cases hr : cl < CLUST_FIRST ∨ cl ≥ fat.boot.NumClusters
    · rw [(fat_access_out_of_range_aux false fat cl v hr)]
    · by_cases hmask : is_fat_mask fat.boot.ClustMask
      · by_cases hchi : c < fat.boot.NumClusters
        · exact fat_get_set_other fat cl v c hmask (by omega) (by omega) hchi hgeom hne
        · have hb := fat_set_cl_next_boot false fat cl v
          unfold fat_get_cl_next
          have h1 : c < CLUST_FIRST ∨ c ≥ fat.boot.NumClusters := by omega
          have h2 : c < CLUST_FIRST ∨
              c ≥ (fat_set_cl_next false fat cl v).2.boot.NumClusters := by
            rw [hb]; exact h1
          simp [h1, h2]
      · have : fat_set_cl_next false fat cl v = (FSFATAL, fat) := by
          unfold is_fat_mask at hmask
          unfold fat_set_cl_next
          simp only [hr, if_false]
          have h1 : ¬ fat.boot.ClustMask = CLUST12_MASK := fun h => hmask (Or.inl h)
          have h2 : ¬ fat.boot.ClustMask = CLUST16_MASK := fun h => hmask (Or.inr (Or.inl h))
          have h3 : ¬ fat.boot.ClustMask = CLUST32_MASK := fun h => hmask (Or.inr (Or.inr h))
          simp [h1, h2, h3]
        rw [this]

/-- In a well-formed descriptor the entry of every valid cluster lies inside the
buffer. -/
theorem fat_wf_entry (fat : fat_descriptor) (hwf : fat_wf fat) (cl : Nat)
    (hlo : CLUST_FIRST ≤ cl) (hhi : cl < fat.boot.NumClusters) : fat_entry_end fat cl ≤ fat.fatbuf.length := by
  obtain ⟨hmask, hgeom, hend⟩ := hwf
  unfold CLUST_FIRST at hend hlo
  have hlast : fat_entry_end fat (fat.boot.NumClusters - 1) ≤ fat.fatbuf.length ∨
      fat.boot.NumClusters ≤ 2 := by omega
  unfold fat_entry_end at hlast ⊢
  have p12 := fat12_ptr_eq cl (by omega)
  have p16 := fat16_ptr_eq cl (by omega)
  have p32 := fat32_ptr_eq cl (by omega)
  have q12 := fat12_ptr_eq (fat.boot.NumClusters - 1) (by omega)
  have q16 := fat16_ptr_eq (fat.boot.NumClusters - 1) (by omega)
  have q32 := fat32_ptr_eq (fat.boot.NumClusters - 1) (by omega)
  rw [p12, p16, p32]
  rw [q12, q16, q32] at hlast
  split_ifs at hlast ⊢ <;> omega

/-- The branches of the loop body of `readfat`, one by one. -/
theorem readfat_step_cases (ask : policy) (rdonly : Bool) (cl : Nat) (s s1 : scan_state)
    (h : readfat_step ask rdonly cl s = some s1) :
    (fat_get_cl_next s.fat cl = CLUST_FREE ∧ ∃ hb, bitmap_clear s.headbitmap cl = some hb ∧
      s1 = { s with
        headbitmap := hb,
        fat := { s.fat with
          boot := { s.fat.boot with NumFree := (s.fat.boot.NumFree + 1) % 2 ^ 32 } } }) ∨
    (fat_get_cl_next s.fat cl = CLUST_BAD ∧ ∃ hb, bitmap_clear s.headbitmap cl = some hb ∧
      s1 = { s with
        headbitmap := hb,
        fat := { s.fat with
          boot := { s.fat.boot with NumBad := (s.fat.boot.NumBad + 1) % 2 ^ 32 } } }) ∨
    (bad_link s.fat.boot.NumClusters (fat_get_cl_next s.fat cl) ∧
      ask 0 question.Truncate cl = true ∧
      s1 = { s with
        fat := (fat_set_cl_next rdonly s.fat cl CLUST_EOF).2,
        ret := s.ret ||| FSFATMOD }) ∨
    (bad_link s.fat.boot.NumClusters (fat_get_cl_next s.fat cl) ∧
      ask 0 question.Truncate cl = false ∧ s1 = s) ∨
    (CLUST_FIRST ≤ fat_get_cl_next s.fat cl ∧
      fat_get_cl_next s.fat cl < s.fat.boot.NumClusters ∧
      fat_get_cl_next s.fat cl ≠ CLUST_BAD ∧
      bitmap_get s.headbitmap (fat_get_cl_next s.fat cl) = true ∧
      ∃ hb, bitmap_clear s.headbitmap (fat_get_cl_next s.fat cl) = some hb ∧
        s1 = { s with headbitmap := hb }) ∨
    (CLUST_FIRST ≤ fat_get_cl_next s.fat cl ∧
      fat_get_cl_next s.fat cl < s.fat.boot.NumClusters ∧
      fat_get_cl_next s.fat cl ≠ CLUST_BAD ∧
      bitmap_get s.headbitmap (fat_get_cl_next s.fat cl) = false ∧ s1 = s) ∨
    (fat_get_cl_next s.fat cl ≥ s.fat.boot.NumClusters ∧
      fat_get_cl_next s.fat cl ≥ CLUST_EOFS ∧ s1 = s) := by
  unfold readfat_step at h
  simp only at h
  by_cases h1 : fat_get_cl_next s.fat cl = CLUST_FREE
  · rw [if_pos h1] at h
    cases hc : bitmap_clear s.headbitmap cl with
    | none => rw [hc] at h; exact absurd h (by simp)
    | some hb =>
      rw [hc] at h
      simp only [Option.some.injEq] at h
      exact Or.inl ⟨h1, hb, rfl, h.symm⟩
  · rw [if_neg h1] at h
    by_cases h2 : fat_get_cl_next s.fat cl = CLUST_BAD
    · rw [if_pos h2] at h
      cases hc : bitmap_clear s.headbitmap cl with
      | none => rw [hc] at h; exact absurd h (by simp)
      | some hb =>
        rw [hc] at h
        simp only [Option.some.injEq] at h
        exact Or.inr (Or.inl ⟨h2, hb, rfl, h.symm⟩)
    · rw [if_neg h2] at h
      by_cases h3 : fat_get_cl_next s.fat cl < CLUST_FIRST ∨
          (fat_get_cl_next s.fat cl ≥ s.fat.boot.NumClusters ∧
            fat_get_cl_next s.fat cl < CLUST_EOFS)
      · rw [if_pos h3] at h
        have hbl : bad_link s.fat.boot.NumClusters (fat_get_cl_next s.fat cl) :=
          ⟨h1, h2, h3⟩
        by_cases ha : ask 0 question.Truncate cl = true
        · rw [if_pos ha] at h
          simp only [Option.some.injEq] at h
          exact Or.inr (Or.inr (Or.inl ⟨hbl, ha, h.symm⟩))
        · rw [if_neg ha] at h
          simp only [Option.some.injEq] at h
          exact Or.inr (Or.inr (Or.inr (Or.inl ⟨hbl, by simpa using ha, h.symm⟩)))
      · rw [if_neg h3] at h
        by_cases h4 : fat_get_cl_next s.fat cl < s.fat.boot.NumClusters
        · rw [if_pos h4] at h
          have hfirst : CLUST_FIRST ≤ fat_get_cl_next s.fat cl := by omega
          by_cases hg : bitmap_get s.headbitmap (fat_get_cl_next s.fat cl) = true
          · rw [if_pos hg] at h
            cases hc : bitmap_clear s.headbitmap (fat_get_cl_next s.fat cl) with
            | none => rw [hc] at h; exact absurd h (by simp)
            | some hb =>
              rw [hc] at h
              simp only [Option.some.injEq] at h
              exact Or.inr (Or.inr (Or.inr (Or.inr (Or.inl
                ⟨hfirst, h4, h2, hg, hb, rfl, h.symm⟩))))
          · rw [if_neg hg] at h
            simp only [Option.some.injEq] at h
            exact Or.inr (Or.inr (Or.inr (Or.inr (Or.inr (Or.inl
              ⟨hfirst, h4, h2, by simpa using hg, h.symm⟩)))))
        · rw [if_neg h4] at h
          simp only [Option.some.injEq] at h
          exact Or.inr (Or.inr (Or.inr (Or.inr (Or.inr (Or.inr
            ⟨by omega, by omega, h.symm⟩)))))

theorem count_clusters_succ (g : Nat → Nat) (v n : Nat) :
    count_clusters g v (n + 1)
      = count_clusters g v n + (if CLUST_FIRST ≤ n ∧ g n = v then 1 else 0) := by
  unfold count_clusters
  rw [List.range_succ, List.filter_append, List.length_append]
  by_cases h : CLUST_FIRST ≤ n ∧ g n = v
  · simp [h]
  · rw [if_neg h]
    have : (decide (CLUST_FIRST ≤ n) && decide (g n = v)) = false := by
      simpa using h
    simp [this]

theorem count_clusters_le (g : Nat → Nat) (v n : Nat) : count_clusters g v n ≤ n := by
  induction n with
  | zero => simp [count_clusters]
  | succ n ih => rw [count_clusters_succ]; split_ifs <;> omega

theorem count_clusters_congr (g g1 : Nat → Nat) (v n : Nat)
    (h : ∀ c, CLUST_FIRST ≤ c → c < n → g c = g1 c) :
    count_clusters g v n = count_clusters g1 v n := by
  induction n with
  | zero => simp [count_clusters]
  | succ n ih =>
    rw [count_clusters_succ, count_clusters_succ, ih (fun c h1 h2 => h c h1 (by omega))]
    by_cases hn : CLUST_FIRST ≤ n
    · rw [h n hn (by omega)]
    · simp [hn]

/-- How the condition for a kept head bit moves when cluster `cl` is visited. -/
theorem head_kept_succ (g : Nat → Nat) (cl X : Nat) (hcl : CLUST_FIRST ≤ cl) :
    head_kept g (cl + 1) X ↔
      (head_kept g cl X ∧
        ¬ ((X = cl ∧ (g cl = CLUST_FREE ∨ g cl = CLUST_BAD)) ∨ g cl = X)) := by
  unfold head_kept
  constructor
  · rintro ⟨h1, h2⟩
    refine ⟨⟨fun ⟨a, b⟩ => h1 ⟨by omega, b⟩, fun c hc1 hc2 => h2 c hc1 (by omega)⟩, ?_⟩
    rintro (⟨rfl, hfb⟩ | hx)
    · exact h1 ⟨by omega, hfb⟩
    · exact h2 cl hcl (by omega) hx
  · rintro ⟨⟨h1, h2⟩, h3⟩
    refine ⟨fun ⟨a, b⟩ => ?_, fun c hc1 hc2 => ?_⟩
    · by_cases hX : X = cl
      · subst hX; exact h3 (Or.inl ⟨rfl, b⟩)
      · exact h1 ⟨by omega, b⟩
    · by_cases hc : c = cl
      · subst hc; exact fun e => h3 (Or.inr e)
      · exact h2 c hc1 (by omega)

theorem head_update (g : Nat → Nat) (n cl : Nat) (hb hb1 : long_bitmap_t)
    (hcl : CLUST_FIRST ≤ cl)
    (hold : ∀ X, CLUST_FIRST ≤ X → X < n → (bitmap_get hb X = true ↔ head_kept g cl X))
    (hnew : ∀ X, CLUST_FIRST ≤ X → X < n →
      (bitmap_get hb1 X = true ↔ (bitmap_get hb X = true ∧
        ¬ ((X = cl ∧ (g cl = CLUST_FREE ∨ g cl = CLUST_BAD)) ∨ g cl = X)))) :
    ∀ X, CLUST_FIRST ≤ X → X < n → (bitmap_get hb1 X = true ↔ head_kept g (cl + 1) X) := by
  intro X h1 h2
  rw [head_kept_succ g cl X hcl, hnew X h1 h2, hold X h1 h2]

theorem clust_consts : CLUST_FREE = 0 ∧ CLUST_FIRST = 2 ∧ CLUST_BAD = 4294967287 ∧
    CLUST_EOFS = 4294967288 ∧ CLUST_EOF = 4294967295 ∧ CLUST_DEAD = 4260027405 := by
  decide

/-- One iteration of the scan keeps the invariant. -/
theorem scan_inv_step (ask : policy) (rdonly : Bool) (g : Nat → Nat) (mask n cl : Nat)
    (s s1 : scan_state) (hgeom : n ≤ 2 ^ 30) (hlo : CLUST_FIRST ≤ cl) (hhi : cl < n)
    (hinv : scan_inv g mask n cl s) (h : readfat_step ask rdonly cl s = some s1) :
    scan_inv g mask n (cl + 1) s1 := by
  obtain ⟨hm, hn, hent, hbinv, hhead, hfree, hbad⟩ := hinv
  have hv : fat_get_cl_next s.fat cl = g cl := hent cl (le_refl _)
  have cf := count_clusters_succ g CLUST_FREE cl
  have cb := count_clusters_succ g CLUST_BAD cl
  have lf := count_clusters_le g CLUST_FREE cl
  have lb := count_clusters_le g CLUST_BAD cl
  obtain ⟨k0, k2, kbad, keofs, keof, kdead⟩ := clust_consts
  have hlen := hbinv.1
  unfold scan_inv
  rcases readfat_step_cases ask rdonly cl s s1 h with
    ⟨h1, hb, hc, rfl⟩ | ⟨h1, hb, hc, rfl⟩ | ⟨hbl, ha, rfl⟩ | ⟨hbl, ha, hs⟩ |
    ⟨h1, h2, h3, hg, hb, hc, rfl⟩ | ⟨h1, h2, h3, hg, hs⟩ | ⟨h1, h2, hs⟩
  · -- free
    rw [hv] at h1
    have hget := fun c => bitmap_get_clear s.headbitmap hb cl c hc (by omega)
    refine ⟨hm, hn, fun c hc1 => ?_, (bitmap_inv_clear _ hb n cl hbinv hhi hc).1,
      head_update g n cl s.headbitmap hb hlo hhead (fun X hX1 hX2 => ?_), ?_, ?_⟩
    · rw [← hent c (by omega)]
      exact fat_get_cl_next_congr _ _ c rfl rfl rfl
    · rw [hget X, h1]
      by_cases hX : X = cl
      · simp [hX]
      · have : ¬ CLUST_FREE = X := by omega
        simp [hX, this]
    · show (s.fat.boot.NumFree + 1) % 2 ^ 32 = _
      rw [cf, if_pos ⟨hlo, h1⟩, hfree]
      omega
    · show s.fat.boot.NumBad = _
      rw [cb, if_neg (by rw [h1]; omega), hbad]
      rfl
  · -- bad
    rw [hv] at h1
    have hget := fun c => bitmap_get_clear s.headbitmap hb cl c hc (by omega)
    refine ⟨hm, hn, fun c hc1 => ?_, (bitmap_inv_clear _ hb n cl hbinv hhi hc).1,
      head_update g n cl s.headbitmap hb hlo hhead (fun X hX1 hX2 => ?_), ?_, ?_⟩
    · rw [← hent c (by omega)]
      exact fat_get_cl_next_congr _ _ c rfl rfl rfl
    · rw [hget X, h1]
      by_cases hX : X = cl
      · simp [hX]
      · have : ¬ CLUST_BAD = X := by omega
        simp [hX, this]
    · show s.fat.boot.NumFree = _
      rw [cf, if_neg (by rw [h1]; omega), hfree]
      rfl
    · show (s.fat.boot.NumBad + 1) % 2 ^ 32 = _
      rw [cb, if_pos ⟨hlo, h1⟩, hbad]
      omega
  · -- truncated
    rw [hv, hn] at hbl
    obtain ⟨b1, b2, b3⟩ := hbl
    have hboot := fat_set_cl_next_boot rdonly s.fat cl CLUST_EOF
    refine ⟨by show (fat_set_cl_next rdonly s.fat cl CLUST_EOF).2.boot.ClustMask = _
               rw [hboot]; exact hm,
      by show (fat_set_cl_next rdonly s.fat cl CLUST_EOF).2.boot.NumClusters = _
         rw [hboot]; exact hn,
      fun c hc1 => ?_, hbinv,
      head_update g n cl s.headbitmap s.headbitmap hlo hhead (fun X hX1 hX2 => ?_), ?_, ?_⟩
    · rw [← hent c (by omega)]
      exact fat_get_set_frame rdonly s.fat cl CLUST_EOF c (by rw [hn]; exact hgeom) (by omega)
    · have n1 : ¬ (g cl = CLUST_FREE ∨ g cl = CLUST_BAD) := by tauto
      have n2 : ¬ g cl = X := by omega
      simp [n1, n2]
    · show (fat_set_cl_next rdonly s.fat cl CLUST_EOF).2.boot.NumFree = _
      rw [hboot, cf, if_neg (fun hh => b1 hh.2), hfree]
      rfl
    · show (fat_set_cl_next rdonly s.fat cl CLUST_EOF).2.boot.NumBad = _
      rw [hboot, cb, if_neg (fun hh => b2 hh.2), hbad]
      rfl
  · -- not truncated
    have hs1 := hs.symm
    subst hs1
    rw [hv, hn] at hbl
    obtain ⟨b1, b2, b3⟩ := hbl
    refine ⟨hm, hn, fun c hc1 => hent c (by omega), hbinv,
      head_update g n cl s.headbitmap s.headbitmap hlo hhead (fun X hX1 hX2 => ?_), ?_, ?_⟩
    · have n1 : ¬ (g cl = CLUST_FREE ∨ g cl = CLUST_BAD) := by tauto
      have n2 : ¬ g cl = X := by omega
      simp [n1, n2]
    · rw [cf, if_neg (fun hh => b1 hh.2), hfree]
      rfl
    · rw [cb, if_neg (fun hh => b2 hh.2), hbad]
      rfl
  · -- link to a cluster whose head bit is set
    rw [hv] at h1 h2 h3 hg hc
    rw [hn] at h2
    have hget := fun c => bitmap_get_clear s.headbitmap hb (g cl) c hc (by omega)
    have b1 : ¬ g cl = CLUST_FREE := by omega
    refine ⟨hm, hn, fun c hc1 => hent c (by omega),
      (bitmap_inv_clear _ hb n (g cl) hbinv h2 hc).1,
      head_update g n cl s.headbitmap hb hlo hhead (fun X hX1 hX2 => ?_), ?_, ?_⟩
    · rw [hget X]
      have n1 : ¬ (g cl = CLUST_FREE ∨ g cl = CLUST_BAD) := by tauto
      by_cases hX : X = g cl
      · simp [hX]
      · have : ¬ g cl = X := fun e => hX e.symm
        simp [hX, this, n1]
    · show s.fat.boot.NumFree = _
      rw [cf, if_neg (fun hh => b1 hh.2), hfree]
      rfl
    · show s.fat.boot.NumBad = _
      rw [cb, if_neg (fun hh => h3 hh.2), hbad]
      rfl
  · -- link to a cluster whose head bit is clear
    have hs1 := hs.symm
    subst hs1
    rw [hv] at h1 h2 h3 hg
    rw [hn] at h2
    have b1 : ¬ g cl = CLUST_FREE := by omega
    refine ⟨hm, hn, fun c hc1 => hent c (by omega), hbinv,
      head_update g n cl s.headbitmap s.headbitmap hlo hhead (fun X hX1 hX2 => ?_), ?_, ?_⟩
    · have n1 : ¬ (g cl = CLUST_FREE ∨ g cl = CLUST_BAD) := by tauto
      by_cases hX : X = g cl
      · simp [hX, hg]
      · have : ¬ g cl = X := fun e => hX e.symm
        simp [this, n1]
    · rw [cf, if_neg (fun hh => b1 hh.2), hfree]
      rfl
    · rw [cb, if_neg (fun hh => h3 hh.2), hbad]
      rfl
  · -- end of chain
    have hs1 := hs.symm
    subst hs1
    rw [hv] at h1 h2
    rw [hn] at h1
    have b1 : ¬ g cl = CLUST_FREE := by omega
    have b2 : ¬ g cl = CLUST_BAD := by omega
    refine ⟨hm, hn, fun c hc1 => hent c (by omega), hbinv,
      head_update g n cl s.headbitmap s.headbitmap hlo hhead (fun X hX1 hX2 => ?_), ?_, ?_⟩
    · have n1 : ¬ (g cl = CLUST_FREE ∨ g cl = CLUST_BAD) := by tauto
      have n2 : ¬ g cl = X := by omega
      simp [n1, n2]
    · rw [cf, if_neg (fun hh => b1 hh.2), hfree]
      rfl
    · rw [cb, if_neg (fun hh => b2 hh.2), hbad]
      rfl

/-- Every run of the scan keeps the invariant. -/
theorem scan_inv_loop (ask : policy) (rdonly : Bool) (g : Nat → Nat) (mask n : Nat)
    (hgeom : n ≤ 2 ^ 30) (k : Nat) :
    ∀ (cl : Nat) (s s1 : scan_state), CLUST_FIRST ≤ cl → cl + k ≤ n →
      scan_inv g mask n cl s → readfat_loop ask rdonly k cl s = some s1 →
      scan_inv g mask n (cl + k) s1 := by
  induction k with
  | zero =>
    intro cl s s1 _ _ hinv h
    simp only [readfat_loop, Option.some.injEq] at h
    rw [← h]; exact hinv
  | succ k ih =>
    intro cl s s1 hlo hhi hinv h
    simp only [readfat_loop] at h
    cases hstep : readfat_step ask rdonly cl s with
    | none => rw [hstep] at h; exact absurd h (by simp)
    | some s2 =>
      rw [hstep] at h
      have h2 := scan_inv_step ask rdonly g mask n cl s s2 hgeom hlo (by omega) hinv hstep
      have h3 := ih (cl + 1) s2 s1 (by omega) (by omega) h2 h
      rw [show cl + (k + 1) = cl + 1 + k by omega]
      exact h3

theorem count_clusters_first (g : Nat → Nat) (v n : Nat) (hn : n ≤ CLUST_FIRST) :
    count_clusters g v n = 0 := by
  induction n with
  | zero => simp [count_clusters]
  | succ n ih =>
    rw [count_clusters_succ, ih (by omega), if_neg (fun hh => by omega)]

/-- The invariant holds when the scan starts. -/
theorem scan_inv_init (fat : fat_descriptor) (ret : Nat)
    (hgeom : fat.boot.NumClusters ≤ 2 ^ 30)
    (hfree : fat.boot.NumFree = 0) (hbad : fat.boot.NumBad = 0) :
    scan_inv (fat_get_cl_next fat) fat.boot.ClustMask fat.boot.NumClusters CLUST_FIRST
      ⟨fat, (bitmap_ctor true ⟨0, []⟩ fat.boot.NumClusters true).2, ret⟩ := by
  have hn : fat.boot.NumClusters + 63 < 2 ^ 64 := by omega
  unfold scan_inv
  refine ⟨rfl, rfl, fun c _ => rfl, bitmap_inv_ctor ⟨0, []⟩ _ true hn,
    fun X hX1 hX2 => ?_, ?_, ?_⟩
  · show bitmap_get (bitmap_ctor true ⟨0, []⟩ fat.boot.NumClusters true).2 X = true ↔ _
    rw [bitmap_get_ctor_one _ _ X hn hX2]
    unfold head_kept
    simp only [true_iff]
    exact ⟨fun ⟨a, _⟩ => by omega, fun c h1 h2 => by omega⟩
  · show fat.boot.NumFree = _
    rw [count_clusters_first _ _ _ (le_refl _), hfree]
  · show fat.boot.NumBad = _
    rw [count_clusters_first _ _ _ (le_refl _), hbad]

/-- What the scan of `readfat` establishes, in terms of the entries it started
from. -/
theorem readfat_loop_spec (ask : policy) (rdonly : Bool) (fat : fat_descriptor) (ret : Nat)
    (s1 : scan_state) (hgeom : fat.boot.NumClusters ≤ 2 ^ 30)
    (hfree : fat.boot.NumFree = 0) (hbad : fat.boot.NumBad = 0)
    (h : readfat_loop ask rdonly (fat.boot.NumClusters - CLUST_FIRST) CLUST_FIRST
      ⟨fat, (bitmap_ctor true ⟨0, []⟩ fat.boot.NumClusters true).2, ret⟩ = some s1) :
    s1.fat.boot.ClustMask = fat.boot.ClustMask ∧
    s1.fat.boot.NumClusters = fat.boot.NumClusters ∧
    (∀ X, CLUST_FIRST ≤ X → X < fat.boot.NumClusters →
      (bitmap_get s1.headbitmap X = true ↔
        (fat_get_cl_next fat X ≠ CLUST_FREE ∧ fat_get_cl_next fat X ≠ CLUST_BAD ∧
          ∀ c, CLUST_FIRST ≤ c → c < fat.boot.NumClusters → fat_get_cl_next fat c ≠ X))) ∧
    s1.fat.boot.NumFree = count_clusters (fat_get_cl_next fat) CLUST_FREE fat.boot.NumClusters ∧
    s1.fat.boot.NumBad = count_clusters (fat_get_cl_next fat) CLUST_BAD fat.boot.NumClusters := by
  have hinit := scan_inv_init fat ret hgeom hfree hbad
  by_cases hn : CLUST_FIRST ≤ fat.boot.NumClusters
  · have hfin := scan_inv_loop ask rdonly (fat_get_cl_next fat) fat.boot.ClustMask
      fat.boot.NumClusters hgeom (fat.boot.NumClusters - CLUST_FIRST) CLUST_FIRST _ s1
      (le_refl _) (by omega) hinit h
    rw [show CLUST_FIRST + (fat.boot.NumClusters - CLUST_FIRST) = fat.boot.NumClusters
      by omega] at hfin
    unfold scan_inv at hfin
    obtain ⟨h1, h2, _, _, h5, h6, h7⟩ := hfin
    refine ⟨h1, h2, fun X hX1 hX2 => ?_, h6, h7⟩
    rw [h5 X hX1 hX2]
    unfold head_kept
    constructor
    · rintro ⟨a, b⟩
      exact ⟨fun e => a ⟨hX2, Or.inl e⟩, fun e => a ⟨hX2, Or.inr e⟩, b⟩
    · rintro ⟨a, b, c⟩
      exact ⟨fun ⟨_, e⟩ => e.elim a b, c⟩
  · have hk : fat.boot.NumClusters - CLUST_FIRST = 0 := by omega
    rw [hk] at h
    simp only [readfat_loop, Option.some.injEq] at h
    rw [← h]
    refine ⟨rfl, rfl, fun X hX1 hX2 => by omega, ?_, ?_⟩
    · show fat.boot.NumFree = _
      rw [count_clusters_first _ _ _ (by omega), hfree]
    · show fat.boot.NumBad = _
      rw [count_clusters_first _ _ _ (by omega), hbad]

/-! ## Truncation of bad links by the scan -/

theorem fat_wf_congr (a b : fat_descriptor) (hwf : fat_wf a)
    (hmask : b.boot.ClustMask = a.boot.ClustMask)
    (hnum : b.boot.NumClusters = a.boot.NumClusters)
    (hlen : b.fatbuf.length = a.fatbuf.length) : fat_wf b := by
  unfold fat_wf fat_entry_end at *
  rw [hmask, hnum, hlen]
  exact hwf

theorem fat_wf_set (rdonly : Bool) (fat : fat_descriptor) (cl v : Nat) (hwf : fat_wf fat) :
    fat_wf (fat_set_cl_next rdonly fat cl v).2 := by
  have hb := fat_set_cl_next_boot rdonly fat cl v
  exact fat_wf_congr fat _ hwf (by rw [hb]) (by rw [hb])
    (fat_set_cl_next_length rdonly fat cl v)

/-- On a writable well-formed table, an entry overwritten with `CLUST_EOF` reads
`CLUST_EOF`. -/
theorem fat_get_set_eof (fat : fat_descriptor) (cl : Nat) (hwf : fat_wf fat)
    (hlo : CLUST_FIRST ≤ cl) (hhi : cl < fat.boot.NumClusters) :
    fat_get_cl_next (fat_set_cl_next false fat cl CLUST_EOF).2 cl = CLUST_EOF := by
  have h := (fat_get_set_same fat cl CLUST_EOF hwf.1 hlo hhi (fat_wf_entry fat hwf cl hlo hhi)).2
  rw [h]
  exact sign_extend_representable _ _ hwf.1 (by decide) (Or.inr (by decide))

theorem or_fatmod_idem (r : Nat) : (r ||| FSFATMOD) ||| FSFATMOD = r ||| FSFATMOD := by
  rw [Nat.lor_assoc, Nat.or_self]

/-- Extension of the truncation invariant by one visited cluster. -/
theorem trunc_inv_ext (ask : policy) (rdonly : Bool) (g : Nat → Nat) (n ret0 cl : Nat)
    (s s1 : scan_state) (hinv : trunc_inv ask rdonly g n ret0 cl s)
    (hwf1 : fat_wf s1.fat)
    (hsame : ∀ c, c ≠ cl → fat_get_cl_next s1.fat c = fat_get_cl_next s.fat c)
    (hnew : fat_get_cl_next s1.fat cl =
      if bad_link n (g cl) ∧ ask 0 question.Truncate cl = true ∧ rdonly = false
      then CLUST_EOF else g cl)
    (hret : s1.ret =
      if bad_link n (g cl) ∧ ask 0 question.Truncate cl = true then s.ret ||| FSFATMOD
      else s.ret)
    (hlo : CLUST_FIRST ≤ cl) :
    trunc_inv ask rdonly g n ret0 (cl + 1) s1 := by
  obtain ⟨_, hent, hyes, hno⟩ := hinv
  refine ⟨hwf1, fun c hc1 hc2 => ?_, fun hex => ?_, fun hnex => ?_⟩
  · by_cases hc : c = cl
    · rw [hc]; exact hnew
    · rw [hsame c hc]; exact hent c hc1 (by omega)
  · rw [hret]
    by_cases hnow : bad_link n (g cl) ∧ ask 0 question.Truncate cl = true
    · rw [if_pos hnow]
      by_cases hbefore : ∃ c, CLUST_FIRST ≤ c ∧ c < cl ∧ bad_link n (g c) ∧
          ask 0 question.Truncate c = true
      · rw [hyes hbefore, or_fatmod_idem]
      · rw [hno hbefore]
    · rw [if_neg hnow]
      apply hyes
      obtain ⟨c, h1, h2, h3, h4⟩ := hex
      by_cases hc : c = cl
      · subst hc; exact absurd ⟨h3, h4⟩ hnow
      · exact ⟨c, h1, by omega, h3, h4⟩
  · rw [hret]
    have hnow : ¬ (bad_link n (g cl) ∧ ask 0 question.Truncate cl = true) :=
      fun hh => hnex ⟨cl, hlo, by omega, hh.1, hh.2⟩
    rw [if_neg hnow]
    apply hno
    rintro ⟨c, h1, h2, h3, h4⟩
    exact hnex ⟨c, h1, by omega, h3, h4⟩

/-- One iteration of the scan keeps the truncation invariant. -/
theorem trunc_inv_step (ask : policy) (rdonly : Bool) (g : Nat → Nat) (mask n ret0 cl : Nat)
    (s s1 : scan_state) (hgeom : n ≤ 2 ^ 30) (hlo : CLUST_FIRST ≤ cl) (hhi : cl < n)
    (hsc : scan_inv g mask n cl s) (hinv : trunc_inv ask rdonly g n ret0 cl s)
    (h : readfat_step ask rdonly cl s = some s1) :
    trunc_inv ask rdonly g n ret0 (cl + 1) s1 := by
  obtain ⟨hm, hn, hent, _, _, _, _⟩ := hsc
  have hv : fat_get_cl_next s.fat cl = g cl := hent cl (le_refl _)
  have hwf := hinv.1
  obtain ⟨k0, k2, kbad, keofs, keof, kdead⟩ := clust_consts
  rcases readfat_step_cases ask rdonly cl s s1 h with
    ⟨h1, hb, hc, rfl⟩ | ⟨h1, hb, hc, rfl⟩ | ⟨hbl, ha, rfl⟩ | ⟨hbl, ha, hs⟩ |
    ⟨h1, h2, h3, hg, hb, hc, rfl⟩ | ⟨h1, h2, h3, hg, hs⟩ | ⟨h1, h2, hs⟩
  · rw [hv] at h1
    have nb : ¬ bad_link n (g cl) := fun hh => hh.1 h1
    refine trunc_inv_ext ask rdonly g n ret0 cl s _ hinv
      (fat_wf_congr s.fat _ hwf rfl rfl rfl)
      (fun c _ => fat_get_cl_next_congr _ _ c rfl rfl rfl) ?_ ?_ hlo
    · rw [if_neg (fun hh => nb hh.1), ← hv]
      exact fat_get_cl_next_congr _ _ cl rfl rfl rfl
    · rw [if_neg (fun hh => nb hh.1)]
  · rw [hv] at h1
    have nb : ¬ bad_link n (g cl) := fun hh => hh.2.1 h1
    refine trunc_inv_ext ask rdonly g n ret0 cl s _ hinv
      (fat_wf_congr s.fat _ hwf rfl rfl rfl)
      (fun c _ => fat_get_cl_next_congr _ _ c rfl rfl rfl) ?_ ?_ hlo
    · rw [if_neg (fun hh => nb hh.1), ← hv]
      exact fat_get_cl_next_congr _ _ cl rfl rfl rfl
    · rw [if_neg (fun hh => nb hh.1)]
  · rw [hv, hn] at hbl
    refine trunc_inv_ext ask rdonly g n ret0 cl s _ hinv
      (fat_wf_set rdonly s.fat cl CLUST_EOF hwf)
      (fun c hc => fat_get_set_frame rdonly s.fat cl CLUST_EOF c (by rw [hn]; exact hgeom) hc)
      ?_ ?_ hlo
    · show fat_get_cl_next (fat_set_cl_next rdonly s.fat cl CLUST_EOF).2 cl = _
      cases rdonly with
      | true =>
        rw [if_neg (fun hh => by simp at hh), ← hv]
        unfold fat_set_cl_next; simp
      | false =>
        rw [if_pos ⟨hbl, ha, rfl⟩]
        exact fat_get_set_eof s.fat cl hwf hlo (by rw [hn]; exact hhi)
    · show s.ret ||| FSFATMOD = _
      rw [if_pos ⟨hbl, ha⟩]
  · have hs1 := hs.symm
    subst hs1
    refine trunc_inv_ext ask rdonly g n ret0 cl s s hinv hwf (fun c _ => rfl) ?_ ?_ hlo
    · rw [if_neg (fun hh => by rw [ha] at hh; simp at hh), hv]
    · rw [if_neg (fun hh => by rw [ha] at hh; simp at hh)]
  · rw [hv] at h1 h2 h3
    rw [hn] at h2
    have nb : ¬ bad_link n (g cl) := fun hh => by
      obtain ⟨_, _, b3⟩ := hh; omega
    refine trunc_inv_ext ask rdonly g n ret0 cl s _ hinv hwf (fun c _ => rfl) ?_ ?_ hlo
    · rw [if_neg (fun hh => nb hh.1), ← hv]
    · rw [if_neg (fun hh => nb hh.1)]
  · have hs1 := hs.symm
    subst hs1
    rw [hv] at h1 h2 h3
    rw [hn] at h2
    have nb : ¬ bad_link n (g cl) := fun hh => by
      obtain ⟨_, _, b3⟩ := hh; omega
    refine trunc_inv_ext ask rdonly g n ret0 cl s s hinv hwf (fun c _ => rfl) ?_ ?_ hlo
    · rw [if_neg (fun hh => nb hh.1), hv]
    · rw [if_neg (fun hh => nb hh.1)]
  · have hs1 := hs.symm
    subst hs1
    rw [hv] at h1 h2
    rw [hn] at h1
    have nb : ¬ bad_link n (g cl) := fun hh => by
      obtain ⟨_, _, b3⟩ := hh; omega
    refine trunc_inv_ext ask rdonly g n ret0 cl s s hinv hwf (fun c _ => rfl) ?_ ?_ hlo
    · rw [if_neg (fun hh => nb hh.1), hv]
    · rw [if_neg (fun hh => nb hh.1)]

/-- Every run of the scan keeps the truncation invariant. -/
theorem trunc_inv_loop (ask : policy) (rdonly : Bool) (g : Nat → Nat) (mask n ret0 : Nat)
    (hgeom : n ≤ 2 ^ 30) (k : Nat) :
    ∀ (cl : Nat) (s s1 : scan_state), CLUST_FIRST ≤ cl → cl + k ≤ n →
      scan_inv g mask n cl s → trunc_inv ask rdonly g n ret0 cl s →
      readfat_loop ask rdonly k cl s = some s1 →
      trunc_inv ask rdonly g n ret0 (cl + k) s1 := by
  induction k with
  | zero =>
    intro cl s s1 _ _ _ hinv h
    simp only [readfat_loop, Option.some.injEq] at h
    rw [← h]; exact hinv
  | succ k ih =>
    intro cl s s1 hlo hhi hsc hinv h
    simp only [readfat_loop] at h
    cases hstep : readfat_step ask rdonly cl s with
    | none => rw [hstep] at h; exact absurd h (by simp)
    | some s2 =>
      rw [hstep] at h
      have h2 := scan_inv_step ask rdonly g mask n cl s s2 hgeom hlo (by omega) hsc hstep
      have h3 := trunc_inv_step ask rdonly g mask n ret0 cl s s2 hgeom hlo (by omega)
        hsc hinv hstep
      have h4 := ih (cl + 1) s2 s1 (by omega) (by omega) h2 h3 h
      rw [show cl + (k + 1) = cl + 1 + k by omega]
      exact h4

/-- What the scan of `readfat` does to the entries of a well-formed table and to
the status. -/
theorem readfat_loop_trunc (ask : policy) (rdonly : Bool) (fat : fat_descriptor) (ret : Nat)
    (s1 : scan_state) (hwf : fat_wf fat)
    (hfree : fat.boot.NumFree = 0) (hbad : fat.boot.NumBad = 0)
    (h : readfat_loop ask rdonly (fat.boot.NumClusters - CLUST_FIRST) CLUST_FIRST
      ⟨fat, (bitmap_ctor true ⟨0, []⟩ fat.boot.NumClusters true).2, ret⟩ = some s1) :
    trunc_inv ask rdonly (fat_get_cl_next fat) fat.boot.NumClusters ret
      fat.boot.NumClusters s1 := by
  have hgeom := hwf.2.1
  have hinit := scan_inv_init fat ret hgeom hfree hbad
  by_cases hn : CLUST_FIRST ≤ fat.boot.NumClusters
  · have hfin := trunc_inv_loop ask rdonly (fat_get_cl_next fat) fat.boot.ClustMask
      fat.boot.NumClusters ret hgeom (fat.boot.NumClusters - CLUST_FIRST) CLUST_FIRST _ s1
      (le_refl _) (by omega) hinit
      ⟨hwf, fun c h1 h2 => by omega, fun ⟨c, h1, h2, _⟩ => by omega, fun _ => rfl⟩ h
    rw [show CLUST_FIRST + (fat.boot.NumClusters - CLUST_FIRST) = fat.boot.NumClusters
      by omega] at hfin
    exact hfin
  · have hk : fat.boot.NumClusters - CLUST_FIRST = 0 := by omega
    rw [hk] at h
    simp only [readfat_loop, Option.some.injEq] at h
    rw [← h]
    exact ⟨hwf, fun c h1 h2 => by omega, fun ⟨c, h1, h2, _⟩ => by omega, fun _ => rfl⟩

/-! ## The signature check of `readfat` -/

theorem readfat_signature_ret (ask : policy) (boot : bootblock) (buffer : List Nat) :
    (readfat_signature ask boot buffer).1 = FSOK ∨
      (readfat_signature ask boot buffer).1 = FSOK ||| FSDIRTY := by
  unfold readfat_signature
  simp only
  split_ifs <;> simp

theorem readfat_signature_length (ask : policy) (boot : bootblock) (buffer : List Nat) :
    (readfat_signature ask boot buffer).2.length = buffer.length := by
  unfold readfat_signature
  simp only
  split_ifs <;> simp

theorem readfat_signature_rdb (ask : policy) (boot : bootblock) (buffer : List Nat) (j : Nat)
    (hj : fat_signature_bytes boot.ClustMask ≤ j) :
    rdb (readfat_signature ask boot buffer).2 j = rdb buffer j := by
  unfold fat_signature_bytes at hj
  obtain ⟨d1, d2, d3⟩ := mask_distinct
  have n0 : ¬ (0 = j) := by split_ifs at hj <;> omega
  have n1 : ¬ (1 = j) := by split_ifs at hj <;> omega
  have n2 : ¬ (2 = j) := by split_ifs at hj <;> omega
  by_cases h16 : boot.ClustMask = CLUST16_MASK
  · have h32 : ¬ boot.ClustMask = CLUST32_MASK := by rw [h16]; exact d3
    have h12 : ¬ boot.ClustMask = CLUST12_MASK := by rw [h16]; exact d1.symm
    rw [if_neg h12, if_pos h16] at hj
    have n3 : ¬ (3 = j) := by omega
    unfold readfat_signature
    simp only [h16, h32, if_true, if_false]
    split_ifs <;> simp only [rdb_set, n0, n1, n2, n3, false_and, if_false]
  · by_cases h32 : boot.ClustMask = CLUST32_MASK
    · have h12 : ¬ boot.ClustMask = CLUST12_MASK := by rw [h32]; exact d2.symm
      rw [if_neg h12, if_neg h16] at hj
      have n3 : ¬ (3 = j) := by omega
      have n4 : ¬ (4 = j) := by omega
      have n5 : ¬ (5 = j) := by omega
      have n6 : ¬ (6 = j) := by omega
      have n7 : ¬ (7 = j) := by omega
      unfold readfat_signature
      simp only [h16, h32, if_true, if_false]
      split_ifs <;>
        simp only [rdb_set, n0, n1, n2, n3, n4, n5, n6, n7, false_and, if_false]
    · unfold readfat_signature
      simp only [h16, h32, if_false]
      split_ifs <;> simp only [rdb_set, n0, n1, n2, false_and, if_false]

/-- Two tables of the same geometry whose buffers agree behind the signature
bytes have the same entries. -/
theorem fat_get_cl_next_behind_signature (a b : fat_descriptor) (c : Nat)
    (hmask : a.boot.ClustMask = b.boot.ClustMask)
    (hnum : a.boot.NumClusters = b.boot.NumClusters)
    (hgeom : b.boot.NumClusters ≤ 2 ^ 30)
    (hbuf : ∀ j, fat_signature_bytes b.boot.ClustMask ≤ j → rdb a.fatbuf j = rdb b.fatbuf j) :
    fat_get_cl_next a c = fat_get_cl_next b c := by
  by_cases hr : c < CLUST_FIRST ∨ c ≥ b.boot.NumClusters
  · unfold fat_get_cl_next
    rw [hnum]
    simp [hr]
  · have hlo : CLUST_FIRST ≤ c := by omega
    have hhi : c < b.boot.NumClusters := by omega
    rw [fat_get_cl_next_valid a c hlo (by rw [hnum]; exact hhi),
      fat_get_cl_next_valid b c hlo hhi, hmask]
    unfold fat_signature_bytes at hbuf
    unfold CLUST_FIRST at hlo
    obtain ⟨d1, d2, d3⟩ := mask_distinct
    by_cases h12 : b.boot.ClustMask = CLUST12_MASK
    · simp only [h12, if_true] at hbuf ⊢
      rw [fat12_get_eq, fat12_get_eq, fat12_ptr_eq c (by omega),
        hbuf (c + c / 2) (by omega), hbuf (c + c / 2 + 1) (by omega)]
    · by_cases h16 : b.boot.ClustMask = CLUST16_MASK
      · simp only [h16, d1.symm, if_true, if_false] at hbuf ⊢
        rw [fat16_get_eq, fat16_get_eq, fat16_ptr_eq c (by omega),
          hbuf (2 * c) (by omega), hbuf (2 * c + 1) (by omega)]
      · by_cases h32 : b.boot.ClustMask = CLUST32_MASK
        · simp only [h32, d2.symm, d3.symm, if_true, if_false] at hbuf ⊢
          rw [fat32_get_eq, fat32_get_eq, fat32_ptr_eq c (by omega),
            hbuf (4 * c) (by omega), hbuf (4 * c + 1) (by omega),
            hbuf (4 * c + 2) (by omega), hbuf (4 * c + 3) (by omega)]
        · simp only [h12, h16, h32, if_false]

/-- The signature check leaves the entries of the clusters alone. -/
theorem readfat_signature_entries (ask : policy) (boot : bootblock) (buffer : List Nat)
    (fatsize c : Nat) (hgeom : boot.NumClusters ≤ 2 ^ 30) :
    fat_get_cl_next ⟨boot, fatsize, (readfat_signature ask boot buffer).2⟩ c
      = fat_get_cl_next ⟨boot, fatsize, buffer⟩ c :=
  fat_get_cl_next_behind_signature _ _ c rfl rfl hgeom
    (fun j hj => readfat_signature_rdb ask boot buffer j hj)

/-- Unfolding of `readfat`: the scan it runs and what it returns. -/
theorem readfat_eq (ask : policy) (rdonly : Bool) (boot : bootblock) (buffer : List Nat)
    (r : readfat_result) (h : readfat ask rdonly boot buffer = some r) :
    ∃ s1, readfat_loop ask rdonly ((readfat_fat ask boot buffer).boot.NumClusters - CLUST_FIRST)
        CLUST_FIRST
        ⟨readfat_fat ask boot buffer,
          (bitmap_ctor true ⟨0, []⟩ (readfat_fat ask boot buffer).boot.NumClusters true).2,
          readfat_ret0 ask boot buffer⟩ = some s1 ∧
      r.ret = s1.ret ∧ r.fat = s1.fat ∧ r.headbitmap = s1.headbitmap ∧
      r.usedbitmap = (bitmap_ctor true ⟨0, []⟩ boot.NumClusters false).2 := by
  unfold readfat at h
  simp only at h
  split at h
  · exact absurd h (by simp)
  · rename_i s1 hs
    simp only [Option.some.injEq] at h
    exact ⟨s1, hs, by rw [← h], by rw [← h], by rw [← h], by rw [← h]⟩

theorem readfat_fat_boot (ask : policy) (boot : bootblock) (buffer : List Nat) :
    (readfat_fat ask boot buffer).boot.NumClusters = boot.NumClusters ∧
    (readfat_fat ask boot buffer).boot.ClustMask = boot.ClustMask ∧
    (readfat_fat ask boot buffer).boot.NumFree = 0 ∧
    (readfat_fat ask boot buffer).boot.NumBad = 0 ∧
    (readfat_fat ask boot buffer).fatbuf.length = buffer.length :=
  ⟨rfl, rfl, rfl, rfl, readfat_signature_length _ _ _⟩

theorem count_clusters_congr_iff (g g1 : Nat → Nat) (v n : Nat)
    (h : ∀ c, CLUST_FIRST ≤ c → c < n → (g c = v ↔ g1 c = v)) :
    count_clusters g v n = count_clusters g1 v n := by
  induction n with
  | zero => simp [count_clusters]
  | succ n ih =>
    rw [count_clusters_succ, count_clusters_succ, ih (fun c h1 h2 => h c h1 (by omega))]
    by_cases hn : CLUST_FIRST ≤ n
    · have := h n hn (by omega)
      by_cases hg : g n = v
      · rw [if_pos ⟨hn, hg⟩, if_pos ⟨hn, this.mp hg⟩]
      · rw [if_neg (fun hh => hg hh.2), if_neg (fun hh => hg (this.mpr hh.2))]
    · simp [hn]

/-- The entries that `readfat` starts its scan from are the entries of the table
as loaded. -/
theorem readfat_start_entries (ask : policy) (boot : bootblock) (buffer : List Nat)
    (hgeom : boot.NumClusters ≤ 2 ^ 30) :
    fat_get_cl_next (readfat_fat ask boot buffer) = fat_get_cl_next ⟨boot, 0, buffer⟩ := by
  funext c
  unfold readfat_fat
  rw [readfat_signature_entries ask { boot with NumFree := 0, NumBad := 0 } buffer 0 c hgeom]
  exact fat_get_cl_next_congr _ _ c rfl rfl rfl

theorem readfat_fat_wf (ask : policy) (boot : bootblock) (buffer : List Nat)
    (hwf : fat_wf ⟨boot, 0, buffer⟩) : fat_wf (readfat_fat ask boot buffer) :=
  fat_wf_congr ⟨boot, 0, buffer⟩ _ hwf rfl rfl (readfat_signature_length _ _ _)

/-- After the scan an entry is free, bad or a link to `X` exactly if it was so in
the table as loaded: a truncated entry was none of these before and reads
`CLUST_EOF` afterwards. -/
theorem trunc_entry_same_kind (ask : policy) (rdonly : Bool) (g : Nat → Nat) (n c a : Nat)
    (hgeom : n ≤ 2 ^ 30)
    (ha : a = if bad_link n (g c) ∧ ask 0 question.Truncate c = true ∧ rdonly = false
      then CLUST_EOF else g c) :
    (a = CLUST_FREE ↔ g c = CLUST_FREE) ∧ (a = CLUST_BAD ↔ g c = CLUST_BAD) ∧
      ∀ X, CLUST_FIRST ≤ X → X < n → (a = X ↔ g c = X) := by
  obtain ⟨k0, k2, kbad, keofs, keof, kdead⟩ := clust_consts
  by_cases hb : bad_link n (g c) ∧ ask 0 question.Truncate c = true ∧ rdonly = false
  · rw [if_pos hb] at ha
    obtain ⟨⟨b1, b2, b3⟩, _⟩ := hb
    refine ⟨⟨fun e => by omega, fun e => absurd e b1⟩,
      ⟨fun e => by omega, fun e => absurd e b2⟩, fun X h1 h2 => ⟨fun e => by omega,
        fun e => by omega⟩⟩
  · rw [if_neg hb] at ha
    rw [ha]
    exact ⟨Iff.rfl, Iff.rfl, fun _ _ _ => Iff.rfl⟩

/-- C7: when `readfat` completes its scan, the head bit of a cluster `X` in
`[CLUST_FIRST, NumClusters)` is set exactly if the entry of `X` is neither free
nor bad and no cluster in that range has `X` as its successor (`X` itself
included), whatever the policy and the order of the references; this holds for
the entries of the table as loaded and, on a well-formed table, equally for the
entries after the scan. -/
theorem readfat_head_bitmap (ask : policy) (rdonly : Bool) (boot : bootblock)
    (buffer : List Nat) (r : readfat_result) (hgeom : boot.NumClusters ≤ 2 ^ 30)
    (h : readfat ask rdonly boot buffer = some r) (X : Nat)
    (hX1 : CLUST_FIRST ≤ X) (hX2 : X < boot.NumClusters) :
    (bitmap_get r.headbitmap X = true ↔
      (fat_get_cl_next ⟨boot, 0, buffer⟩ X ≠ CLUST_FREE ∧
        fat_get_cl_next ⟨boot, 0, buffer⟩ X ≠ CLUST_BAD ∧
        ∀ c, CLUST_FIRST ≤ c → c < boot.NumClusters →
          fat_get_cl_next ⟨boot, 0, buffer⟩ c ≠ X)) ∧
    (fat_wf ⟨boot, 0, buffer⟩ →
      (bitmap_get r.headbitmap X = true ↔
        (fat_get_cl_next r.fat X ≠ CLUST_FREE ∧ fat_get_cl_next r.fat X ≠ CLUST_BAD ∧
          ∀ c, CLUST_FIRST ≤ c → c < boot.NumClusters → fat_get_cl_next r.fat c ≠ X))) := by
  obtain ⟨s1, hloop, _, hfat, hhead, _⟩ := readfat_eq ask rdonly boot buffer r h
  have hspec := readfat_loop_spec ask rdonly (readfat_fat ask boot buffer)
    (readfat_ret0 ask boot buffer) s1 hgeom rfl rfl hloop
  have hX := hspec.2.2.1 X hX1 hX2
  rw [readfat_start_entries ask boot buffer hgeom] at hX
  rw [hhead]
  refine ⟨hX, fun hwf => ?_⟩
  obtain ⟨_, hent, _, _⟩ := readfat_loop_trunc ask rdonly (readfat_fat ask boot buffer)
    (readfat_ret0 ask boot buffer) s1 (readfat_fat_wf ask boot buffer hwf) rfl rfl hloop
  rw [readfat_start_entries ask boot buffer hgeom] at hent
  rw [hX, hfat]
  have kX := trunc_entry_same_kind ask rdonly (fat_get_cl_next ⟨boot, 0, buffer⟩)
    boot.NumClusters X _ hgeom (hent X hX1 hX2)
  have kc := fun c1 h1 h2 => (trunc_entry_same_kind ask rdonly
    (fat_get_cl_next ⟨boot, 0, buffer⟩) boot.NumClusters c1 _ hgeom
    (hent c1 h1 h2)).2.2 X hX1 hX2
  constructor
  · rintro ⟨a, b, c⟩
    exact ⟨fun e => a (kX.1.mp e), fun e => b (kX.2.1.mp e),
      fun c1 h1 h2 e => c c1 h1 h2 ((kc c1 h1 h2).mp e)⟩
  · rintro ⟨a, b, c⟩
    exact ⟨fun e => a (kX.1.mpr e), fun e => b (kX.2.1.mpr e),
      fun c1 h1 h2 e => c c1 h1 h2 ((kc c1 h1 h2).mpr e)⟩

/-- C8: `readfat` starts the counters at 0 whatever they held, and when its scan
completes `NumFree` is the number of clusters in `[CLUST_FIRST, NumClusters)`
whose entry reads `CLUST_FREE` and `NumBad` the number whose entry reads
`CLUST_BAD`, whatever the policy; this holds for the entries of the table as
loaded and, on a well-formed table, equally for the entries after the scan. -/
theorem readfat_free_bad_counters (ask : policy) (rdonly : Bool) (boot : bootblock)
    (buffer : List Nat) (r : readfat_result) (hgeom : boot.NumClusters ≤ 2 ^ 30)
    (h : readfat ask rdonly boot buffer = some r) :
    (r.fat.boot.NumFree
        = count_clusters (fat_get_cl_next ⟨boot, 0, buffer⟩) CLUST_FREE boot.NumClusters ∧
      r.fat.boot.NumBad
        = count_clusters (fat_get_cl_next ⟨boot, 0, buffer⟩) CLUST_BAD boot.NumClusters) ∧
    (fat_wf ⟨boot, 0, buffer⟩ →
      r.fat.boot.NumFree = count_clusters (fat_get_cl_next r.fat) CLUST_FREE boot.NumClusters ∧
      r.fat.boot.NumBad = count_clusters (fat_get_cl_next r.fat) CLUST_BAD boot.NumClusters) := by
  obtain ⟨s1, hloop, _, hfat, _, _⟩ := readfat_eq ask rdonly boot buffer r h
  have hspec := readfat_loop_spec ask rdonly (readfat_fat ask boot buffer)
    (readfat_ret0 ask boot buffer) s1 hgeom rfl rfl hloop
  obtain ⟨_, _, _, hf, hb⟩ := hspec
  rw [readfat_start_entries ask boot buffer hgeom] at hf hb
  have hf1 : s1.fat.boot.NumFree
      = count_clusters (fat_get_cl_next ⟨boot, 0, buffer⟩) CLUST_FREE boot.NumClusters := hf
  have hb1 : s1.fat.boot.NumBad
      = count_clusters (fat_get_cl_next ⟨boot, 0, buffer⟩) CLUST_BAD boot.NumClusters := hb
  rw [hfat]
  refine ⟨⟨hf1, hb1⟩, fun hwf => ?_⟩
  obtain ⟨_, hent, _, _⟩ := readfat_loop_trunc ask rdonly (readfat_fat ask boot buffer)
    (readfat_ret0 ask boot buffer) s1 (readfat_fat_wf ask boot buffer hwf) rfl rfl hloop
  rw [readfat_start_entries ask boot buffer hgeom] at hent
  rw [hf1, hb1]
  exact ⟨count_clusters_congr_iff _ _ _ _ (fun c h1 h2 =>
      ((trunc_entry_same_kind ask rdonly _ boot.NumClusters c _ hgeom
        (hent c h1 h2)).1).symm),
    count_clusters_congr_iff _ _ _ _ (fun c h1 h2 =>
      ((trunc_entry_same_kind ask rdonly _ boot.NumClusters c _ hgeom
        (hent c h1 h2)).2.1).symm)⟩

/-- Every value read from a table fits 32 bits. -/
theorem fat_get_cl_next_lt (fat : fat_descriptor) (cl : Nat) :
    fat_get_cl_next fat cl < 2 ^ 32 := by
  unfold fat_get_cl_next
  have h0 := rdb_lt fat.fatbuf
  split_ifs
  · decide
  · rw [fat12_get_eq]
    simp only
    split_ifs <;> omega
  · rw [fat16_get_eq]
    simp only
    have := h0 (fat_get_fat16_ptr cl)
    have := h0 (fat_get_fat16_ptr cl + 1)
    split_ifs <;> omega
  · rw [fat32_get_eq]
    simp only
    have := h0 (fat_get_fat32_ptr cl)
    have := h0 (fat_get_fat32_ptr cl + 1)
    have := h0 (fat_get_fat32_ptr cl + 2)
    have := h0 (fat_get_fat32_ptr cl + 3)
    split_ifs <;> omega
  · decide

theorem readfat_ret0_fatmod (ask : policy) (boot : bootblock) (buffer : List Nat) :
    readfat_ret0 ask boot buffer &&& FSFATMOD = 0 ∧
      (readfat_ret0 ask boot buffer ||| FSFATMOD) &&& FSFATMOD ≠ 0 := by
  unfold readfat_ret0
  rcases readfat_signature_ret ask { boot with NumFree := 0, NumBad := 0 } buffer with e | e
  · rw [e]; decide
  · rw [e]; decide

/-- C9: on a writable well-formed table and under a policy that accepts every
"Truncate" question, when the scan of `readfat` completes every cluster in
`[CLUST_FIRST, NumClusters)` whose successor was a bad link (below `CLUST_FIRST`
but not free, or at or above `NumClusters` and below the end-of-chain band but
not bad) reads `CLUST_EOF`, every other entry reads as loaded, so each entry is
free, bad, in the end-of-chain band or a link into `[CLUST_FIRST, NumClusters)`;
and the status carries `FSFATMOD` exactly if the table had such an entry. -/
theorem readfat_truncates_bad_links (ask : policy) (boot : bootblock) (buffer : List Nat)
    (r : readfat_result) (hwf : fat_wf ⟨boot, 0, buffer⟩)
    (hask : ∀ c, ask 0 question.Truncate c = true)
    (h : readfat ask false boot buffer = some r) :
    (∀ c, CLUST_FIRST ≤ c → c < boot.NumClusters →
      (bad_link boot.NumClusters (fat_get_cl_next ⟨boot, 0, buffer⟩ c) →
        fat_get_cl_next r.fat c = CLUST_EOF) ∧
      (¬ bad_link boot.NumClusters (fat_get_cl_next ⟨boot, 0, buffer⟩ c) →
        fat_get_cl_next r.fat c = fat_get_cl_next ⟨boot, 0, buffer⟩ c) ∧
      (fat_get_cl_next r.fat c = CLUST_FREE ∨ fat_get_cl_next r.fat c = CLUST_BAD ∨
        (CLUST_EOFS ≤ fat_get_cl_next r.fat c ∧ fat_get_cl_next r.fat c ≤ CLUST_EOF) ∨
        (CLUST_FIRST ≤ fat_get_cl_next r.fat c ∧
          fat_get_cl_next r.fat c < boot.NumClusters))) ∧
    (r.ret &&& FSFATMOD ≠ 0 ↔
      ∃ c, CLUST_FIRST ≤ c ∧ c < boot.NumClusters ∧
        bad_link boot.NumClusters (fat_get_cl_next ⟨boot, 0, buffer⟩ c)) := by
  have hgeom : boot.NumClusters ≤ 2 ^ 30 := hwf.2.1
  obtain ⟨s1, hloop, hret, hfat, _, _⟩ := readfat_eq ask false boot buffer r h
  obtain ⟨_, hent, hyes, hno⟩ := readfat_loop_trunc ask false (readfat_fat ask boot buffer)
    (readfat_ret0 ask boot buffer) s1 (readfat_fat_wf ask boot buffer hwf) rfl rfl hloop
  rw [readfat_start_entries ask boot buffer hgeom] at hent hyes hno
  obtain ⟨k0, k2, kbad, keofs, keof, kdead⟩ := clust_consts
  rw [hret, hfat]
  refine ⟨fun c h1 h2 => ?_, ?_⟩
  · have he := hent c h1 h2
    have hlt := fat_get_cl_next_lt ⟨boot, 0, buffer⟩ c
    by_cases hb : bad_link boot.NumClusters (fat_get_cl_next ⟨boot, 0, buffer⟩ c)
    · rw [if_pos ⟨hb, hask c, rfl⟩] at he
      refine ⟨fun _ => he, fun hn => absurd hb hn, ?_⟩
      rw [he]
      right; right; left
      omega
    · rw [if_neg (fun hh => hb hh.1)] at he
      refine ⟨fun hh => absurd hh hb, fun _ => he, ?_⟩
      rw [he]
      unfold bad_link at hb
      by_cases e1 : fat_get_cl_next ⟨boot, 0, buffer⟩ c = CLUST_FREE
      · exact Or.inl e1
      · by_cases e2 : fat_get_cl_next ⟨boot, 0, buffer⟩ c = CLUST_BAD
        · exact Or.inr (Or.inl e2)
        · have e3 : ¬ (fat_get_cl_next ⟨boot, 0, buffer⟩ c < CLUST_FIRST ∨
              (fat_get_cl_next ⟨boot, 0, buffer⟩ c ≥ boot.NumClusters ∧
                fat_get_cl_next ⟨boot, 0, buffer⟩ c < CLUST_EOFS)) :=
            fun hh => hb ⟨e1, e2, hh⟩
          right; right
          omega
  · have hr0 := readfat_ret0_fatmod ask boot buffer
    constructor
    · intro hmod
      by_contra hnex
      have : s1.ret = readfat_ret0 ask boot buffer :=
        hno (fun ⟨c, a1, a2, a3, _⟩ => hnex ⟨c, a1, a2, a3⟩)
      rw [this] at hmod
      exact hmod hr0.1
    · rintro ⟨c, a1, a2, a3⟩
      rw [hyes ⟨c, a1, a2, a3, hask c⟩]
      exact hr0.2

/-! ## The status of `readfat` is never fatal -/

theorem or_fatmod_and_fatal (r : Nat) : (r ||| FSFATMOD) &&& FSFATAL = r &&& FSFATAL := by
  rw [Nat.and_distrib_right]
  have : FSFATMOD &&& FSFATAL = 0 := by decide
  rw [this, Nat.or_zero]

theorem readfat_step_fatal (ask : policy) (rdonly : Bool) (cl : Nat) (s s1 : scan_state)
    (h : readfat_step ask rdonly cl s = some s1) :
    s1.ret &&& FSFATAL = s.ret &&& FSFATAL := by
  rcases readfat_step_cases ask rdonly cl s s1 h with
    ⟨_, hb, _, rfl⟩ | ⟨_, hb, _, rfl⟩ | ⟨_, _, rfl⟩ | ⟨_, _, rfl⟩ |
    ⟨_, _, _, _, hb, _, rfl⟩ | ⟨_, _, _, _, rfl⟩ | ⟨_, _, rfl⟩
  · rfl
  · rfl
  · exact or_fatmod_and_fatal s.ret
  · rfl
  · rfl
  · rfl
  · rfl

theorem readfat_loop_fatal (ask : policy) (rdonly : Bool) (k : Nat) :
    ∀ (cl : Nat) (s s1 : scan_state), readfat_loop ask rdonly k cl s = some s1 →
      s1.ret &&& FSFATAL = s.ret &&& FSFATAL := by
  induction k with
  | zero =>
    intro cl s s1 h
    simp only [readfat_loop, Option.some.injEq] at h
    rw [← h]
  | succ k ih =>
    intro cl s s1 h
    simp only [readfat_loop] at h
    cases hstep : readfat_step ask rdonly cl s with
    | none => rw [hstep] at h; exact absurd h (by simp)
    | some s2 =>
      rw [hstep] at h
      rw [ih (cl + 1) s2 s1 h, readfat_step_fatal ask rdonly cl s s2 hstep]

/-- The status that `readfat` returns after its scan never carries `FSFATAL`, so
the branch of the source that releases the table at the end is never taken. -/
theorem readfat_ret_not_fatal (ask : policy) (rdonly : Bool) (boot : bootblock)
    (buffer : List Nat) (r : readfat_result) (h : readfat ask rdonly boot buffer = some r) :
    r.ret &&& FSFATAL = 0 := by
  obtain ⟨s1, hloop, hret, _, _, _⟩ := readfat_eq ask rdonly boot buffer r h
  rw [hret, readfat_loop_fatal ask rdonly _ _ _ s1 hloop]
  show readfat_ret0 ask boot buffer &&& FSFATAL = 0
  unfold readfat_ret0
  rcases readfat_signature_ret ask { boot with NumFree := 0, NumBad := 0 } buffer with e | e
  · rw [e]; decide
  · rw [e]; decide

/-! ## The chain walker `checkchain` -/

/-- Setting a bit leaves every other bit alone, whatever the size of the map. -/
theorem bitmap_get_set_other (lbp lbp1 : long_bitmap_t) (cl c : Nat)
    (h : bitmap_set lbp cl = some lbp1) (hne : c ≠ cl) :
    bitmap_get lbp1 c = bitmap_get lbp c := by
  by_cases hin : cl / 64 < lbp.map.length
  · rw [bitmap_get_set lbp lbp1 cl c h hin, if_neg hne]
  · rw [bitmap_set_eq] at h
    split at h
    · injection h with h
      rw [bitmap_get_eq, bitmap_get_eq, ← h]
      simp only [getD_set_eq, hin, and_false, if_false]
    · exact absurd h (by simp)

/-- A list of distinct numbers below `n` has at most `n` elements. -/
theorem nodup_length_le (l : List Nat) (n : Nat) (hn : l.Nodup) (hr : ∀ x ∈ l, x < n) :
    l.length ≤ n := by
  have h1 : l.toFinset ⊆ Finset.range n := by
    intro x hx
    rw [List.mem_toFinset] at hx
    exact Finset.mem_range.mpr (hr x hx)
  have h2 := Finset.card_le_card h1
  rw [List.toFinset_card_of_nodup hn, Finset.card_range] at h2
  exact h2

/-- The walk along a chain that ends in `CLUST_EOF` and whose clusters after the
first are unused: it returns `FSOK`, adds the number of clusters walked to the
length, and leaves the table alone. -/
theorem checkchain_loop_chain (ask : policy) (rdonly : Bool) (rest : List Nat) :
    ∀ (c : Nat) (s : chain_state) (fuel : Nat),
      s.fat.boot.NumClusters < CLUST_EOF →
      chain_from s.fat c rest → rest.Nodup →
      (∀ d ∈ rest, CLUST_FIRST ≤ d ∧ d < s.fat.boot.NumClusters ∧
        bitmap_get s.usedbitmap d = false) →
      rest.length + 1 ≤ fuel → s.chainsize + rest.length + 1 < 2 ^ 64 →
      ∃ ub, checkchain_loop ask rdonly fuel c s
        = outcome.ok (FSOK, ⟨s.fat, ub, s.chainsize + rest.length + 1⟩) := by
  obtain ⟨k0, k2, kbad, keofs, keof, kdead⟩ := clust_consts
  induction rest with
  | nil =>
    intro c s fuel hN hchain _ _ hfuel hsize
    cases fuel with
    | zero => simp at hfuel
    | succ fuel =>
      unfold chain_from at hchain
      unfold checkchain_loop
      simp only [hchain]
      have h1 : CLUST_EOF < CLUST_FIRST ∨ CLUST_EOF > s.fat.boot.NumClusters := Or.inr hN
      have h2 : CLUST_EOF > CLUST_EOFS := by omega
      rw [if_pos h1, if_pos h2]
      refine ⟨s.usedbitmap, ?_⟩
      simp only [List.length_nil, Nat.add_zero]
      rw [Nat.mod_eq_of_lt (by simpa using hsize)]
  | cons d rest ih =>
    intro c s fuel hN hchain hnodup hall hfuel hsize
    cases fuel with
    | zero => simp at hfuel
    | succ fuel =>
      unfold chain_from at hchain
      obtain ⟨hcd, hchain1⟩ := hchain
      obtain ⟨hd1, hd2, hd3⟩ := hall d (List.mem_cons_self _ _)
      rw [List.nodup_cons] at hnodup
      obtain ⟨hdn, hnodup1⟩ := hnodup
      unfold checkchain_loop
      simp only [hcd]
      have h1 : ¬ (d < CLUST_FIRST ∨ d > s.fat.boot.NumClusters) := by omega
      rw [if_neg h1]
      simp only [hd3, Bool.false_eq_true, if_false]
      have hset := bitmap_set_eq s.usedbitmap d
      rw [if_pos hd3] at hset
      cases hs : bitmap_set s.usedbitmap d with
      | none => rw [hs] at hset; exact absurd hset (by simp)
      | some ub =>
        simp only
        simp only [List.length_cons] at hfuel hsize
        have hmod : (s.chainsize + 1) % 2 ^ 64 = s.chainsize + 1 :=
          Nat.mod_eq_of_lt (by omega)
        rw [hmod]
        obtain ⟨ub1, hub1⟩ := ih d
          { s with chainsize := s.chainsize + 1, usedbitmap := ub } fuel hN hchain1 hnodup1
          (fun e he => by
            obtain ⟨e1, e2, e3⟩ := hall e (List.mem_cons_of_mem _ he)
            refine ⟨e1, e2, ?_⟩
            show bitmap_get ub e = false
            rw [bitmap_get_set_other s.usedbitmap ub d e hs
              (fun hh => hdn (by rw [← hh]; exact he))]
            exact e3)
          (by omega) (by show s.chainsize + 1 + rest.length + 1 < 2 ^ 64; omega)
        refine ⟨ub1, ?_⟩
        rw [hub1]
        simp only [List.length_cons]
        rw [show s.chainsize + 1 + rest.length + 1 = s.chainsize + (rest.length + 1) + 1
          by omega]

/-- C10: for a chain `c1 → ... → ck` of distinct clusters in
`[CLUST_FIRST, NumClusters)` whose last entry is `CLUST_EOF` and whose clusters
after the first are not yet marked used, `checkchain` from `c1` returns `FSOK`
with `chainsize = k`, the terminal cluster counted, and leaves the table
unchanged, given at least `k` iterations of fuel. -/
theorem checkchain_chain_length (ask : policy) (rdonly : Bool) (fat : fat_descriptor)
    (usedbitmap : long_bitmap_t) (c1 : Nat) (rest : List Nat) (fuel : Nat)
    (hN : fat.boot.NumClusters < CLUST_EOF)
    (hchain : chain_from fat c1 rest) (hnodup : (c1 :: rest).Nodup)
    (hrange : ∀ c ∈ c1 :: rest, CLUST_FIRST ≤ c ∧ c < fat.boot.NumClusters)
    (hunused : ∀ c ∈ rest, bitmap_get usedbitmap c = false)
    (hfuel : (c1 :: rest).length ≤ fuel) :
    ∃ ub, checkchain ask rdonly fuel fat usedbitmap c1
      = outcome.ok (FSOK, ⟨fat, ub, (c1 :: rest).length⟩) := by
  obtain ⟨k0, k2, kbad, keofs, keof, kdead⟩ := clust_consts
  have hnd : rest.Nodup := (List.nodup_cons.mp hnodup).2
  have hlen := nodup_length_le rest fat.boot.NumClusters hnd
    (fun x hx => (hrange x (List.mem_cons_of_mem _ hx)).2)
  unfold checkchain
  obtain ⟨ub, hub⟩ := checkchain_loop_chain ask rdonly rest c1 ⟨fat, usedbitmap, 0⟩ fuel hN
    hchain hnd
    (fun d hd => ⟨(hrange d (List.mem_cons_of_mem _ hd)).1,
      (hrange d (List.mem_cons_of_mem _ hd)).2, hunused d hd⟩)
    (by simpa using hfuel) (by show 0 + rest.length + 1 < 2 ^ 64; omega)
  refine ⟨ub, ?_⟩
  rw [hub]
  simp

/-! ## Marking by the chain walker -/

theorem chain_from_iff_links (fat : fat_descriptor) (rest : List Nat) :
    ∀ c, chain_from fat c rest ↔
      (links_from fat c rest ∧ fat_get_cl_next fat (rest.getLastD c) = CLUST_EOF) := by
  induction rest with
  | nil => intro c; simp [chain_from, links_from]
  | cons d rest ih =>
    intro c
    unfold chain_from links_from
    rw [ih d, List.getLastD_cons]
    tauto

/-- Setting a bit inside the map: the bit is set, the others are as before. -/
theorem bitmap_set_bits (lbp lbp1 : long_bitmap_t) (cl : Nat)
    (h : bitmap_set lbp cl = some lbp1) (hin : cl / 64 < lbp.map.length) :
    (∀ x, bitmap_get lbp1 x = (decide (x = cl) || bitmap_get lbp x)) ∧
      lbp1.count = (lbp.count + 1) % 2 ^ 64 ∧ lbp1.map.length = lbp.map.length := by
  refine ⟨fun x => ?_, ?_, bitmap_set_map_length lbp lbp1 cl h⟩
  · rw [bitmap_get_set lbp lbp1 cl x h hin]
    by_cases hx : x = cl
    · simp [hx]
    · simp [hx]
  · rw [bitmap_set_eq] at h
    split at h
    · injection h with h
      rw [← h]
    · exact absurd h (by simp)

/-- The walk along a path of unused clusters in range: the loop arrives at the
last cluster of the path with every cluster of the path marked used and
counted. -/
theorem checkchain_loop_path (ask : policy) (rdonly : Bool) (rest : List Nat) :
    ∀ (c : Nat) (s : chain_state) (f : Nat),
      links_from s.fat c rest → rest.Nodup →
      (∀ d ∈ rest, CLUST_FIRST ≤ d ∧ d < s.fat.boot.NumClusters ∧
        bitmap_get s.usedbitmap d = false) →
      s.fat.boot.NumClusters ≤ 64 * s.usedbitmap.map.length →
      s.chainsize < 2 ^ 64 →
      ∃ ub, checkchain_loop ask rdonly (rest.length + f) c s
          = checkchain_loop ask rdonly f (rest.getLastD c)
              ⟨s.fat, ub, (s.chainsize + rest.length) % 2 ^ 64⟩ ∧
        (∀ x, bitmap_get ub x = (decide (x ∈ rest) || bitmap_get s.usedbitmap x)) ∧
        ub.count % 2 ^ 64 = (s.usedbitmap.count + rest.length) % 2 ^ 64 ∧
        (s.usedbitmap.count < 2 ^ 64 → ub.count < 2 ^ 64) ∧
        ub.map.length = s.usedbitmap.map.length := by
  induction rest with
  | nil =>
    intro c s f _ _ _ _ hcs
    refine ⟨s.usedbitmap, ?_, fun x => by simp, ?_, fun h => h, rfl⟩
    · simp only [List.length_nil, Nat.zero_add, List.getLastD_nil, Nat.add_zero]
      rw [Nat.mod_eq_of_lt hcs]
    · simp only [List.length_nil, Nat.add_zero]
  | cons d rest ih =>
    intro c s f hlinks hnodup hall hmap hcs
    unfold links_from at hlinks
    obtain ⟨hcd, hlinks1⟩ := hlinks
    obtain ⟨hd1, hd2, hd3⟩ := hall d (List.mem_cons_self _ _)
    rw [List.nodup_cons] at hnodup
    obtain ⟨hdn, hnodup1⟩ := hnodup
    have hset := bitmap_set_eq s.usedbitmap d
    rw [if_pos hd3] at hset
    cases hs : bitmap_set s.usedbitmap d with
    | none => rw [hs] at hset; exact absurd hset (by simp)
    | some ub0 =>
      obtain ⟨hb1, hb2, hb3⟩ := bitmap_set_bits s.usedbitmap ub0 d hs (by omega)
      obtain ⟨ub, hub1, hub2, hub3, hub5, hub4⟩ := ih d
        ⟨s.fat, ub0, (s.chainsize + 1) % 2 ^ 64⟩ f hlinks1 hnodup1
        (fun e he => by
          obtain ⟨e1, e2, e3⟩ := hall e (List.mem_cons_of_mem _ he)
          refine ⟨e1, e2, ?_⟩
          show bitmap_get ub0 e = false
          rw [hb1 e, e3]
          have : ¬ e = d := fun hh => hdn (by rw [← hh]; exact he)
          simp [this])
        (by show s.fat.boot.NumClusters ≤ 64 * ub0.map.length; rw [hb3]; exact hmap)
        (Nat.mod_lt _ (by decide))
      refine ⟨ub, ?_, fun x => ?_, ?_, fun _ => ?_, ?_⟩
      · have hlen : (d :: rest).length + f = (rest.length + f) + 1 := by
          simp only [List.length_cons]; omega
        have step : checkchain_loop ask rdonly ((rest.length + f) + 1) c s
            = checkchain_loop ask rdonly (rest.length + f) d
                ⟨s.fat, ub0, (s.chainsize + 1) % 2 ^ 64⟩ := by
          conv => lhs; unfold checkchain_loop
          simp only [hcd]
          have h1 : ¬ (d < CLUST_FIRST ∨ d > s.fat.boot.NumClusters) := by omega
          rw [if_neg h1]
          simp only [hd3, Bool.false_eq_true, if_false, hs]
        rw [hlen, step, hub1, List.getLastD_cons]
        have e : ((s.chainsize + 1) % 2 ^ 64 + rest.length) % 2 ^ 64
            = (s.chainsize + (d :: rest).length) % 2 ^ 64 := by
          simp only [List.length_cons]; omega
        show checkchain_loop ask rdonly f (rest.getLastD d)
          ⟨s.fat, ub, ((s.chainsize + 1) % 2 ^ 64 + rest.length) % 2 ^ 64⟩ = _
        rw [e]
      · rw [hub2 x, hb1 x]
        by_cases hx : x = d
        · simp [hx]
        · simp [hx]
      · rw [hub3]
        show (ub0.count + rest.length) % 2 ^ 64 = _
        rw [hb2]
        simp only [List.length_cons]
        omega
      · exact hub5 (by show ub0.count < 2 ^ 64; rw [hb2]; exact Nat.mod_lt _ (by decide))
      · rw [hub4]; exact hb3

/-- The walk along a chain that ends in `CLUST_EOF`, with the used bitmap it
leaves: the clusters after the first are marked, nothing else changes. -/
theorem checkchain_chain_used (ask : policy) (rdonly : Bool) (fat : fat_descriptor)
    (usedbitmap : long_bitmap_t) (c1 : Nat) (rest : List Nat) (fuel : Nat)
    (hN : fat.boot.NumClusters < CLUST_EOF)
    (hchain : chain_from fat c1 rest) (hnodup : rest.Nodup)
    (hrange : ∀ c ∈ rest, CLUST_FIRST ≤ c ∧ c < fat.boot.NumClusters)
    (hunused : ∀ c ∈ rest, bitmap_get usedbitmap c = false)
    (hmap : fat.boot.NumClusters ≤ 64 * usedbitmap.map.length)
    (hfuel : rest.length + 1 ≤ fuel) :
    ∃ ub, checkchain ask rdonly fuel fat usedbitmap c1
        = outcome.ok (FSOK, ⟨fat, ub, rest.length + 1⟩) ∧
      (∀ x, bitmap_get ub x = (decide (x ∈ rest) || bitmap_get usedbitmap x)) ∧
      ub.count % 2 ^ 64 = (usedbitmap.count + rest.length) % 2 ^ 64 ∧
      (usedbitmap.count < 2 ^ 64 → ub.count < 2 ^ 64) ∧
      ub.map.length = usedbitmap.map.length := by
  obtain ⟨k0, k2, kbad, keofs, keof, kdead⟩ := clust_consts
  have hlen := nodup_length_le rest fat.boot.NumClusters hnodup (fun x hx => (hrange x hx).2)
  obtain ⟨hlinks, hlast⟩ := (chain_from_iff_links fat rest c1).mp hchain
  obtain ⟨f, hf⟩ : ∃ f, fuel = rest.length + (f + 1) := ⟨fuel - rest.length - 1, by omega⟩
  obtain ⟨ub, h1, h2, h3, h4, h5⟩ := checkchain_loop_path ask rdonly rest c1
    ⟨fat, usedbitmap, 0⟩ (f + 1) hlinks hnodup
    (fun d hd => ⟨(hrange d hd).1, (hrange d hd).2, hunused d hd⟩) hmap
    (by show 0 < 2 ^ 64; exact Nat.two_pow_pos _)
  refine ⟨ub, ?_, h2, h3, h4, h5⟩
  unfold checkchain
  rw [hf, h1]
  unfold checkchain_loop
  simp only [hlast]
  have a1 : CLUST_EOF < CLUST_FIRST ∨ CLUST_EOF > fat.boot.NumClusters := Or.inr hN
  have a2 : CLUST_EOF > CLUST_EOFS := by omega
  rw [if_pos a1, if_pos a2]
  simp only [Nat.zero_add]
  rw [Nat.mod_eq_of_lt (show rest.length < 2 ^ 64 by omega),
    Nat.mod_eq_of_lt (show rest.length + 1 < 2 ^ 64 by omega)]

/-- C11 (amended): after a successful walk of `checkchain` from the head `c1`
over a chain `c1 → ... → ck → EOF` of distinct clusters in range none of which
was used before, the used bitmap has exactly the bits of the clusters
`c2, ..., ck` newly set and no other bit changed; the bit of the head `c1` itself
is not set by the walk. -/
theorem checkchain_marks_successors (ask : policy) (rdonly : Bool) (fat : fat_descriptor)
    (usedbitmap : long_bitmap_t) (c1 : Nat) (rest : List Nat) (fuel : Nat)
    (hN : fat.boot.NumClusters < CLUST_EOF)
    (hchain : chain_from fat c1 rest) (hnodup : (c1 :: rest).Nodup)
    (hrange : ∀ c ∈ c1 :: rest, CLUST_FIRST ≤ c ∧ c < fat.boot.NumClusters)
    (hunused : ∀ c ∈ c1 :: rest, bitmap_get usedbitmap c = false)
    (hmap : fat.boot.NumClusters ≤ 64 * usedbitmap.map.length)
    (hfuel : (c1 :: rest).length ≤ fuel) :
    ∃ ub, checkchain ask rdonly fuel fat usedbitmap c1
        = outcome.ok (FSOK, ⟨fat, ub, (c1 :: rest).length⟩) ∧
      (∀ x, bitmap_get ub x = true ↔ (x ∈ rest ∨ bitmap_get usedbitmap x = true)) ∧
      bitmap_get ub c1 = false := by
  obtain ⟨hc1, hnd⟩ := List.nodup_cons.mp hnodup
  obtain ⟨ub, h1, h2, _, _, _⟩ := checkchain_chain_used ask rdonly fat usedbitmap c1 rest fuel
    hN hchain hnd (fun c hc => hrange c (List.mem_cons_of_mem _ hc))
    (fun c hc => hunused c (List.mem_cons_of_mem _ hc)) hmap (by simpa using hfuel)
  refine ⟨ub, by rw [h1]; simp, fun x => ?_, ?_⟩
  · rw [h2 x]
    simp
  · rw [h2 c1, hunused c1 (List.mem_cons_self _ _)]
    simp [hc1]

/-- C12 (evaluation at the failing input): on the 12-bit table `fat12_eofs`,
whose chain 2 → 3 ends with the raw entry `0xff8` that reads `CLUST_EOFS`, the
scan of `readfat` accepts the table as it is (status `FSOK`, no byte changed),
but `checkchain` from head 2 does not end the walk successfully: under the
accepting policy it returns `FSFATMOD` and rewrites the entry of cluster 3,
under the declining policy it returns `FSERROR`. -/
theorem checkchain_rejects_clust_eofs :
    fat_get_cl_next fat12_eofs 3 = CLUST_EOFS ∧
    (readfat policy_yes false fat12_eofs.boot fat12_eofs.fatbuf).map
        (fun r => (r.ret, r.fat.fatbuf)) = some (FSOK, fat12_eofs.fatbuf) ∧
    checkchain policy_yes false 4 fat12_eofs ⟨0, [0]⟩ 2
      = outcome.ok (FSFATMOD,
          ⟨{ fat12_eofs with fatbuf := [0xf8, 0xff, 0xff, 0x03, 0xf0, 0xff] }, ⟨1, [8]⟩, 1⟩) ∧
    checkchain policy_no false 4 fat12_eofs ⟨0, [0]⟩ 2
      = outcome.ok (FSERROR, ⟨fat12_eofs, ⟨1, [8]⟩, 1⟩) := by
  decide

/-- The last cluster of a path from a cluster in range is in range. -/
theorem getLastD_in_range (n c : Nat) (path : List Nat)
    (hc : CLUST_FIRST ≤ c ∧ c < n) (hpath : ∀ d ∈ path, CLUST_FIRST ≤ d ∧ d < n) :
    CLUST_FIRST ≤ path.getLastD c ∧ path.getLastD c < n := by
  have h := List.getLastD_mem_cons path c
  rcases List.mem_cons.mp h with h | h
  · rw [h]; exact hc
  · exact hpath _ h

/-- C13: on a writable well-formed table, let `checkchain` walk from `head` along
the path `path` of distinct unused clusters in range to the cluster `p` (the
last of the path, or the head), whose successor `n` is in range and already
marked used (from the start or by this walk).  The used bitmap `ub` at that
moment is the initial one with the clusters of the path added, and it is the
bitmap of the result, so the used bit of `n` is unchanged.  If the operator
accepts the truncation, the call returns `FSFATMOD`, the entry of `p` reads
`CLUST_EOF` and every other entry reads as before; if the operator declines,
the call returns `FSERROR` and the table is unchanged. -/
theorem checkchain_cross_link (ask : policy) (fat : fat_descriptor)
    (usedbitmap : long_bitmap_t) (head : Nat) (path : List Nat) (n fuel : Nat)
    (hwf : fat_wf fat)
    (hhead : CLUST_FIRST ≤ head ∧ head < fat.boot.NumClusters)
    (hlinks : links_from fat head path) (hnodup : path.Nodup)
    (hpath : ∀ d ∈ path, CLUST_FIRST ≤ d ∧ d < fat.boot.NumClusters ∧
      bitmap_get usedbitmap d = false)
    (hmap : fat.boot.NumClusters ≤ 64 * usedbitmap.map.length)
    (hnext : fat_get_cl_next fat (path.getLastD head) = n)
    (hn : CLUST_FIRST ≤ n ∧ n < fat.boot.NumClusters)
    (hused : n ∈ path ∨ bitmap_get usedbitmap n = true)
    (hfuel : path.length + 1 ≤ fuel) :
    ∃ ub, (∀ x, bitmap_get ub x = (decide (x ∈ path) || bitmap_get usedbitmap x)) ∧
      bitmap_get ub n = true ∧
      (ask 0 question.Truncate (path.getLastD head) = true →
        ∃ fat1, checkchain ask false fuel fat usedbitmap head
            = outcome.ok (FSFATMOD, ⟨fat1, ub, path.length⟩) ∧
          fat_get_cl_next fat1 (path.getLastD head) = CLUST_EOF ∧
          ∀ c, c ≠ path.getLastD head → fat_get_cl_next fat1 c = fat_get_cl_next fat c) ∧
      (ask 0 question.Truncate (path.getLastD head) = false →
        checkchain ask false fuel fat usedbitmap head
          = outcome.ok (FSERROR, ⟨fat, ub, path.length⟩)) := by
  obtain ⟨k0, k2, kbad, keofs, keof, kdead⟩ := clust_consts
  have hgeom := hwf.2.1
  have hlen := nodup_length_le path fat.boot.NumClusters hnodup (fun x hx => (hpath x hx).2.1)
  have hp := getLastD_in_range fat.boot.NumClusters head path hhead
    (fun d hd => ⟨(hpath d hd).1, (hpath d hd).2.1⟩)
  obtain ⟨f, hf⟩ : ∃ f, fuel = path.length + (f + 1) := ⟨fuel - path.length - 1, by omega⟩
  obtain ⟨ub, h1, h2, _, _, _⟩ := checkchain_loop_path ask false path head
    ⟨fat, usedbitmap, 0⟩ (f + 1) hlinks hnodup hpath hmap
    (by show 0 < 2 ^ 64; exact Nat.two_pow_pos _)
  have hubn : bitmap_get ub n = true := by
    rw [h2 n]
    rcases hused with h | h
    · simp [h]
    · show (decide (n ∈ path) || bitmap_get usedbitmap n) = true
      rw [h]; simp
  have hsz : (0 + path.length) % 2 ^ 64 = path.length := by
    rw [Nat.zero_add]
    exact Nat.mod_eq_of_lt (by omega)
  have a1 : ¬ (n < CLUST_FIRST ∨ n > fat.boot.NumClusters) := by omega
  refine ⟨ub, h2, hubn, fun hyes => ?_, fun hno => ?_⟩
  · refine ⟨(fat_set_cl_next false fat (path.getLastD head) CLUST_EOF).2, ?_,
      fat_get_set_eof fat _ hwf hp.1 hp.2,
      fun c hc => fat_get_set_frame false fat _ CLUST_EOF c hgeom hc⟩
    unfold checkchain
    rw [hf, h1, hsz]
    unfold checkchain_loop
    simp only [hnext]
    rw [if_neg a1]
    simp only [hubn, hyes, if_true]
  · unfold checkchain
    rw [hf, h1, hsz]
    unfold checkchain_loop
    simp only [hnext]
    rw [if_neg a1]
    simp only [hubn, hno, if_true, Bool.false_eq_true, if_false]

/-! ## Clearing a chain -/

/-- A set bit lies inside the map. -/
theorem bitmap_get_in_map (lbp : long_bitmap_t) (cl : Nat) (h : bitmap_get lbp cl = true) :
    cl / 64 < lbp.map.length := by
  by_contra hn
  rw [bitmap_get_eq, List.getD_eq_getElem?_getD,
    List.getElem?_eq_none (by omega)] at h
  simp at h

/-- Clearing a set bit succeeds and changes that bit only. -/
theorem bitmap_clear_bits (lbp : long_bitmap_t) (cl : Nat) (h : bitmap_get lbp cl = true) :
    ∃ lbp1, bitmap_clear lbp cl = some lbp1 ∧
      ∀ x, bitmap_get lbp1 x = if x = cl then false else bitmap_get lbp x := by
  cases hs : bitmap_clear lbp cl with
  | none =>
    rw [bitmap_clear_eq, if_pos h] at hs
    exact absurd hs (by simp)
  | some lbp1 =>
    exact ⟨lbp1, rfl, fun x => bitmap_get_clear lbp lbp1 cl x hs (bitmap_get_in_map lbp cl h)⟩

/-- On a writable well-formed table, an entry overwritten with `CLUST_FREE` reads
`CLUST_FREE`. -/
theorem fat_get_set_free (fat : fat_descriptor) (cl : Nat) (hwf : fat_wf fat)
    (hlo : CLUST_FIRST ≤ cl) (hhi : cl < fat.boot.NumClusters) :
    fat_get_cl_next (fat_set_cl_next false fat cl CLUST_FREE).2 cl = CLUST_FREE := by
  have h := (fat_get_set_same fat cl CLUST_FREE hwf.1 hlo hhi (fat_wf_entry fat hwf cl hlo hhi)).2
  rw [h]
  refine sign_extend_representable _ _ hwf.1 (by decide) (Or.inl ?_)
  rcases hwf.1 with hm | hm | hm <;> rw [hm] <;> decide

theorem reach_in_range (fat : fat_descriptor) (c x : Nat) (h : reach fat c x) :
    CLUST_FIRST ≤ c ∧ c < fat.boot.NumClusters := by
  cases h with
  | here _ h1 h2 => exact ⟨h1, h2⟩
  | next _ _ h1 h2 _ => exact ⟨h1, h2⟩

theorem reach_iff (fat : fat_descriptor) (c x : Nat) :
    reach fat c x ↔ ((CLUST_FIRST ≤ c ∧ c < fat.boot.NumClusters) ∧
      (x = c ∨ reach fat (fat_get_cl_next fat c) x)) := by
  constructor
  · intro h
    cases h with
    | here _ h1 h2 => exact ⟨⟨h1, h2⟩, Or.inl rfl⟩
    | next _ _ h1 h2 h3 => exact ⟨⟨h1, h2⟩, Or.inr h3⟩
  · rintro ⟨⟨h1, h2⟩, h3 | h3⟩
    · rw [h3]; exact reach.here c h1 h2
    · exact reach.next c x h1 h2 h3

/-- A set of clusters closed under in-range successors holds everything
reachable from its members. -/
theorem reach_closed (fat : fat_descriptor) (vis : List Nat)
    (hcl : ∀ v ∈ vis, CLUST_FIRST ≤ fat_get_cl_next fat v →
      fat_get_cl_next fat v < fat.boot.NumClusters → fat_get_cl_next fat v ∈ vis)
    (c x : Nat) (h : reach fat c x) : c ∈ vis → x ∈ vis := by
  induction h with
  | here c _ _ => exact fun hc => hc
  | next c x _ _ h3 ih =>
    intro hc
    have hr := reach_in_range fat _ _ h3
    exact ih (hcl c hc hr.1 hr.2)

/-- The loop of `clearchain` when the current cluster is out of range or has
been cleared already: it stops within two iterations with the reachable
clusters cleared. -/
theorem clearchain_loop_stop (fat0 : fat_descriptor) (used0 : long_bitmap_t) (head : Nat)
    (vis : List Nat) (c : Nat) (fat : fat_descriptor) (used : long_bitmap_t) (fuel : Nat)
    (hinv : clear_inv fat0 used0 head vis c fat used)
    (hc : ¬ (CLUST_FIRST ≤ c ∧ c < fat0.boot.NumClusters) ∨ c ∈ vis) (hfuel : 2 ≤ fuel) :
    ∃ fat1 ub, clearchain_loop false fuel c fat used = outcome.ok (fat1, ub) ∧
      fat1.boot = fat0.boot ∧
      (∀ x, reach fat0 head x →
        fat_get_cl_next fat1 x = CLUST_FREE ∧ bitmap_get ub x = false) ∧
      (∀ x, ¬ reach fat0 head x →
        fat_get_cl_next fat1 x = fat_get_cl_next fat0 x ∧
        bitmap_get ub x = bitmap_get used0 x) := by
  obtain ⟨hwf, hboot, hvis, hrest, hreach, hclosed, _, _⟩ := hinv
  obtain ⟨f, hf⟩ : ∃ f, fuel = f + 2 := ⟨fuel - 2, by omega⟩
  subst hf
  by_cases hr : CLUST_FIRST ≤ c ∧ c < fat0.boot.NumClusters
  · have hcv : c ∈ vis := by
      rcases hc with h | h
      · exact absurd hr h
      · exact h
    have hall : ∀ x, reach fat0 head x ↔ x ∈ vis := by
      intro x
      rw [hreach x]
      constructor
      · rintro (h | h)
        · exact h
        · refine reach_closed fat0 vis (fun v hv h1 h2 => ?_) c x h hcv
          rcases hclosed v hv h1 h2 with h3 | h3
          · exact h3
          · rw [h3]; exact hcv
      · exact fun h => Or.inl h
    have hr1 : c ≥ CLUST_FIRST ∧ c < fat.boot.NumClusters := by rw [hboot]; exact hr
    have hnext : fat_get_cl_next fat c = CLUST_FREE := (hvis c hcv).1
    have hused : bitmap_get used c = false := (hvis c hcv).2
    have hb := fat_set_cl_next_boot false fat c CLUST_FREE
    have hz : ¬ (CLUST_FREE ≥ CLUST_FIRST ∧
        CLUST_FREE < (fat_set_cl_next false fat c CLUST_FREE).2.boot.NumClusters) := by
      intro h; exact absurd h.1 (by decide)
    refine ⟨(fat_set_cl_next false fat c CLUST_FREE).2, used, ?_, by rw [hb, hboot], ?_, ?_⟩
    · unfold clearchain_loop
      rw [if_pos hr1]
      simp only [hused, Bool.false_eq_true, if_false, hnext]
      unfold clearchain_loop
      rw [if_neg hz]
    · intro x hx
      have hxv := (hall x).mp hx
      refine ⟨?_, (hvis x hxv).2⟩
      by_cases hxc : x = c
      · rw [hxc]; exact fat_get_set_free fat c hwf hr1.1 hr1.2
      · rw [fat_get_set_frame false fat c CLUST_FREE x hwf.2.1 hxc]
        exact (hvis x hxv).1
    · intro x hx
      have hxv : x ∉ vis := fun h => hx ((hall x).mpr h)
      have hxc : x ≠ c := fun h => hxv (h ▸ hcv)
      rw [fat_get_set_frame false fat c CLUST_FREE x hwf.2.1 hxc]
      exact hrest x hxv
  · have hall : ∀ x, reach fat0 head x ↔ x ∈ vis := by
      intro x
      rw [hreach x]
      constructor
      · rintro (h | h)
        · exact h
        · exact absurd (reach_in_range fat0 c x h) hr
      · exact fun h => Or.inl h
    have hr1 : ¬ (c ≥ CLUST_FIRST ∧ c < fat.boot.NumClusters) := by rw [hboot]; exact hr
    refine ⟨fat, used, ?_, hboot, fun x hx => hvis x ((hall x).mp hx),
      fun x hx => hrest x (fun h => hx ((hall x).mpr h))⟩
    unfold clearchain_loop
    rw [if_neg hr1]

/-- One iteration of `clearchain` on a cluster in range that has not been
cleared yet keeps the invariant. -/
theorem clear_inv_step (fat0 : fat_descriptor) (used0 : long_bitmap_t) (head : Nat)
    (vis : List Nat) (c : Nat) (fat : fat_descriptor) (used : long_bitmap_t) (fuel : Nat)
    (hinv : clear_inv fat0 used0 head vis c fat used)
    (hr : CLUST_FIRST ≤ c ∧ c < fat0.boot.NumClusters) (hcv : c ∉ vis) :
    ∃ fat1 ub, clearchain_loop false (fuel + 1) c fat used
        = clearchain_loop false fuel (fat_get_cl_next fat0 c) fat1 ub ∧
      clear_inv fat0 used0 head (c :: vis) (fat_get_cl_next fat0 c) fat1 ub := by
  obtain ⟨hwf, hboot, hvis, hrest, hreach, hclosed, hnodup, hlt⟩ := hinv
  have hr1 : c ≥ CLUST_FIRST ∧ c < fat.boot.NumClusters := by rw [hboot]; exact hr
  have hnext : fat_get_cl_next fat c = fat_get_cl_next fat0 c := (hrest c hcv).1
  have hb := fat_set_cl_next_boot false fat c CLUST_FREE
  have hfat : ∀ ub, (∀ x, bitmap_get ub x = if x = c then false else bitmap_get used x) →
      clear_inv fat0 used0 head (c :: vis) (fat_get_cl_next fat0 c)
        (fat_set_cl_next false fat c CLUST_FREE).2 ub := by
    intro ub hub
    refine ⟨fat_wf_set false fat c CLUST_FREE hwf, by rw [hb, hboot], ?_, ?_, ?_, ?_,
      List.nodup_cons.mpr ⟨hcv, hnodup⟩, ?_⟩
    · intro x hx
      rcases List.mem_cons.mp hx with h | h
      · rw [h]
        exact ⟨fat_get_set_free fat c hwf hr1.1 hr1.2, by rw [hub c]; simp⟩
      · have hxc : x ≠ c := fun e => hcv (e ▸ h)
        rw [fat_get_set_frame false fat c CLUST_FREE x hwf.2.1 hxc, hub x, if_neg hxc]
        exact hvis x h
    · intro x hx
      have hxc : x ≠ c := fun e => hx (e ▸ List.mem_cons_self _ _)
      have hxv : x ∉ vis := fun h => hx (List.mem_cons_of_mem _ h)
      rw [fat_get_set_frame false fat c CLUST_FREE x hwf.2.1 hxc, hub x, if_neg hxc]
      exact hrest x hxv
    · intro x
      rw [hreach x, reach_iff fat0 c x, List.mem_cons]
      constructor
      · rintro (h | ⟨_, h | h⟩)
        · exact Or.inl (Or.inr h)
        · exact Or.inl (Or.inl h)
        · exact Or.inr h
      · rintro ((h | h) | h)
        · exact Or.inr ⟨hr, Or.inl h⟩
        · exact Or.inl h
        · exact Or.inr ⟨hr, Or.inr h⟩
    · intro v hv h1 h2
      rcases List.mem_cons.mp hv with h | h
      · rw [h]; exact Or.inr rfl
      · rcases hclosed v h h1 h2 with h3 | h3
        · exact Or.inl (List.mem_cons_of_mem _ h3)
        · exact Or.inl (by rw [h3]; exact List.mem_cons_self _ _)
    · intro v hv
      rcases List.mem_cons.mp hv with h | h
      · rw [h]; exact hr.2
      · exact hlt v h
  cases hu : bitmap_get used c with
  | true =>
    obtain ⟨ub, hub1, hub2⟩ := bitmap_clear_bits used c hu
    refine ⟨_, ub, ?_, hfat ub hub2⟩
    conv => lhs; unfold clearchain_loop
    rw [if_pos hr1]
    simp only [hu, if_true, hub1, hnext]
  | false =>
    refine ⟨_, used, ?_, hfat used (fun x => ?_)⟩
    · conv => lhs; unfold clearchain_loop
      rw [if_pos hr1]
      simp only [hu, Bool.false_eq_true, if_false, hnext]
    · by_cases hxc : x = c
      · rw [if_pos hxc, hxc, hu]
      · rw [if_neg hxc]

/-- The loop of `clearchain` from a state that satisfies the invariant, with
fuel for the clusters not yet cleared and two more iterations. -/
theorem clearchain_loop_spec (fat0 : fat_descriptor) (used0 : long_bitmap_t) (head : Nat) :
    ∀ (k : Nat) (vis : List Nat) (c : Nat) (fat : fat_descriptor) (used : long_bitmap_t)
      (fuel : Nat), clear_inv fat0 used0 head vis c fat used →
      fat0.boot.NumClusters ≤ vis.length + k → k + 2 ≤ fuel →
      ∃ fat1 ub, clearchain_loop false fuel c fat used = outcome.ok (fat1, ub) ∧
        fat1.boot = fat0.boot ∧
        (∀ x, reach fat0 head x →
          fat_get_cl_next fat1 x = CLUST_FREE ∧ bitmap_get ub x = false) ∧
        (∀ x, ¬ reach fat0 head x →
          fat_get_cl_next fat1 x = fat_get_cl_next fat0 x ∧
          bitmap_get ub x = bitmap_get used0 x) := by
  intro k
  induction k with
  | zero =>
    intro vis c fat used fuel hinv hk hfuel
    refine clearchain_loop_stop fat0 used0 head vis c fat used fuel hinv ?_ hfuel
    by_cases hr : CLUST_FIRST ≤ c ∧ c < fat0.boot.NumClusters
    · by_cases hcv : c ∈ vis
      · exact Or.inr hcv
      · obtain ⟨_, _, _, _, _, _, hnodup, hlt⟩ := hinv
        have := nodup_length_le (c :: vis) fat0.boot.NumClusters
          (List.nodup_cons.mpr ⟨hcv, hnodup⟩)
          (fun x hx => by
            rcases List.mem_cons.mp hx with h | h
            · rw [h]; exact hr.2
            · exact hlt x h)
        simp only [List.length_cons] at this
        omega
    · exact Or.inl hr
  | succ k ih =>
    intro vis c fat used fuel hinv hk hfuel
    by_cases hr : CLUST_FIRST ≤ c ∧ c < fat0.boot.NumClusters
    · by_cases hcv : c ∈ vis
      · exact clearchain_loop_stop fat0 used0 head vis c fat used fuel hinv (Or.inr hcv)
          (by omega)
      · obtain ⟨f, hf⟩ : ∃ f, fuel = f + 1 := ⟨fuel - 1, by omega⟩
        subst hf
        obtain ⟨fat1, ub, hstep, hinv1⟩ :=
          clear_inv_step fat0 used0 head vis c fat used f hinv hr hcv
        rw [hstep]
        exact ih (c :: vis) _ fat1 ub f hinv1
          (by simp only [List.length_cons]; omega) (by omega)
    · exact clearchain_loop_stop fat0 used0 head vis c fat used fuel hinv (Or.inl hr)
        (by omega)

/-- C14: on a writable well-formed table, `clearchain` from any head returns
(given fuel for `NumClusters + 2` iterations, whatever the links, a chain that
loops back onto itself included).  Afterwards every cluster reachable from the
head by following the original successor links while they stay inside
`[CLUST_FIRST, NumClusters)` has an entry reading `CLUST_FREE` and a clear used
bit, and every other cluster has its entry and its used bit as before.  A head
outside `[CLUST_FIRST, NumClusters)` changes nothing. -/
theorem clearchain_clears_reachable (fat : fat_descriptor) (usedbitmap : long_bitmap_t)
    (head fuel : Nat) (hwf : fat_wf fat) (hfuel : fat.boot.NumClusters + 2 ≤ fuel) :
    ∃ fat1 ub, clearchain false fuel fat usedbitmap head = outcome.ok (fat1, ub) ∧
      fat1.boot = fat.boot ∧
      (∀ x, reach fat head x →
        fat_get_cl_next fat1 x = CLUST_FREE ∧ bitmap_get ub x = false) ∧
      (∀ x, ¬ reach fat head x →
        fat_get_cl_next fat1 x = fat_get_cl_next fat x ∧
        bitmap_get ub x = bitmap_get usedbitmap x) ∧
      (¬ (CLUST_FIRST ≤ head ∧ head < fat.boot.NumClusters) →
        fat1 = fat ∧ ub = usedbitmap) := by
  have hinv : clear_inv fat usedbitmap head [] head fat usedbitmap := by
    refine ⟨hwf, rfl, ?_, fun x _ => ⟨rfl, rfl⟩, fun x => by simp, ?_, List.nodup_nil, ?_⟩
    · intro x hx; exact absurd hx (List.not_mem_nil _)
    · intro x hx; exact absurd hx (List.not_mem_nil _)
    · intro x hx; exact absurd hx (List.not_mem_nil _)
  obtain ⟨fat1, ub, h1, h2, h3, h4⟩ := clearchain_loop_spec fat usedbitmap head
    fat.boot.NumClusters [] head fat usedbitmap fuel hinv (by simp) hfuel
  refine ⟨fat1, ub, h1, h2, h3, h4, fun hout => ?_⟩
  obtain ⟨f, hf⟩ : ∃ f, fuel = f + 1 := ⟨fuel - 1, by omega⟩
  subst hf
  unfold clearchain_loop at h1
  have hout1 : ¬ (head ≥ CLUST_FIRST ∧ head < fat.boot.NumClusters) := hout
  rw [if_neg hout1] at h1
  injection h1 with h1
  injection h1 with ha hb
  exact ⟨ha.symm, hb.symm⟩

/-! ## Lost chains -/

/-- C15 (evaluation at the failing input): on the 12-bit volume with ten
clusters whose only allocated clusters are the chain 7 → 8 → EOF, `readfat`
leaves the state `lost12_state`, in which the head bit of cluster 7 is set and
the head count is 3 (clusters 0, 1 and 7).  The scan of `checklost` takes one
off the count at clusters 2, 3 and 4 and stops: it returns `FSOK` without
having called `checkchain` on any head and without having reported any lost
chain, and the head bit of cluster 7 is still set. -/
theorem checklost_misses_lost_head :
    (readfat policy_yes false (boot12 10) fat12_lost).map
        (fun r => (r.ret, (⟨r.fat, r.usedbitmap, r.headbitmap⟩ : table_state)))
      = some (FSOK, lost12_state) ∧
    bitmap_get lost12_state.headbitmap 7 = true ∧
    fat_get_cl_next lost12_state.fat 7 = 8 ∧
    checklost collab_ok policy_yes false 20 20 lost12_state
      = outcome.ok (FSOK, ⟨lost12_state.fat, ⟨0, []⟩, lost12_state.headbitmap, FSOK, [], []⟩) := by
  decide

/-- C16 (evaluation at the failing input): on the 32-bit volume of
`lost32_state`, `readfat` counts one free cluster (cluster 4), the walk of the
root directory in cluster 5 returns `FSOK`, and the stored hint `FSFree` is 100.  `checklost` finds the lost chain at cluster 2 damaged,
clears its clusters 2 and 3, and then rewrites `FSFree` to the count of
`readfat`, 1, although three clusters of the table read `CLUST_FREE` at that
moment. -/
theorem checklost_fsfree_stale :
    (readfat policy_keep_links false (boot32 6 100 2) fat32_lost).map
        (fun r => (r.fat, checkchain policy_keep_links false 20 r.fat r.usedbitmap 5,
          bitmap_clear r.headbitmap 5))
      = some (lost32_state.fat,
          outcome.ok (FSOK, ⟨lost32_state.fat, lost32_state.usedbitmap, 1⟩),
          some lost32_state.headbitmap) ∧
    ∃ s, checklost collab_ok policy_keep_links false 20 20 lost32_state
        = outcome.ok (FSFATMOD, s) ∧
      s.walked = [2] ∧ s.fat.boot.FSFree = 1 ∧
      count_clusters (fat_get_cl_next s.fat) CLUST_FREE s.fat.boot.NumClusters = 3 :=
  ⟨by decide,
    ⟨⟨{ boot32 6 100 2 with NumFree := 1, FSFree := 1 }, 0,
        [0xf8, 0xff, 0xff, 0x0f, 0xff, 0xff, 0xff, 0x0f, 0x00, 0x00, 0x00, 0x00,
         0x00, 0x00, 0x00, 0x00, 0x00, 0x00, 0x00, 0x00, 0xff, 0xff, 0xff, 0x0f]⟩,
      ⟨0, []⟩, lost32_state.headbitmap, FSFATMOD, [2], []⟩,
    by decide⟩

/-- C17 (evaluation at the failing input): on the 32-bit volume of
`full32_state`, `readfat` counts no free cluster, the walk of the root directory
4 → 5 returns `FSOK`, and the stored hint `FSNext` is 4, a cluster of the root
directory.  `checklost` finds the lost chain at
cluster 2 damaged and clears its clusters 2 and 3, so that two clusters of the
table are free, but leaves `FSNext` at 4, whose entry does not read
`CLUST_FREE`. -/
theorem checklost_fsnext_stale :
    (readfat policy_keep_links false (boot32 6 0 4) fat32_full).map
        (fun r => (r.fat, checkchain policy_keep_links false 20 r.fat r.usedbitmap 4,
          bitmap_clear r.headbitmap 4))
      = some (full32_state.fat,
          outcome.ok (FSOK, ⟨full32_state.fat, full32_state.usedbitmap, 2⟩),
          some full32_state.headbitmap) ∧
    ∃ s, checklost collab_ok policy_keep_links false 20 20 full32_state
        = outcome.ok (FSFATMOD, s) ∧
      s.walked = [2] ∧ s.fat.boot.FSNext = 4 ∧
      fat_get_cl_next s.fat 4 = 5 ∧
      fat_get_cl_next s.fat 2 = CLUST_FREE ∧ fat_get_cl_next s.fat 3 = CLUST_FREE ∧
      count_clusters (fat_get_cl_next s.fat) CLUST_FREE s.fat.boot.NumClusters = 2 :=
  ⟨by decide,
    ⟨⟨boot32 6 0 4, 0,
        [0xf8, 0xff, 0xff, 0x0f, 0xff, 0xff, 0xff, 0x0f, 0x00, 0x00, 0x00, 0x00,
         0x00, 0x00, 0x00, 0x00, 0x05, 0x00, 0x00, 0x00, 0xff, 0xff, 0xff, 0x0f]⟩,
      ⟨1, []⟩, full32_state.headbitmap, FSFATMOD, [2], []⟩,
    by decide⟩

/-! ## Repeating `readfat` -/

/-- The signature check in terms of its two tests and the correction. -/
theorem readfat_signature_eq (ask : policy) (boot : bootblock) (buffer : List Nat) :
    readfat_signature ask boot buffer =
      if signature_odd boot buffer then
        if signature_dirty boot buffer then (FSOK ||| FSDIRTY, buffer)
        else if ask 1 question.Correct 0 = true then (FSOK, signature_fix boot buffer)
        else (FSOK, buffer)
      else (FSOK, buffer) := by
  unfold readfat_signature signature_odd signature_dirty signature_fix
  simp only
  split_ifs <;> rfl

/-- The bytes of a corrected buffer. -/
theorem signature_fix_getElem (boot : bootblock) (buffer : List Nat) (j : Nat)
    (hmask : is_fat_mask boot.ClustMask) :
    (signature_fix boot buffer)[j]? =
      if j < fat_signature_bytes boot.ClustMask ∧ j < buffer.length
      then some (signature_byte boot j) else buffer[j]? := by
  have e12 : fat_signature_bytes CLUST12_MASK = 3 := by decide
  have e16 : fat_signature_bytes CLUST16_MASK = 4 := by decide
  have e32 : fat_signature_bytes CLUST32_MASK = 8 := by decide
  have d1 : ¬ (CLUST12_MASK = CLUST16_MASK) := by decide
  have d2 : ¬ (CLUST12_MASK = CLUST32_MASK) := by decide
  have d3 : ¬ (CLUST16_MASK = CLUST32_MASK) := by decide
  have d4 : ¬ (CLUST32_MASK = CLUST16_MASK) := by decide
  have fin : ∀ (k v : Nat), (if k < buffer.length then some v else none)
      = if k < buffer.length then some v else buffer[k]? := by
    intro k v
    split_ifs with hh
    · rfl
    · exact (List.getElem?_eq_none (by omega)).symm
  unfold signature_fix signature_byte
  rcases hmask with h | h | h
  · simp only [h, e12, d1, d2, if_true, if_false, false_and, List.getElem?_set,
      List.length_set]
    rcases j with _ | _ | _ | j
    · simpa using fin 0 _
    · simpa using fin 1 _
    · simpa using fin 2 _
    · simp
      rw [if_neg (by omega)]
  · simp only [h, e16, d3, if_true, if_false, false_and, List.getElem?_set,
      List.length_set]
    rcases j with _ | _ | _ | _ | j
    · simpa using fin 0 _
    · simpa using fin 1 _
    · simpa using fin 2 _
    · simpa using fin 3 _
    · simp
      rw [if_neg (by omega)]
  · simp only [h, e32, d4, if_true, if_false, true_and, List.getElem?_set,
      List.length_set]
    rcases j with _ | _ | _ | _ | _ | _ | _ | _ | j
    · simpa using fin 0 _
    · simpa using fin 1 _
    · simpa using fin 2 _
    · simpa using fin 3 _
    · simpa using fin 4 _
    · simpa using fin 5 _
    · simpa using fin 6 _
    · simpa using fin 7 _
    · simp
      rw [if_neg (by omega)]

/-- Storing in a list what it holds already changes nothing. -/
theorem signature_fix_fixed (boot : bootblock) (a b : List Nat)
    (hmask : is_fat_mask boot.ClustMask) (hlen : a.length = b.length)
    (h : ∀ j, j < fat_signature_bytes boot.ClustMask → a[j]? = (signature_fix boot b)[j]?) :
    signature_fix boot a = a := by
  apply List.ext_getElem?
  intro j
  rw [signature_fix_getElem boot a j hmask]
  split_ifs with hj
  · rw [h j hj.1, signature_fix_getElem boot b j hmask, if_pos ⟨hj.1, by omega⟩]
  · rfl

/-- The two tests of the signature check look at the signature bytes only. -/
theorem signature_tests_congr (boot : bootblock) (a b : List Nat)
    (hmask : is_fat_mask boot.ClustMask)
    (h : ∀ j, j < fat_signature_bytes boot.ClustMask → rdb a j = rdb b j) :
    (signature_odd boot a ↔ signature_odd boot b) ∧
      (signature_dirty boot a ↔ signature_dirty boot b) := by
  have d1 : ¬ (CLUST12_MASK = CLUST16_MASK) := by decide
  have d2 : ¬ (CLUST12_MASK = CLUST32_MASK) := by decide
  have d3 : ¬ (CLUST16_MASK = CLUST32_MASK) := by decide
  have d4 : ¬ (CLUST32_MASK = CLUST16_MASK) := by decide
  unfold signature_odd signature_dirty
  rcases hmask with hm | hm | hm
  · rw [hm] at h
    have h0 := h 0 (by decide)
    have h1 := h 1 (by decide)
    have h2 := h 2 (by decide)
    simp only [hm, d1, d2, false_and, or_false, h0, h1, h2, and_true, and_false, iff_self]
  · rw [hm] at h
    have h0 := h 0 (by decide)
    have h1 := h 1 (by decide)
    have h2 := h 2 (by decide)
    have h3 := h 3 (by decide)
    simp only [hm, d3, false_and, or_false, h0, h1, h2, h3, and_true, true_and, iff_self]
  · rw [hm] at h
    have h0 := h 0 (by decide)
    have h1 := h 1 (by decide)
    have h2 := h 2 (by decide)
    have h3 := h 3 (by decide)
    have h4 := h 4 (by decide)
    have h5 := h 5 (by decide)
    have h6 := h 6 (by decide)
    have h7 := h 7 (by decide)
    simp only [hm, d4, false_and, false_or, h0, h1, h2, h3, h4, h5, h6, h7, and_true,
      true_and, iff_self]

theorem rdb_of_getElem (a b : List Nat) (j : Nat) (h : a[j]? = b[j]?) : rdb a j = rdb b j := by
  unfold rdb
  rw [List.getD_eq_getElem?_getD, List.getD_eq_getElem?_getD, h]

/-- The signature check leaves a buffer alone whose signature bytes are those
that a first check under an accepting policy has left. -/
theorem readfat_signature_again (ask : policy) (boot : bootblock) (b t : List Nat)
    (hmask : is_fat_mask boot.ClustMask) (hask : ask 1 question.Correct 0 = true)
    (hlen : t.length = (readfat_signature ask boot b).2.length)
    (h : ∀ j, j < fat_signature_bytes boot.ClustMask →
      t[j]? = (readfat_signature ask boot b).2[j]?) :
    (readfat_signature ask boot t).2 = t := by
  rw [readfat_signature_length] at hlen
  rw [readfat_signature_eq ask boot t]
  by_cases hfix : signature_odd boot b ∧ ¬ signature_dirty boot b
  · have hs : (readfat_signature ask boot b).2 = signature_fix boot b := by
      rw [readfat_signature_eq, if_pos hfix.1, if_neg hfix.2, if_pos hask]
    rw [hs] at h
    have hfixed := signature_fix_fixed boot t b hmask hlen h
    split_ifs <;> first | rfl | exact hfixed
  · have hs : (readfat_signature ask boot b).2 = b := by
      rw [readfat_signature_eq]
      split_ifs with h1 h2
      · rfl
      · exact absurd ⟨h1, h2⟩ hfix
      · rfl
    rw [hs] at h
    obtain ⟨c1, c2⟩ := signature_tests_congr boot t b hmask
      (fun j hj => rdb_of_getElem t b j (h j hj))
    split_ifs with h1 h2
    · rfl
    · exact absurd ⟨c1.mp h1, fun hd => h2 (c2.mpr hd)⟩ hfix
    · rfl

theorem fat_set_cl_next_fatsize (rdonly : Bool) (fat : fat_descriptor) (cl v : Nat) :
    (fat_set_cl_next rdonly fat cl v).2.fatsize = fat.fatsize := by
  unfold fat_set_cl_next fat_set_fat12_next fat_set_fat16_next fat_set_fat32_next
  split_ifs <;> rfl

/-- A write to the entry of a cluster leaves the signature bytes alone. -/
theorem fat_set_cl_next_signature (rdonly : Bool) (fat : fat_descriptor) (cl v j : Nat)
    (hmask : is_fat_mask fat.boot.ClustMask) (hgeom : fat.boot.NumClusters ≤ 2 ^ 30)
    (hj : j < fat_signature_bytes fat.boot.ClustMask) :
    (fat_set_cl_next rdonly fat cl v).2.fatbuf[j]? = fat.fatbuf[j]? := by
  have e12 : fat_signature_bytes CLUST12_MASK = 3 := by decide
  have e16 : fat_signature_bytes CLUST16_MASK = 4 := by decide
  have e32 : fat_signature_bytes CLUST32_MASK = 8 := by decide
  obtain ⟨d1, d2, d3⟩ := mask_distinct
  cases rdonly with
  | true => unfold fat_set_cl_next; simp
  | false =>
    by_cases hr : cl < CLUST_FIRST ∨ cl ≥ fat.boot.NumClusters
    · rw [fat_access_out_of_range_aux false fat cl v hr]
    · have hlo : CLUST_FIRST ≤ cl := by omega
      have hhi : cl < fat.boot.NumClusters := by omega
      have h2 : 2 ≤ cl := hlo
      rw [fat_set_cl_next_valid fat cl v hlo hhi]
      rcases hmask with h | h | h
      · rw [h, e12] at hj
        rw [if_pos h]
        unfold fat_set_fat12_next le16enc
        simp only [List.getElem?_set, fat12_ptr_eq cl (by omega)]
        rw [if_neg (by omega), if_neg (by omega)]
      · rw [h, e16] at hj
        rw [if_neg (by rw [h]; exact d1.symm), if_pos h]
        unfold fat_set_fat16_next le16enc
        simp only [List.getElem?_set, fat16_ptr_eq cl (by omega)]
        rw [if_neg (by omega), if_neg (by omega)]
      · rw [h, e32] at hj
        rw [if_neg (by rw [h]; exact d2.symm), if_neg (by rw [h]; exact d3.symm), if_pos h]
        unfold fat_set_fat32_next le32enc
        simp only [List.getElem?_set, fat32_ptr_eq cl (by omega)]
        rw [if_neg (by omega), if_neg (by omega), if_neg (by omega), if_neg (by omega)]

/-- One iteration of the scan of `readfat` leaves the geometry, the length of the
buffer and the signature bytes alone. -/
theorem readfat_step_frame (ask : policy) (rdonly : Bool) (cl : Nat) (s s1 : scan_state)
    (hmask : is_fat_mask s.fat.boot.ClustMask) (hgeom : s.fat.boot.NumClusters ≤ 2 ^ 30)
    (h : readfat_step ask rdonly cl s = some s1) :
    reset_counters s1.fat.boot = reset_counters s.fat.boot ∧
    s1.fat.fatsize = s.fat.fatsize ∧
    s1.fat.fatbuf.length = s.fat.fatbuf.length ∧
    ∀ j, j < fat_signature_bytes s.fat.boot.ClustMask →
      s1.fat.fatbuf[j]? = s.fat.fatbuf[j]? := by
  rcases readfat_step_cases ask rdonly cl s s1 h with
    ⟨_, hb, _, e⟩ | ⟨_, hb, _, e⟩ | ⟨_, _, e⟩ | ⟨_, _, e⟩ | ⟨_, _, _, _, hb, _, e⟩ |
    ⟨_, _, _, _, e⟩ | ⟨_, _, e⟩
  · rw [e]; exact ⟨rfl, rfl, rfl, fun j _ => rfl⟩
  · rw [e]; exact ⟨rfl, rfl, rfl, fun j _ => rfl⟩
  · rw [e]
    refine ⟨?_, fat_set_cl_next_fatsize _ _ _ _, fat_set_cl_next_length _ _ _ _,
      fun j hj => fat_set_cl_next_signature rdonly s.fat cl CLUST_EOF j hmask hgeom hj⟩
    show reset_counters (fat_set_cl_next rdonly s.fat cl CLUST_EOF).2.boot = _
    rw [fat_set_cl_next_boot]
  · rw [e]; exact ⟨rfl, rfl, rfl, fun j _ => rfl⟩
  · rw [e]; exact ⟨rfl, rfl, rfl, fun j _ => rfl⟩
  · rw [e]; exact ⟨rfl, rfl, rfl, fun j _ => rfl⟩
  · rw [e]; exact ⟨rfl, rfl, rfl, fun j _ => rfl⟩

/-- The scan of `readfat` leaves the geometry, the length of the buffer and the
signature bytes alone. -/
theorem readfat_loop_frame (ask : policy) (rdonly : Bool) (k : Nat) :
    ∀ (cl : Nat) (s s1 : scan_state), is_fat_mask s.fat.boot.ClustMask →
      s.fat.boot.NumClusters ≤ 2 ^ 30 → readfat_loop ask rdonly k cl s = some s1 →
      reset_counters s1.fat.boot = reset_counters s.fat.boot ∧
      s1.fat.fatsize = s.fat.fatsize ∧
      s1.fat.fatbuf.length = s.fat.fatbuf.length ∧
      ∀ j, j < fat_signature_bytes s.fat.boot.ClustMask →
        s1.fat.fatbuf[j]? = s.fat.fatbuf[j]? := by
  induction k with
  | zero =>
    intro cl s s1 _ _ h
    simp only [readfat_loop, Option.some.injEq] at h
    rw [← h]; exact ⟨rfl, rfl, rfl, fun j _ => rfl⟩
  | succ k ih =>
    intro cl s s1 hmask hgeom h
    simp only [readfat_loop] at h
    cases hs : readfat_step ask rdonly cl s with
    | none => rw [hs] at h; exact absurd h (by simp)
    | some s2 =>
      rw [hs] at h
      obtain ⟨a1, a2, a3, a4⟩ := readfat_step_frame ask rdonly cl s s2 hmask hgeom hs
      have hm0 : (reset_counters s2.fat.boot).ClustMask
          = (reset_counters s.fat.boot).ClustMask := by rw [a1]
      have hn0 : (reset_counters s2.fat.boot).NumClusters
          = (reset_counters s.fat.boot).NumClusters := by rw [a1]
      have hm : s2.fat.boot.ClustMask = s.fat.boot.ClustMask := hm0
      have hn : s2.fat.boot.NumClusters = s.fat.boot.NumClusters := hn0
      obtain ⟨b1, b2, b3, b4⟩ := ih (cl + 1) s2 s1 (by rw [hm]; exact hmask)
        (by rw [hn]; exact hgeom) h
      refine ⟨by rw [b1, a1], by rw [b2, a2], by rw [b3, a3], fun j hj => ?_⟩
      rw [b4 j (by rw [hm]; exact hj), a4 j hj]

/-- One iteration of the scan on the table that a first scan has left, next to the
iteration of the first scan on the same cluster: where the first scan found a
bad link and truncated it, the second finds `CLUST_EOF`, and else both find the
same entry.  The second iteration succeeds if the first did, treats the head
bitmap alike, and changes neither the table nor the status. -/
theorem readfat_step_replay (ask : policy) (rdonly rdonly1 : Bool) (cl n : Nat)
    (s s1 t : scan_state) (hgeom : n ≤ 2 ^ 30)
    (hask : ask 0 question.Truncate cl = true)
    (hns : s.fat.boot.NumClusters = n) (hnt : t.fat.boot.NumClusters = n)
    (hhead : t.headbitmap = s.headbitmap)
    (hent : fat_get_cl_next t.fat cl =
      if bad_link n (fat_get_cl_next s.fat cl) then CLUST_EOF else fat_get_cl_next s.fat cl)
    (h : readfat_step ask rdonly cl s = some s1) :
    ∃ t1, readfat_step ask rdonly1 cl t = some t1 ∧ t1.headbitmap = s1.headbitmap ∧
      t1.fat.fatbuf = t.fat.fatbuf ∧ t1.fat.boot.NumClusters = n ∧
      t1.fat.boot.ClustMask = t.fat.boot.ClustMask ∧ t1.ret = t.ret := by
  obtain ⟨k0, k2, kbad, keofs, keof, kdead⟩ := clust_consts
  rcases readfat_step_cases ask rdonly cl s s1 h with
    ⟨hv, hb, hc, e⟩ | ⟨hv, hb, hc, e⟩ | ⟨hbl, _, e⟩ | ⟨_, hno, _⟩ |
    ⟨h1, h2, h3, h4, hb, hc, e⟩ | ⟨h1, h2, h3, h4, e⟩ | ⟨h1, h2, e⟩
  · have hnb : ¬ bad_link n (fat_get_cl_next s.fat cl) := fun hh => hh.1 hv
    rw [if_neg hnb, hv] at hent
    refine ⟨{ t with
        headbitmap := hb,
        fat := { t.fat with
          boot := { t.fat.boot with NumFree := (t.fat.boot.NumFree + 1) % 2 ^ 32 } } },
      ?_, ?_, ?_, ?_, ?_, ?_⟩
    · unfold readfat_step
      simp only [hent, if_true, hhead, hc]
    · rw [e]
    · rfl
    · exact hnt
    · rfl
    · rfl
  · have hnb : ¬ bad_link n (fat_get_cl_next s.fat cl) := fun hh => hh.2.1 hv
    rw [if_neg hnb, hv] at hent
    have hne : ¬ (CLUST_BAD = CLUST_FREE) := by decide
    refine ⟨{ t with
        headbitmap := hb,
        fat := { t.fat with
          boot := { t.fat.boot with NumBad := (t.fat.boot.NumBad + 1) % 2 ^ 32 } } },
      ?_, ?_, ?_, ?_, ?_, ?_⟩
    · unfold readfat_step
      simp only [hent, hne, if_true, if_false, hhead, hc]
    · rw [e]
    · rfl
    · exact hnt
    · rfl
    · rfl
  · rw [hns] at hbl
    rw [if_pos hbl] at hent
    refine ⟨t, ?_, by rw [e, hhead], rfl, hnt, rfl, rfl⟩
    unfold readfat_step
    have c1 : ¬ (CLUST_EOF = CLUST_FREE) := by decide
    have c2 : ¬ (CLUST_EOF = CLUST_BAD) := by decide
    have c3 : ¬ (CLUST_EOF < CLUST_FIRST ∨
        (CLUST_EOF ≥ t.fat.boot.NumClusters ∧ CLUST_EOF < CLUST_EOFS)) := by
      rw [keof, k2, keofs]; omega
    have c4 : ¬ (CLUST_EOF < t.fat.boot.NumClusters) := by rw [hnt]; omega
    simp only [hent, c1, c2, c3, c4, if_false]
  · rw [hask] at hno
    exact absurd hno (by simp)
  · have hnb : ¬ bad_link n (fat_get_cl_next s.fat cl) := by
      unfold bad_link; rw [hns] at h2; omega
    rw [if_neg hnb] at hent
    have c1 : ¬ (fat_get_cl_next s.fat cl = CLUST_FREE) := by omega
    have c3 : ¬ (fat_get_cl_next s.fat cl < CLUST_FIRST ∨
        (fat_get_cl_next s.fat cl ≥ t.fat.boot.NumClusters ∧
          fat_get_cl_next s.fat cl < CLUST_EOFS)) := by
      rw [hnt]; rw [hns] at h2; omega
    have c4 : fat_get_cl_next s.fat cl < t.fat.boot.NumClusters := by
      rw [hnt]; rw [hns] at h2; exact h2
    refine ⟨{ t with headbitmap := hb }, ?_, by rw [e], rfl, hnt, rfl, rfl⟩
    unfold readfat_step
    simp only [hent, c1, h3, c3, c4, if_true, if_false, hhead, h4, hc]
  · have hnb : ¬ bad_link n (fat_get_cl_next s.fat cl) := by
      unfold bad_link; rw [hns] at h2; omega
    rw [if_neg hnb] at hent
    have c1 : ¬ (fat_get_cl_next s.fat cl = CLUST_FREE) := by omega
    have c3 : ¬ (fat_get_cl_next s.fat cl < CLUST_FIRST ∨
        (fat_get_cl_next s.fat cl ≥ t.fat.boot.NumClusters ∧
          fat_get_cl_next s.fat cl < CLUST_EOFS)) := by
      rw [hnt]; rw [hns] at h2; omega
    have c4 : fat_get_cl_next s.fat cl < t.fat.boot.NumClusters := by
      rw [hnt]; rw [hns] at h2; exact h2
    refine ⟨t, ?_, by rw [e, hhead], rfl, hnt, rfl, rfl⟩
    unfold readfat_step
    simp only [hent, c1, h3, c3, c4, if_true, if_false, hhead, h4, Bool.false_eq_true]
  · have hnb : ¬ bad_link n (fat_get_cl_next s.fat cl) := by
      unfold bad_link; omega
    rw [if_neg hnb] at hent
    have c1 : ¬ (fat_get_cl_next s.fat cl = CLUST_FREE) := by omega
    have c2 : ¬ (fat_get_cl_next s.fat cl = CLUST_BAD) := by omega
    have c3 : ¬ (fat_get_cl_next s.fat cl < CLUST_FIRST ∨
        (fat_get_cl_next s.fat cl ≥ t.fat.boot.NumClusters ∧
          fat_get_cl_next s.fat cl < CLUST_EOFS)) := by
      omega
    have c4 : ¬ (fat_get_cl_next s.fat cl < t.fat.boot.NumClusters) := by
      rw [hnt]; rw [hns] at h1; omega
    refine ⟨t, ?_, by rw [e, hhead], rfl, hnt, rfl, rfl⟩
    unfold readfat_step
    simp only [hent, c1, c2, c3, c4, if_false]

/-- The scan on the table that a first scan under an accepting policy has left,
next to the first scan: it completes if the first did, with the same head
bitmap, and changes neither the table nor the status. -/
theorem readfat_loop_replay (ask : policy) (rdonly rdonly1 : Bool) (g : Nat → Nat)
    (mask n : Nat) (hgeom : n ≤ 2 ^ 30) (hask : ∀ c, ask 0 question.Truncate c = true)
    (k : Nat) :
    ∀ (cl : Nat) (s sF t : scan_state), CLUST_FIRST ≤ cl → k ≤ n - cl →
      scan_inv g mask n cl s → t.fat.boot.NumClusters = n →
      t.headbitmap = s.headbitmap →
      (∀ c, CLUST_FIRST ≤ c → c < n →
        fat_get_cl_next t.fat c = if bad_link n (g c) then CLUST_EOF else g c) →
      readfat_loop ask rdonly k cl s = some sF →
      ∃ tF, readfat_loop ask rdonly1 k cl t = some tF ∧ tF.fat.fatbuf = t.fat.fatbuf ∧
        tF.ret = t.ret ∧ tF.headbitmap = sF.headbitmap := by
  induction k with
  | zero =>
    intro cl s sF t _ _ _ _ hhead _ h
    simp only [readfat_loop, Option.some.injEq] at h
    exact ⟨t, rfl, rfl, rfl, by rw [hhead, h]⟩
  | succ k ih =>
    intro cl s sF t hlo hk hinv hnt hhead hent h
    simp only [readfat_loop] at h
    cases hs : readfat_step ask rdonly cl s with
    | none => rw [hs] at h; exact absurd h (by simp)
    | some s2 =>
      rw [hs] at h
      have hcl : cl < n := by omega
      have hinv2 := scan_inv_step ask rdonly g mask n cl s s2 hgeom hlo hcl hinv hs
      have hns : s.fat.boot.NumClusters = n := hinv.2.1
      have hv : fat_get_cl_next s.fat cl = g cl := hinv.2.2.1 cl (le_refl _)
      obtain ⟨t1, q1, q2, q3, q4, q5, q6⟩ := readfat_step_replay ask rdonly rdonly1 cl n s s2 t
        hgeom (hask cl) hns hnt hhead (by rw [hv]; exact hent cl hlo hcl) hs
      obtain ⟨tF, r1, r2, r3, r4⟩ := ih (cl + 1) s2 sF t1 (by omega) (by omega) hinv2 q4 q2
        (fun c h1 h2 => by
          rw [fat_get_cl_next_congr t1.fat t.fat c q3 q5 (by rw [q4, hnt])]
          exact hent c h1 h2) h
      refine ⟨tF, ?_, by rw [r2, q3], by rw [r3, q6], r4⟩
      simp only [readfat_loop]
      rw [q1]
      exact r1

/-- The result of `readfat` from the result of its scan. -/
theorem readfat_of_loop (ask : policy) (rdonly : Bool) (boot : bootblock) (buffer : List Nat)
    (s : scan_state)
    (h : readfat_loop ask rdonly ((readfat_fat ask boot buffer).boot.NumClusters - CLUST_FIRST)
        CLUST_FIRST
        ⟨readfat_fat ask boot buffer,
          (bitmap_ctor true ⟨0, []⟩ (readfat_fat ask boot buffer).boot.NumClusters true).2,
          readfat_ret0 ask boot buffer⟩ = some s) :
    readfat ask rdonly boot buffer
      = some ⟨s.ret, s.fat, (bitmap_ctor true ⟨0, []⟩ boot.NumClusters false).2,
          s.headbitmap⟩ := by
  unfold readfat_fat readfat_ret0 at h
  unfold readfat
  simp only at h ⊢
  rw [h]

/-- C18: on a writable well-formed table and under a policy that accepts every
question, when `readfat` (signature check and scan) completes and leaves the
buffer `T'`, then `readfat` run again on `T'` with the boot block as the first
run left it and with fresh bitmaps completes as well, leaves every byte of `T'`
as it is, and returns a status without `FSFATMOD`. -/
theorem readfat_idempotent (ask : policy) (boot : bootblock) (buffer : List Nat)
    (r : readfat_result) (hwf : fat_wf ⟨boot, 0, buffer⟩)
    (hask : ∀ d q c, ask d q c = true)
    (h : readfat ask false boot buffer = some r) :
    ∃ r2, readfat ask false r.fat.boot r.fat.fatbuf = some r2 ∧
      r2.fat.fatbuf = r.fat.fatbuf ∧ r2.ret &&& FSFATMOD = 0 := by
  have hgeom : boot.NumClusters ≤ 2 ^ 30 := hwf.2.1
  have hmask : is_fat_mask boot.ClustMask := hwf.1
  obtain ⟨s1, hloop, _, hfat, _, _⟩ := readfat_eq ask false boot buffer r h
  have hwf0 := readfat_fat_wf ask boot buffer hwf
  obtain ⟨f1, _, f3, f4⟩ := readfat_loop_frame ask false _ CLUST_FIRST _ s1 hwf0.1 hwf0.2.1 hloop
  have hreset : reset_counters r.fat.boot = reset_counters boot := by rw [hfat, f1]; rfl
  have hsig : (readfat_signature ask (reset_counters boot) r.fat.fatbuf).2 = r.fat.fatbuf := by
    rw [hfat]
    exact readfat_signature_again ask (reset_counters boot) buffer s1.fat.fatbuf hmask
      (hask 1 question.Correct 0) f3 (fun j hj => f4 j hj)
  have hstart : readfat_fat ask r.fat.boot r.fat.fatbuf = ⟨reset_counters boot, 0, r.fat.fatbuf⟩ := by
    show (⟨reset_counters r.fat.boot, 0,
      (readfat_signature ask (reset_counters r.fat.boot) r.fat.fatbuf).2⟩ : fat_descriptor) = _
    rw [hreset, hsig]
  obtain ⟨_, hent, _, _⟩ := readfat_loop_trunc ask false (readfat_fat ask boot buffer)
    (readfat_ret0 ask boot buffer) s1 hwf0 rfl rfl hloop
  have hinit := scan_inv_init (readfat_fat ask boot buffer) (readfat_ret0 ask boot buffer)
    hgeom rfl rfl
  have hs1m : s1.fat.boot.ClustMask = boot.ClustMask := by
    have : (reset_counters s1.fat.boot).ClustMask = (reset_counters boot).ClustMask := by
      rw [← hfat, hreset]
    exact this
  have hs1n : s1.fat.boot.NumClusters = boot.NumClusters := by
    have : (reset_counters s1.fat.boot).NumClusters = (reset_counters boot).NumClusters := by
      rw [← hfat, hreset]
    exact this
  obtain ⟨tF, t1, t2, t3, _⟩ := readfat_loop_replay ask false false
    (fat_get_cl_next (readfat_fat ask boot buffer)) boot.ClustMask boot.NumClusters hgeom
    (fun c => hask 0 question.Truncate c) (boot.NumClusters - CLUST_FIRST) CLUST_FIRST
    ⟨readfat_fat ask boot buffer, (bitmap_ctor true ⟨0, []⟩ boot.NumClusters true).2,
      readfat_ret0 ask boot buffer⟩ s1
    ⟨⟨reset_counters boot, 0, r.fat.fatbuf⟩, (bitmap_ctor true ⟨0, []⟩ boot.NumClusters true).2,
      readfat_ret0 ask r.fat.boot r.fat.fatbuf⟩
    (le_refl _) (le_refl _) hinit rfl rfl
    (fun c h1 h2 => by
      have e1 : fat_get_cl_next ⟨reset_counters boot, 0, r.fat.fatbuf⟩ c
          = fat_get_cl_next s1.fat c :=
        fat_get_cl_next_congr _ _ c (by rw [hfat]) hs1m.symm hs1n.symm
      rw [e1, hent c h1 h2]
      simp only [hask 0 question.Truncate c, true_and, and_true]
      rfl)
    hloop
  have hloop2 : readfat_loop ask false
      ((readfat_fat ask r.fat.boot r.fat.fatbuf).boot.NumClusters - CLUST_FIRST) CLUST_FIRST
      ⟨readfat_fat ask r.fat.boot r.fat.fatbuf,
        (bitmap_ctor true ⟨0, []⟩ (readfat_fat ask r.fat.boot r.fat.fatbuf).boot.NumClusters
          true).2,
        readfat_ret0 ask r.fat.boot r.fat.fatbuf⟩ = some tF := by
    rw [hstart]
    exact t1
  refine ⟨_, readfat_of_loop ask false r.fat.boot r.fat.fatbuf tF hloop2, t2, ?_⟩
  show tF.ret &&& FSFATMOD = 0
  rw [t3]
  exact (readfat_ret0_fatmod ask r.fat.boot r.fat.fatbuf).1

/-! ## Chains that end naturally -/

/-- The walk along a chain whose last entry lies above `CLUST_EOFS`: it returns
`FSOK`, leaves the table alone and marks the clusters after the first. -/
theorem checkchain_natural_end (ask : policy) (rdonly : Bool) (fat : fat_descriptor)
    (usedbitmap : long_bitmap_t) (c1 : Nat) (rest : List Nat) (fuel : Nat)
    (hN : fat.boot.NumClusters < CLUST_EOFS)
    (hlinks : links_from fat c1 rest)
    (hend : CLUST_EOFS < fat_get_cl_next fat (rest.getLastD c1)) (hnodup : rest.Nodup)
    (hrange : ∀ c ∈ rest, CLUST_FIRST ≤ c ∧ c < fat.boot.NumClusters ∧
      bitmap_get usedbitmap c = false)
    (hmap : fat.boot.NumClusters ≤ 64 * usedbitmap.map.length)
    (hfuel : rest.length + 1 ≤ fuel) :
    ∃ ub, checkchain ask rdonly fuel fat usedbitmap c1
        = outcome.ok (FSOK, ⟨fat, ub, rest.length + 1⟩) ∧
      (∀ x, bitmap_get ub x = (decide (x ∈ rest) || bitmap_get usedbitmap x)) ∧
      ub.count % 2 ^ 64 = (usedbitmap.count + rest.length) % 2 ^ 64 ∧
      (usedbitmap.count < 2 ^ 64 → ub.count < 2 ^ 64) ∧
      ub.map.length = usedbitmap.map.length := by
  obtain ⟨k0, k2, kbad, keofs, keof, kdead⟩ := clust_consts
  have hlen := nodup_length_le rest fat.boot.NumClusters hnodup (fun x hx => (hrange x hx).2.1)
  obtain ⟨f, hf⟩ : ∃ f, fuel = rest.length + (f + 1) := ⟨fuel - rest.length - 1, by omega⟩
  obtain ⟨ub, h1, h2, h3, h4, h5⟩ := checkchain_loop_path ask rdonly rest c1
    ⟨fat, usedbitmap, 0⟩ (f + 1) hlinks hnodup hrange hmap
    (by show 0 < 2 ^ 64; exact Nat.two_pow_pos _)
  refine ⟨ub, ?_, h2, h3, h4, h5⟩
  unfold checkchain
  rw [hf, h1]
  unfold checkchain_loop
  have a1 : fat_get_cl_next fat (rest.getLastD c1) < CLUST_FIRST ∨
      fat_get_cl_next fat (rest.getLastD c1) > fat.boot.NumClusters := Or.inr (by omega)
  have a2 : fat_get_cl_next fat (rest.getLastD c1) > CLUST_EOFS := hend
  simp only
  rw [if_pos a1, if_pos a2]
  simp only [Nat.zero_add]
  rw [Nat.mod_eq_of_lt (show rest.length < 2 ^ 64 by omega),
    Nat.mod_eq_of_lt (show rest.length + 1 < 2 ^ 64 by omega)]

theorem chain_rests_sublist (chains : List (Nat × List Nat)) :
    (chain_rests chains).Sublist (chain_clusters chains) := by
  induction chains with
  | nil => exact List.Sublist.refl _
  | cons ch chains ih =>
    unfold chain_rests chain_clusters
    exact List.Sublist.append (List.sublist_cons_self _ _) ih

theorem chain_clusters_length (chains : List (Nat × List Nat)) :
    (chain_clusters chains).length = (chain_rests chains).length + chains.length := by
  induction chains with
  | nil => rfl
  | cons ch chains ih =>
    unfold chain_rests chain_clusters
    simp only [List.length_append, List.length_cons, ih]
    omega

/-- The clusters `c` with `CLUST_FIRST ≤ c < n` are the free, the bad and the
allocated ones. -/
theorem count_allocated_add (g : Nat → Nat) (n : Nat) :
    count_allocated g n + count_clusters g CLUST_FREE n + count_clusters g CLUST_BAD n
      = n - CLUST_FIRST := by
  obtain ⟨k0, k2, kbad, keofs, keof, kdead⟩ := clust_consts
  induction n with
  | zero => simp [count_allocated, count_clusters]
  | succ n ih =>
    have ha : count_allocated g (n + 1) = count_allocated g n +
        (if CLUST_FIRST ≤ n ∧ g n ≠ CLUST_FREE ∧ g n ≠ CLUST_BAD then 1 else 0) := by
      unfold count_allocated
      rw [List.range_succ, List.filter_append, List.length_append]
      by_cases h : CLUST_FIRST ≤ n ∧ g n ≠ CLUST_FREE ∧ g n ≠ CLUST_BAD
      · simp [h]
      · rw [if_neg h]
        simp [h]
    rw [ha, count_clusters_succ, count_clusters_succ]
    generalize g n = v
    split_ifs <;> omega

/-- A duplicate-free list of exactly the allocated clusters has their number as
its length. -/
theorem count_allocated_eq_length (g : Nat → Nat) (n : Nat) (l : List Nat) (hnodup : l.Nodup)
    (hmem : ∀ c, c ∈ l ↔ (CLUST_FIRST ≤ c ∧ c < n ∧ g c ≠ CLUST_FREE ∧ g c ≠ CLUST_BAD)) :
    l.length = count_allocated g n := by
  unfold count_allocated
  refine List.Perm.length_eq ((List.perm_ext_iff_of_nodup hnodup
    (List.Nodup.filter _ (List.nodup_range n))).mpr (fun c => ?_))
  rw [hmem c, List.mem_filter, List.mem_range]
  simp only [decide_eq_true_eq]
  constructor
  · rintro ⟨h1, h2, h3, h4⟩; exact ⟨h2, h1, h3, h4⟩
  · rintro ⟨h2, h1, h3, h4⟩; exact ⟨h1, h2, h3, h4⟩

/-- The counters that `readfat` leaves on a well-formed table count the free and
the bad entries of the table after the scan, and the used bitmap it leaves is
empty and holds a bit for every cluster. -/
theorem readfat_counters_final (ask : policy) (rdonly : Bool) (boot : bootblock)
    (buffer : List Nat) (r : readfat_result) (hwf : fat_wf ⟨boot, 0, buffer⟩)
    (h : readfat ask rdonly boot buffer = some r) :
    r.fat.boot.NumClusters = boot.NumClusters ∧
    r.fat.boot.NumFree = count_clusters (fat_get_cl_next r.fat) CLUST_FREE boot.NumClusters ∧
    r.fat.boot.NumBad = count_clusters (fat_get_cl_next r.fat) CLUST_BAD boot.NumClusters ∧
    r.usedbitmap.count = 0 ∧ (∀ x, bitmap_get r.usedbitmap x = false) ∧
    boot.NumClusters ≤ 64 * r.usedbitmap.map.length := by
  have hgeom : boot.NumClusters ≤ 2 ^ 30 := hwf.2.1
  obtain ⟨s1, hloop, _, hfat, _, hused⟩ := readfat_eq ask rdonly boot buffer r h
  have hspec := readfat_loop_spec ask rdonly (readfat_fat ask boot buffer)
    (readfat_ret0 ask boot buffer) s1 hgeom rfl rfl hloop
  obtain ⟨_, hnum, _, hf, hb⟩ := hspec
  rw [readfat_start_entries ask boot buffer hgeom] at hf hb
  have hf1 : s1.fat.boot.NumFree
      = count_clusters (fat_get_cl_next ⟨boot, 0, buffer⟩) CLUST_FREE boot.NumClusters := hf
  have hb1 : s1.fat.boot.NumBad
      = count_clusters (fat_get_cl_next ⟨boot, 0, buffer⟩) CLUST_BAD boot.NumClusters := hb
  obtain ⟨_, hent, _, _⟩ := readfat_loop_trunc ask rdonly (readfat_fat ask boot buffer)
    (readfat_ret0 ask boot buffer) s1 (readfat_fat_wf ask boot buffer hwf) rfl rfl hloop
  rw [readfat_start_entries ask boot buffer hgeom] at hent
  have h63 : boot.NumClusters + 63 < 2 ^ 64 := by omega
  have hinv := bitmap_inv_ctor ⟨0, []⟩ boot.NumClusters false h63
  rw [hfat, hused]
  refine ⟨hnum, ?_, ?_, ?_, fun x => bitmap_get_ctor_zero _ _ x h63, hinv.1⟩
  · rw [hf1]
    exact count_clusters_congr_iff _ _ _ _ (fun c h1 h2 =>
      ((trunc_entry_same_kind ask rdonly _ boot.NumClusters c _ hgeom
        (hent c h1 h2)).1).symm)
  · rw [hb1]
    exact count_clusters_congr_iff _ _ _ _ (fun c h1 h2 =>
      ((trunc_entry_same_kind ask rdonly _ boot.NumClusters c _ hgeom
        (hent c h1 h2)).2.1).symm)
  · rw [bitmap_ctor_zero _ _ h63]

/-! ## The dirty flag -/

set_option maxRecDepth 100000 in
theorem byte_and_f8 : ∀ b < 256, (b &&& 0xf8 = 0xf8 ↔ b / 8 = 31) := by decide
set_option maxRecDepth 100000 in
theorem byte_and_3f : ∀ b < 256, (b &&& 0x3f = 0x3f ↔ b % 64 = 63) := by decide
set_option maxRecDepth 100000 in
theorem byte_and_c0 : ∀ b < 256, (b &&& 0xc0 = 0xc0 ↔ b / 64 = 3) := by decide
set_option maxRecDepth 100000 in
theorem byte_and_0f : ∀ b < 256, (b &&& 0x0f = 0x0f ↔ b % 16 = 15) := by decide
set_option maxRecDepth 100000 in
theorem byte_and_03 : ∀ b < 256, (b &&& 0x03 = 0x03 ↔ b % 4 = 3) := by decide
set_option maxRecDepth 100000 in
theorem byte_and_0c : ∀ b < 256, (b &&& 0x0c = 0x0c ↔ b / 4 % 4 = 3) := by decide

/-- The inspector with its buffer allocated: on a FAT16 or FAT32 volume
`checkdirty` returns 1 exactly when the first sector of the table is read, the
header is recognised and both the clean flag and the hard error flag of
reserved entry 1 are 1, and 0 otherwise. -/
theorem checkdirty_allocated (boot : bootblock) (lseek_ok : Bool)
    (sector : Option (List Nat))
    (hmask : boot.ClustMask = CLUST16_MASK ∨ boot.ClustMask = CLUST32_MASK) :
    (checkdirty true lseek_ok sector boot = 1 ↔
      (lseek_ok = true ∧ ∃ buf, sector = some buf ∧ header_recognized boot buf ∧
        clean_flag boot buf = true ∧ hard_error_flag boot buf = true)) ∧
    (checkdirty true lseek_ok sector boot = 0 ↔
      ¬ (lseek_ok = true ∧ ∃ buf, sector = some buf ∧ header_recognized boot buf ∧
        clean_flag boot buf = true ∧ hard_error_flag boot buf = true)) := by
  have hm : ¬ (boot.ClustMask ≠ CLUST16_MASK ∧ boot.ClustMask ≠ CLUST32_MASK) := by
    rcases hmask with h | h <;> simp [h]
  unfold checkdirty
  rw [if_neg hm]
  cases lseek_ok with
  | false => simp
  | true =>
    cases sector with
    | none => simp
    | some buf =>
      have h0 := rdb_lt buf 0
      have h1 := rdb_lt buf 1
      have h2 := rdb_lt buf 2
      have h3 := rdb_lt buf 3
      have h4 := rdb_lt buf 4
      have h5 := rdb_lt buf 5
      have h6 := rdb_lt buf 6
      have h7 := rdb_lt buf 7
      have key : (header_recognized boot buf ∧ clean_flag boot buf = true ∧
          hard_error_flag boot buf = true) ↔
          (¬ (rdb buf 0 ≠ boot.bpbMedia ∨ rdb buf 1 ≠ 0xff) ∧
            if boot.ClustMask = CLUST16_MASK then
              ¬ ((rdb buf 2 &&& 0xf8) ≠ 0xf8 ∨ (rdb buf 3 &&& 0x3f) ≠ 0x3f) ∧
                (rdb buf 3 &&& 0xc0) = 0xc0
            else
              ¬ (rdb buf 2 ≠ 0xff ∨ (rdb buf 3 &&& 0x0f) ≠ 0x0f ∨
                  (rdb buf 4 &&& 0xf8) ≠ 0xf8 ∨ rdb buf 5 ≠ 0xff ∨ rdb buf 6 ≠ 0xff ∨
                  (rdb buf 7 &&& 0x03) ≠ 0x03) ∧
                (rdb buf 7 &&& 0x0c) = 0x0c) := by
        unfold header_recognized clean_flag hard_error_flag header_entry
        rcases hmask with h | h
        · have e0 : le16dec buf 0 = rdb buf 1 * 256 + rdb buf 0 := le16dec_eq buf 0
          have e1 : le16dec buf 2 = rdb buf 3 * 256 + rdb buf 2 := le16dec_eq buf 2
          have q1 := byte_and_f8 _ h2
          have q2 := byte_and_3f _ h3
          have q3 := byte_and_c0 _ h3
          simp only [h, if_true, Nat.mul_zero, Nat.mul_one, Nat.testBit_to_div_mod,
            decide_eq_true_eq, e0, e1, ne_eq, q1, q2, q3]
          omega
        · have hne : ¬ (CLUST32_MASK = CLUST16_MASK) := by decide
          have e0 : le32dec buf 0 = rdb buf 3 * 16777216 + rdb buf 2 * 65536
              + rdb buf 1 * 256 + rdb buf 0 := le32dec_eq buf 0
          have e1 : le32dec buf 4 = rdb buf 7 * 16777216 + rdb buf 6 * 65536
              + rdb buf 5 * 256 + rdb buf 4 := le32dec_eq buf 4
          have q1 := byte_and_0f _ h3
          have q2 := byte_and_f8 _ h4
          have q3 := byte_and_03 _ h7
          have q4 := byte_and_0c _ h7
          simp only [h, hne, if_false, Nat.mul_zero, Nat.mul_one, Nat.testBit_to_div_mod,
            decide_eq_true_eq, e0, e1, ne_eq, q1, q2, q3, q4]
          omega
      simp only [Bool.not_true, Bool.false_eq_true, if_false, not_false_eq_true, true_and,
        Option.some.injEq, exists_eq_left', key, not_true_eq_false]
      split_ifs <;> simp_all

theorem readfat_step_fatsize (ask : policy) (rdonly : Bool) (cl : Nat) (s s1 : scan_state)
    (h : readfat_step ask rdonly cl s = some s1) : s1.fat.fatsize = s.fat.fatsize := by
  rcases readfat_step_cases ask rdonly cl s s1 h with
    ⟨_, hb, _, e⟩ | ⟨_, hb, _, e⟩ | ⟨_, _, e⟩ | ⟨_, _, e⟩ | ⟨_, _, _, _, hb, _, e⟩ |
    ⟨_, _, _, _, e⟩ | ⟨_, _, e⟩
  · rw [e]
  · rw [e]
  · rw [e]; exact fat_set_cl_next_fatsize _ _ _ _
  · rw [e]
  · rw [e]
  · rw [e]
  · rw [e]

theorem readfat_loop_fatsize (ask : policy) (rdonly : Bool) (k : Nat) :
    ∀ (cl : Nat) (s s1 : scan_state), readfat_loop ask rdonly k cl s = some s1 →
      s1.fat.fatsize = s.fat.fatsize := by
  induction k with
  | zero =>
    intro cl s s1 h
    simp only [readfat_loop, Option.some.injEq] at h
    rw [← h]
  | succ k ih =>
    intro cl s s1 h
    simp only [readfat_loop] at h
    cases hs : readfat_step ask rdonly cl s with
    | none => rw [hs] at h; exact absurd h (by simp)
    | some s2 =>
      rw [hs] at h
      rw [ih (cl + 1) s2 s1 h, readfat_step_fatsize ask rdonly cl s s2 hs]

/-- The descriptor that `readfat` returns has the field `fatsize` at 0: it comes
from `calloc` and the field is never assigned. -/
theorem readfat_fatsize (ask : policy) (rdonly : Bool) (boot : bootblock) (buffer : List Nat)
    (r : readfat_result) (h : readfat ask rdonly boot buffer = some r) :
    r.fat.fatsize = 0 := by
  obtain ⟨s1, hloop, _, hfat, _, _⟩ := readfat_eq ask rdonly boot buffer r h
  rw [hfat, readfat_loop_fatsize ask rdonly _ _ _ s1 hloop]
  rfl

/-- Every write that `writefat` issues hands over the first `fatsize` bytes of
the buffer. -/
theorem writefat_record (lseek_ok : Nat → Bool) (write_ret : Nat → List Nat → Nat)
    (boot : bootblock) (fat : fat_descriptor) (l : List Nat) :
    ∀ (st : Nat × List (Nat × List Nat)),
      (∀ w ∈ st.2, w.2 = fat.fatbuf.take fat.fatsize) →
      ∀ w ∈ (l.foldl (fun st i => writefat_step lseek_ok write_ret boot fat i st) st).2,
        w.2 = fat.fatbuf.take fat.fatsize := by
  induction l with
  | nil => intro st hst w hw; exact hst w hw
  | cons i l ih =>
    intro st hst
    simp only [List.foldl_cons]
    apply ih
    intro w hw
    unfold writefat_step at hw
    simp only at hw
    split_ifs at hw
    · exact hst w hw
    · rcases List.mem_append.mp hw with h1 | h1
      · exact hst w h1
      · rw [List.mem_singleton.mp h1]
    · rcases List.mem_append.mp hw with h1 | h1
      · exact hst w h1
      · rw [List.mem_singleton.mp h1]

/-- C21 (what the code does): for every descriptor that `readfat` returns the
field `fatsize` is 0, so whatever the seeks and writes return, every write
that `writefat` issues hands over no byte of the table: the length written to
each copy is 0, not `FATsecs * bpbBytesPerSec`. -/
theorem writefat_after_readfat_writes_nothing (ask : policy) (rdonly is_mmapped : Bool)
    (boot : bootblock) (buffer : List Nat) (r : readfat_result)
    (lseek_ok : Nat → Bool) (write_ret : Nat → List Nat → Nat)
    (h : readfat ask rdonly boot buffer = some r) :
    r.fat.fatsize = 0 ∧
    ∀ w ∈ (writefat is_mmapped lseek_ok write_ret r.fat.boot r.fat).2, w.2 = [] := by
  have hz := readfat_fatsize ask rdonly boot buffer r h
  refine ⟨hz, fun w hw => ?_⟩
  have := writefat_record lseek_ok write_ret r.fat.boot r.fat _ (FSOK, [])
    (fun w hw => absurd hw (List.not_mem_nil _)) w hw
  rw [this, hz]
  rfl

/-! ## The status of `readfat` -/

/-- C22 (evaluation at the failing input): on the writable 12-bit table
`fat12_odd`, whose first signature byte is 0 instead of the media byte, under
the accepting policy `readfat` stores the media byte (the buffer afterwards is
`fat12_lost`, which differs from the one loaded) and returns `FSOK`, a status
without `FSFATMOD`. -/
theorem readfat_signature_fix_unreported :
    readfat policy_yes false (boot12 10) fat12_odd
      = some ⟨FSOK, lost12_state.fat, lost12_state.usedbitmap, lost12_state.headbitmap⟩ ∧
    lost12_state.fat.fatbuf = fat12_lost ∧ fat12_lost ≠ fat12_odd ∧
    FSOK &&& FSFATMOD = 0 := by
  decide

/-- The status that `readfat` returns on a well-formed table is the status of
the signature check, with `FSFATMOD` added if a truncation was accepted. -/
theorem readfat_ret_cases (ask : policy) (rdonly : Bool) (boot : bootblock)
    (buffer : List Nat) (r : readfat_result) (hwf : fat_wf ⟨boot, 0, buffer⟩)
    (h : readfat ask rdonly boot buffer = some r) :
    ((∃ c, CLUST_FIRST ≤ c ∧ c < boot.NumClusters ∧
        bad_link boot.NumClusters (fat_get_cl_next ⟨boot, 0, buffer⟩ c) ∧
        ask 0 question.Truncate c = true) →
      r.ret = readfat_ret0 ask boot buffer ||| FSFATMOD) ∧
    ((¬ ∃ c, CLUST_FIRST ≤ c ∧ c < boot.NumClusters ∧
        bad_link boot.NumClusters (fat_get_cl_next ⟨boot, 0, buffer⟩ c) ∧
        ask 0 question.Truncate c = true) →
      r.ret = readfat_ret0 ask boot buffer) ∧
    ∀ c, CLUST_FIRST ≤ c → c < boot.NumClusters →
      fat_get_cl_next r.fat c =
        if bad_link boot.NumClusters (fat_get_cl_next ⟨boot, 0, buffer⟩ c) ∧
          ask 0 question.Truncate c = true ∧ rdonly = false
        then CLUST_EOF else fat_get_cl_next ⟨boot, 0, buffer⟩ c := by
  have hgeom : boot.NumClusters ≤ 2 ^ 30 := hwf.2.1
  obtain ⟨s1, hloop, hret, hfat, _, _⟩ := readfat_eq ask rdonly boot buffer r h
  obtain ⟨_, hent, hyes, hno⟩ := readfat_loop_trunc ask rdonly (readfat_fat ask boot buffer)
    (readfat_ret0 ask boot buffer) s1 (readfat_fat_wf ask boot buffer hwf) rfl rfl hloop
  rw [readfat_start_entries ask boot buffer hgeom] at hent hyes hno
  rw [hret, hfat]
  exact ⟨hyes, hno, hent⟩

/-- C23 (what the code does): when `readfat` completes on a well-formed table,
a cluster whose successor is a bad link (out of range or reserved but not
end-of-chain) and whose truncation the operator declines keeps its entry, and
the declined truncation adds nothing to the status: the status never carries
`FSERROR` (nor `FSFATAL`), and when every such truncation is declined it
carries no `FSFATMOD` either, being the status of the signature check (`FSOK` or
`FSDIRTY`). -/
theorem readfat_declined_not_reported (ask : policy) (rdonly : Bool) (boot : bootblock)
    (buffer : List Nat) (r : readfat_result) (hwf : fat_wf ⟨boot, 0, buffer⟩)
    (h : readfat ask rdonly boot buffer = some r) :
    r.ret &&& FSERROR = 0 ∧ r.ret &&& FSFATAL = 0 ∧
    (∀ c, CLUST_FIRST ≤ c → c < boot.NumClusters →
      bad_link boot.NumClusters (fat_get_cl_next ⟨boot, 0, buffer⟩ c) →
      ask 0 question.Truncate c = false →
      fat_get_cl_next r.fat c = fat_get_cl_next ⟨boot, 0, buffer⟩ c) ∧
    ((∀ c, CLUST_FIRST ≤ c → c < boot.NumClusters →
        bad_link boot.NumClusters (fat_get_cl_next ⟨boot, 0, buffer⟩ c) →
        ask 0 question.Truncate c = false) →
      (r.ret = FSOK ∨ r.ret = FSOK ||| FSDIRTY) ∧ r.ret &&& FSFATMOD = 0) := by
  obtain ⟨hyes, hno, hent⟩ := readfat_ret_cases ask rdonly boot buffer r hwf h
  have hsig := readfat_signature_ret ask (reset_counters boot) buffer
  have hsig0 : readfat_ret0 ask boot buffer = FSOK ∨
      readfat_ret0 ask boot buffer = FSOK ||| FSDIRTY := hsig
  have hcases : r.ret = readfat_ret0 ask boot buffer ∨
      r.ret = readfat_ret0 ask boot buffer ||| FSFATMOD := by
    by_cases hex : ∃ c, CLUST_FIRST ≤ c ∧ c < boot.NumClusters ∧
        bad_link boot.NumClusters (fat_get_cl_next ⟨boot, 0, buffer⟩ c) ∧
        ask 0 question.Truncate c = true
    · exact Or.inr (hyes hex)
    · exact Or.inl (hno hex)
  refine ⟨?_, ?_, fun c h1 h2 hb hdecl => ?_, fun hall => ?_⟩
  · rcases hcases with e | e <;> rcases hsig0 with e0 | e0 <;> rw [e, e0] <;> decide
  · rcases hcases with e | e <;> rcases hsig0 with e0 | e0 <;> rw [e, e0] <;> decide
  · rw [hent c h1 h2, hdecl]
    simp
  · have hex : ¬ ∃ c, CLUST_FIRST ≤ c ∧ c < boot.NumClusters ∧
        bad_link boot.NumClusters (fat_get_cl_next ⟨boot, 0, buffer⟩ c) ∧
        ask 0 question.Truncate c = true := by
      rintro ⟨c, h1, h2, hb, hy⟩
      rw [hall c h1 h2 hb] at hy
      exact absurd hy (by simp)
    have e := hno hex
    rcases hsig0 with e0 | e0
    · rw [e, e0]; exact ⟨Or.inl rfl, by decide⟩
    · rw [e, e0]; exact ⟨Or.inr rfl, by decide⟩

/-- C24 (evaluation at the failing input): on the 12-bit table
`fat12_link_to_free`, in which cluster 2 links to cluster 3 and cluster 3 is
free, the scan of `readfat` clears the head bit of cluster 3 when it visits
cluster 2 and clears it again when it visits cluster 3: the assertion of
`bitmap_clear` fails and `readfat` does not return. -/
theorem readfat_clears_head_twice :
    fat_get_cl_next ⟨boot12 8, 0, fat12_link_to_free⟩ 2 = 3 ∧
    fat_get_cl_next ⟨boot12 8, 0, fat12_link_to_free⟩ 3 = CLUST_FREE ∧
    (readfat_step policy_yes false 2
        ⟨⟨boot12 8, 0, fat12_link_to_free⟩, ⟨8, [2 ^ 64 - 1]⟩, FSOK⟩).map
      (fun s => (bitmap_get s.headbitmap 3, bitmap_clear s.headbitmap 3))
      = some (false, none) ∧
    readfat policy_yes false (boot12 8) fat12_link_to_free = none := by
  decide

/-! ## The range of the chain walker -/

/-- C25 (evaluation at the failing input): on the 12-bit table `fat12_edge` with
eight clusters, whose cluster 2 has the successor 8 (the value of
`NumClusters`), `readfat` under an operator who declines the truncation leaves
the table as loaded.  `checkchain` from head 2 then takes 8 for a cluster in
range: it sets the used bit of cluster 8 and follows it, reads the entry of
cluster 8 (`CLUST_DEAD`, the accessor's answer for a cluster out of range) and
offers the truncation at cluster 8, not at its predecessor 2.  Declined, the
call returns `FSERROR`; accepted, the write to cluster 8 is refused and the
call returns `FSFATMOD` with the entry of cluster 2 still 8. -/
theorem checkchain_follows_num_clusters :
    (readfat policy_keep_links false (boot12 8) fat12_edge.fatbuf).map
        (fun r => (r.ret, r.fat.fatbuf, r.usedbitmap))
      = some (FSOK, fat12_edge.fatbuf, ⟨0, [0]⟩) ∧
    fat_get_cl_next fat12_edge 2 = 8 ∧ fat12_edge.boot.NumClusters = 8 ∧
    checkchain policy_keep_links false 8 fat12_edge ⟨0, [0]⟩ 2
      = outcome.ok (FSERROR, ⟨fat12_edge, ⟨1, [256]⟩, 1⟩) ∧
    checkchain policy_yes false 8 fat12_edge ⟨0, [0]⟩ 2
      = outcome.ok (FSFATMOD, ⟨fat12_edge, ⟨1, [256]⟩, 1⟩) ∧
    bitmap_get ⟨1, [256]⟩ 8 = true ∧
    fat_get_cl_next fat12_edge 8 = CLUST_DEAD ∧
    fat_set_cl_next false fat12_edge 8 CLUST_EOF = (FSFATAL, fat12_edge) := by
  decide

/-! ## The block skip of the lost-chain scan -/

/-- The skip branch of the scan of `checklost`: at a cluster `head` that is a
multiple of `LONG_BIT` and whose word of the head bitmap is empty, the scan
goes on at cluster `head + LONG_BIT + 1` and takes `LONG_BIT` off the number of
heads left to find. -/
theorem checklost_loop_skip (col : collaborators) (ask : policy) (rdonly : Bool)
    (cfuel fuel head chains : Nat) (s : lost_state)
    (hchains : chains > 0) (hhead : head < s.fat.boot.NumClusters)
    (hgeom : s.fat.boot.NumClusters ≤ 2 ^ 30)
    (halign : head % LONG_BIT = 0)
    (hempty : bitmap_any_in_range s.headbitmap head = true) :
    checklost_loop col ask rdonly cfuel (fuel + 1) head chains s
      = checklost_loop col ask rdonly cfuel fuel (head + LONG_BIT + 1)
          (if chains ≥ LONG_BIT then chains - LONG_BIT else 0) s := by
  conv => lhs; unfold checklost_loop
  rw [if_pos ⟨hchains, hhead⟩, if_pos ⟨halign, hempty⟩]
  have e : ((head + LONG_BIT) % 2 ^ 32 + 1) % 2 ^ 32 = head + LONG_BIT + 1 := by
    unfold LONG_BIT
    omega
  rw [e]

set_option maxRecDepth 1000000 in
/-- C26 (evaluation at the failing input): in the state `lost16_state`, which
`readfat` leaves on a 16-bit volume with 256 clusters, the word of the head
bitmap for clusters 64 to 127 is empty and cluster 128 is the head of a lost
chain.  The scan of `checklost` skips from cluster 64 to cluster 129: the only
head it walks and reports is 129, and cluster 128, which lies outside the
block tested empty, is passed over with its head bit still set. -/
theorem checklost_skips_cluster_after_block :
    readfat policy_yes false (boot16 256) lost16_state.fat.fatbuf
      = some ⟨FSOK, lost16_state.fat, lost16_state.usedbitmap, lost16_state.headbitmap⟩ ∧
    bitmap_any_in_range lost16_state.headbitmap 64 = true ∧
    bitmap_get lost16_state.headbitmap 128 = true ∧
    fat_get_cl_next lost16_state.fat 128 = CLUST_EOF ∧
    checklost collab_ok policy_yes false 300 300 lost16_state
      = outcome.ok (FSOK, ⟨lost16_state.fat, ⟨0, []⟩, lost16_state.headbitmap, FSOK,
          [129], [(129, 1)]⟩) :=
  ⟨by decide, by decide, by decide, by decide, by decide⟩

/-! ## Termination of the chain walker -/

/-- Changing the entry of one cluster from `v` to another value takes one off the
count of the clusters with entry `v`. -/
theorem count_clusters_flip (g g1 : Nat → Nat) (v x : Nat) (hx : CLUST_FIRST ≤ x)
    (hgx : g x = v) (hg1x : g1 x ≠ v) (hoth : ∀ c, c ≠ x → g1 c = g c) (n : Nat) :
    count_clusters g1 v n + (if x < n then 1 else 0) = count_clusters g v n := by
  induction n with
  | zero => simp [count_clusters]
  | succ n ih =>
    rw [count_clusters_succ, count_clusters_succ]
    by_cases hxn : x = n
    · subst hxn
      have e1 : (if CLUST_FIRST ≤ x ∧ g1 x = v then 1 else 0) = 0 :=
        if_neg (fun hh => hg1x hh.2)
      have e2 : (if CLUST_FIRST ≤ x ∧ g x = v then 1 else 0) = 1 := if_pos ⟨hx, hgx⟩
      have e3 : (if x < x + 1 then 1 else 0) = 1 := if_pos (by omega)
      have e4 : (if x < x then 1 else 0) = 0 := if_neg (by omega)
      rw [e4] at ih
      rw [e1, e2, e3]
      omega
    · rw [hoth n (fun e => hxn e.symm)]
      by_cases hlt : x < n
      · have e3 : (if x < n + 1 then 1 else 0) = 1 := if_pos (by omega)
        have e4 : (if x < n then 1 else 0) = 1 := if_pos hlt
        rw [e4] at ih
        rw [e3]
        omega
      · have e3 : (if x < n + 1 then 1 else 0) = 0 := if_neg (by omega)
        have e4 : (if x < n then 1 else 0) = 0 := if_neg hlt
        rw [e4] at ih
        rw [e3]
        omega

theorem unused_count_le (lbp : long_bitmap_t) (n : Nat) :
    unused_count lbp n ≤ n - CLUST_FIRST := by
  have h := count_allocated_add (fun c => if bitmap_get lbp c = true then 1 else 0) n
  have e : unused_count lbp n
      = count_clusters (fun c => if bitmap_get lbp c = true then 1 else 0) CLUST_FREE n := rfl
  omega

/-- Setting the used bit of a cluster in range takes one off the count of unused
clusters. -/
theorem unused_count_set (lbp lbp1 : long_bitmap_t) (x n : Nat)
    (hset : bitmap_set lbp x = some lbp1) (hin : x / 64 < lbp.map.length)
    (hx1 : CLUST_FIRST ≤ x) (hx2 : x < n) (hclear : bitmap_get lbp x = false) :
    unused_count lbp1 n + 1 = unused_count lbp n := by
  obtain ⟨hbits, _, _⟩ := bitmap_set_bits lbp lbp1 x hset hin
  have h := count_clusters_flip (fun c => if bitmap_get lbp c = true then 1 else 0)
    (fun c => if bitmap_get lbp1 c = true then 1 else 0) 0 x hx1
    (by simp [hclear]) (by simp [hbits x])
    (fun c hc => by simp [hbits c, hc]) n
  rw [if_pos hx2] at h
  exact h

/-- The loop of `checkchain` at a cluster that is not below `NumClusters`: the
accessor answers `CLUST_DEAD` and the call returns in this iteration. -/
theorem checkchain_loop_outside (ask : policy) (rdonly : Bool) (fuel cur : Nat)
    (s : chain_state) (hgeom : s.fat.boot.NumClusters ≤ 2 ^ 30)
    (hcur : cur ≥ s.fat.boot.NumClusters) :
    ∃ r, checkchain_loop ask rdonly (fuel + 1) cur s = outcome.ok r := by
  obtain ⟨k0, k2, kbad, keofs, keof, kdead⟩ := clust_consts
  have hdead : fat_get_cl_next s.fat cur = CLUST_DEAD := by
    unfold fat_get_cl_next
    rw [if_pos (Or.inr hcur)]
  unfold checkchain_loop
  simp only [hdead]
  have a1 : CLUST_DEAD < CLUST_FIRST ∨ CLUST_DEAD > s.fat.boot.NumClusters := Or.inr (by omega)
  have a2 : ¬ (CLUST_DEAD > CLUST_EOFS) := by omega
  rw [if_pos a1, if_neg a2]
  split_ifs
  · exact ⟨_, rfl⟩
  · exact ⟨_, rfl⟩

/-- One iteration of the loop of `checkchain`: the call returns, or the
successor lies in `[CLUST_FIRST, NumClusters]`, was unused, has its used bit
set, and the loop goes on there. -/
theorem checkchain_loop_step (ask : policy) (rdonly : Bool) (fuel cur : Nat)
    (s : chain_state) :
    (∃ r, checkchain_loop ask rdonly (fuel + 1) cur s = outcome.ok r) ∨
    (∃ ub, CLUST_FIRST ≤ fat_get_cl_next s.fat cur ∧
      fat_get_cl_next s.fat cur ≤ s.fat.boot.NumClusters ∧
      bitmap_get s.usedbitmap (fat_get_cl_next s.fat cur) = false ∧
      bitmap_set s.usedbitmap (fat_get_cl_next s.fat cur) = some ub ∧
      checkchain_loop ask rdonly (fuel + 1) cur s
        = checkchain_loop ask rdonly fuel (fat_get_cl_next s.fat cur)
            ⟨s.fat, ub, (s.chainsize + 1) % 2 ^ 64⟩) := by
  by_cases h1 : fat_get_cl_next s.fat cur < CLUST_FIRST ∨
      fat_get_cl_next s.fat cur > s.fat.boot.NumClusters
  · left
    unfold checkchain_loop
    simp only
    rw [if_pos h1]
    split_ifs
    · exact ⟨_, rfl⟩
    · exact ⟨_, rfl⟩
    · exact ⟨_, rfl⟩
  · cases hb : bitmap_get s.usedbitmap (fat_get_cl_next s.fat cur) with
    | true =>
      left
      unfold checkchain_loop
      simp only
      rw [if_neg h1]
      simp only [hb, if_true]
      split_ifs
      · exact ⟨_, rfl⟩
      · exact ⟨_, rfl⟩
    | false =>
      right
      cases hs : bitmap_set s.usedbitmap (fat_get_cl_next s.fat cur) with
      | none =>
        rw [bitmap_set_eq, if_pos hb] at hs
        exact absurd hs (by simp)
      | some ub =>
        refine ⟨ub, by omega, by omega, rfl, rfl, ?_⟩
        conv => lhs; unfold checkchain_loop
        simp only
        rw [if_neg h1]
        simp only [hb, Bool.false_eq_true, if_false, hs]

/-- The loop of `checkchain` returns within two iterations more than there are
unused clusters in range: an iteration that goes on has set the used bit of a
cluster that was unused. -/
theorem checkchain_loop_returns (ask : policy) (rdonly : Bool) (k : Nat) :
    ∀ (cur : Nat) (s : chain_state) (fuel : Nat),
      s.fat.boot.NumClusters ≤ 2 ^ 30 →
      s.fat.boot.NumClusters ≤ 64 * s.usedbitmap.map.length →
      unused_count s.usedbitmap s.fat.boot.NumClusters ≤ k → k + 2 ≤ fuel →
      ∃ r, checkchain_loop ask rdonly fuel cur s = outcome.ok r := by
  induction k with
  | zero =>
    intro cur s fuel hgeom hmap hk hfuel
    obtain ⟨f, hf⟩ : ∃ f, fuel = f + 2 := ⟨fuel - 2, by omega⟩
    subst hf
    rcases checkchain_loop_step ask rdonly (f + 1) cur s with h | ⟨ub, h1, h2, h3, h4, h5⟩
    · exact h
    · rw [h5]
      by_cases hN : fat_get_cl_next s.fat cur < s.fat.boot.NumClusters
      · have := unused_count_set s.usedbitmap ub (fat_get_cl_next s.fat cur)
          s.fat.boot.NumClusters h4 (by omega) h1 hN h3
        omega
      · exact checkchain_loop_outside ask rdonly f _ ⟨s.fat, ub, (s.chainsize + 1) % 2 ^ 64⟩
          hgeom (by show fat_get_cl_next s.fat cur ≥ s.fat.boot.NumClusters; omega)
  | succ k ih =>
    intro cur s fuel hgeom hmap hk hfuel
    obtain ⟨f, hf⟩ : ∃ f, fuel = f + 2 := ⟨fuel - 2, by omega⟩
    subst hf
    rcases checkchain_loop_step ask rdonly (f + 1) cur s with h | ⟨ub, h1, h2, h3, h4, h5⟩
    · exact h
    · rw [h5]
      by_cases hN : fat_get_cl_next s.fat cur < s.fat.boot.NumClusters
      · have hdec := unused_count_set s.usedbitmap ub (fat_get_cl_next s.fat cur)
          s.fat.boot.NumClusters h4 (by omega) h1 hN h3
        have hlen := bitmap_set_map_length s.usedbitmap ub (fat_get_cl_next s.fat cur) h4
        exact ih (fat_get_cl_next s.fat cur) ⟨s.fat, ub, (s.chainsize + 1) % 2 ^ 64⟩ (f + 1)
          hgeom (by show s.fat.boot.NumClusters ≤ 64 * ub.map.length; rw [hlen]; exact hmap)
          (by show unused_count ub s.fat.boot.NumClusters ≤ k; omega) (by omega)
      · exact checkchain_loop_outside ask rdonly f _ ⟨s.fat, ub, (s.chainsize + 1) % 2 ^ 64⟩
          hgeom (by show fat_get_cl_next s.fat cur ≥ s.fat.boot.NumClusters; omega)

/-- The walk from a head in range returns within `NumClusters` iterations
whenever the bit `NumClusters` has its word inside the used bitmap: every bit
that the walk tests or sets is then inside the map, and each iteration that
goes on has set a used bit that was clear. -/
theorem checkchain_returns_inside_map (ask : policy) (rdonly : Bool) (fat : fat_descriptor)
    (usedbitmap : long_bitmap_t) (head : Nat)
    (hgeom : fat.boot.NumClusters ≤ 2 ^ 30)
    (hin : bitmap_word_inside usedbitmap fat.boot.NumClusters = true)
    (hhead : CLUST_FIRST ≤ head ∧ head < fat.boot.NumClusters) :
    ∃ r, checkchain ask rdonly fat.boot.NumClusters fat usedbitmap head = outcome.ok r := by
  obtain ⟨k0, k2, kbad, keofs, keof, kdead⟩ := clust_consts
  have hle := unused_count_le usedbitmap fat.boot.NumClusters
  have hmap : fat.boot.NumClusters ≤ 64 * usedbitmap.map.length := by
    unfold bitmap_word_inside LONG_BIT at hin
    have := of_decide_eq_true hin
    omega
  unfold checkchain
  exact checkchain_loop_returns ask rdonly (fat.boot.NumClusters - CLUST_FIRST) head
    ⟨fat, usedbitmap, 0⟩ fat.boot.NumClusters hgeom hmap hle (by omega)

set_option maxRecDepth 1000000 in
/-- C27 (evaluation at the failing input): on the 12-bit volume with 64 clusters
whose table `fat12_edge64` gives cluster 2 the successor 64, the value of
`NumClusters`, `readfat` under the declining policy leaves the entry as it is
and builds a used bitmap of one word, which holds the bits 0 to 63.  In the
walk from head 2 the successor 64 passes the range test of `checkchain`, which
turns away only values above `NumClusters`, so the walk tests and sets the
used bit 64, whose word `map[1]` lies outside the map.  The model, which reads
0 there and stores nothing, goes on and returns `FSERROR` with the count of the
bitmap at 1 and no bit of the map set. -/
theorem checkchain_bit_past_bitmap :
    readfat policy_no false (boot12 64) fat12_edge64
      = some ⟨FSOK, ⟨{ boot12 64 with NumFree := 61 }, 0, fat12_edge64⟩, ⟨0, [0]⟩, ⟨3, [7]⟩⟩ ∧
    fat_get_cl_next ⟨{ boot12 64 with NumFree := 61 }, 0, fat12_edge64⟩ 2 = 64 ∧
    ¬ (64 < CLUST_FIRST ∨ 64 > (boot12 64).NumClusters) ∧
    64 / LONG_BIT = 1 ∧
    (bitmap_ctor true ⟨0, []⟩ (boot12 64).NumClusters false).2 = ⟨0, [0]⟩ ∧
    bitmap_word_inside ⟨0, [0]⟩ 64 = false ∧
    checkchain policy_no false 64 ⟨{ boot12 64 with NumFree := 61 }, 0, fat12_edge64⟩
        ⟨0, [0]⟩ 2
      = outcome.ok (FSERROR,
          ⟨⟨{ boot12 64 with NumFree := 61 }, 0, fat12_edge64⟩, ⟨1, [0]⟩, 1⟩) :=
  ⟨by decide, by decide, by decide, by decide, by decide, by decide, by decide⟩

/-! ## The 32-bit write -/

/-- C28 (amended): on a writable 32-bit table with at most `2 ^ 30` clusters, for
a valid cluster `cl` whose word lies inside the buffer and any value `v`,
`fat_set_cl_next` returns 0 and stores the masked value as a whole 32-bit
word: afterwards the little-endian word at byte offset `4 * cl` is
`v mod 2 ^ 28`, so its low 28 bits are those of `v` and its four reserved high
bits are 0 whatever they held before; every byte outside the word is
unchanged.  `fat_get_cl_next` reads the low 28 bits of the word only. -/
theorem fat32_set_writes_whole_word (fat : fat_descriptor) (cl v : Nat)
    (hmask : fat.boot.ClustMask = CLUST32_MASK)
    (hgeom : fat.boot.NumClusters ≤ 2 ^ 30)
    (hlo : CLUST_FIRST ≤ cl) (hhi : cl < fat.boot.NumClusters)
    (hbuf : 4 * cl + 4 ≤ fat.fatbuf.length) :
    (fat_set_cl_next false fat cl v).1 = 0 ∧
    le32dec (fat_set_cl_next false fat cl v).2.fatbuf (4 * cl) = v % 2 ^ 28 ∧
    le32dec (fat_set_cl_next false fat cl v).2.fatbuf (4 * cl) / 2 ^ 28 = 0 ∧
    (∀ j, j < 4 * cl ∨ 4 * cl + 4 ≤ j →
      rdb (fat_set_cl_next false fat cl v).2.fatbuf j = rdb fat.fatbuf j) ∧
    fat_get_cl_next fat cl
      = sx 0xffffff7 0xf0000000 (le32dec fat.fatbuf (4 * cl) % 2 ^ 28) := by
  obtain ⟨d1, d2, d3⟩ := mask_distinct
  have hp := fat32_ptr_eq cl (by omega)
  have n12 : ¬ fat.boot.ClustMask = CLUST12_MASK := by rw [hmask]; exact d2.symm
  have n16 : ¬ fat.boot.ClustMask = CLUST16_MASK := by rw [hmask]; exact d3.symm
  have hset : fat_set_cl_next false fat cl v = fat_set_fat32_next fat cl v := by
    rw [fat_set_cl_next_valid fat cl v hlo hhi, if_neg n12, if_neg n16, if_pos hmask]
  have hget : fat_get_cl_next fat cl = fat_get_fat32_next fat cl := by
    rw [fat_get_cl_next_valid fat cl hlo hhi, if_neg n12, if_neg n16, if_pos hmask]
  have hword : le32dec (fat_set_fat32_next fat cl v).2.fatbuf (4 * cl) = v % 2 ^ 28 := by
    rw [le32dec_eq]
    simp only [fat32_set_rdb, hp]
    have c3 : 4 * cl + 3 < fat.fatbuf.length := by omega
    have c2 : 4 * cl + 2 < fat.fatbuf.length := by omega
    have c1 : 4 * cl + 1 < fat.fatbuf.length := by omega
    have c0 : 4 * cl < fat.fatbuf.length := by omega
    have m1 : ¬ (4 * cl + 2 = 4 * cl + 3) := by omega
    have m2 : ¬ (4 * cl + 1 = 4 * cl + 3) := by omega
    have m3 : ¬ (4 * cl + 1 = 4 * cl + 2) := by omega
    have m4 : ¬ (4 * cl = 4 * cl + 3) := by omega
    have m5 : ¬ (4 * cl = 4 * cl + 2) := by omega
    have m6 : ¬ (4 * cl = 4 * cl + 1) := by omega
    simp only [c3, c2, c1, c0, m1, m2, m3, m4, m5, m6, and_self, true_and, false_and,
      if_true, if_false]
    omega
  refine ⟨by rw [hset]; rfl, by rw [hset]; exact hword, ?_, fun j hj => ?_, ?_⟩
  · rw [hset, hword]
    exact Nat.div_eq_of_lt (Nat.mod_lt _ (by decide))
  · rw [hset, fat32_set_rdb]
    simp only [hp]
    rw [if_neg (by omega), if_neg (by omega), if_neg (by omega), if_neg (by omega)]
  · rw [hget, fat32_get_eq, le32dec_eq]
    simp only [hp, sx]
    have h0 := rdb_lt fat.fatbuf (4 * cl)
    have h1 := rdb_lt fat.fatbuf (4 * cl + 1)
    have h2 := rdb_lt fat.fatbuf (4 * cl + 2)
    have h3 := rdb_lt fat.fatbuf (4 * cl + 3)
    have e : (rdb fat.fatbuf (4 * cl + 3) * 16777216 + rdb fat.fatbuf (4 * cl + 2) * 65536
        + rdb fat.fatbuf (4 * cl + 1) * 256 + rdb fat.fatbuf (4 * cl)) % 2 ^ 28
        = rdb fat.fatbuf (4 * cl + 3) % 16 * 16777216 + rdb fat.fatbuf (4 * cl + 2) * 65536
          + rdb fat.fatbuf (4 * cl + 1) * 256 + rdb fat.fatbuf (4 * cl) := by
      omega
    rw [e]

/-! ## The used count after the lost-chain pass -/

/-- A cluster of a list of chains is the head of one of the chains or a cluster
after its head. -/
theorem mem_chain_clusters (chains : List (Nat × List Nat)) (x : Nat) :
    x ∈ chain_clusters chains ↔ ∃ ch ∈ chains, x = ch.1 ∨ x ∈ ch.2 := by
  induction chains with
  | nil => simp [chain_clusters]
  | cons c cs ih =>
    unfold chain_clusters
    rw [List.mem_append, ih, List.mem_cons]
    constructor
    · rintro (h | ⟨ch, h1, h2⟩)
      · exact ⟨c, List.mem_cons_self _ _, h⟩
      · exact ⟨ch, List.mem_cons_of_mem _ h1, h2⟩
    · rintro ⟨ch, h1, h2⟩
      rcases List.mem_cons.mp h1 with e | e
      · subst e; exact Or.inl h2
      · exact Or.inr ⟨ch, e, h2⟩

/-- A cluster after the heads of a list of chains is a cluster after the head
of one of the chains. -/
theorem mem_chain_rests (chains : List (Nat × List Nat)) (x : Nat) :
    x ∈ chain_rests chains ↔ ∃ ch ∈ chains, x ∈ ch.2 := by
  induction chains with
  | nil => simp [chain_rests]
  | cons c cs ih =>
    unfold chain_rests
    rw [List.mem_append, ih]
    constructor
    · rintro (h | ⟨ch, h1, h2⟩)
      · exact ⟨c, List.mem_cons_self _ _, h⟩
      · exact ⟨ch, List.mem_cons_of_mem _ h1, h2⟩
    · rintro ⟨ch, h1, h2⟩
      rcases List.mem_cons.mp h1 with e | e
      · subst e; exact Or.inl h2
      · exact Or.inr ⟨ch, e, h2⟩

/-- In a list of chains without a repeated cluster, a cluster lies in one chain
only. -/
theorem chain_unique (chains : List (Nat × List Nat)) (hnodup : (chain_clusters chains).Nodup)
    (ch ch1 : Nat × List Nat) (x : Nat) (h : ch ∈ chains) (h1 : ch1 ∈ chains)
    (hx : x = ch.1 ∨ x ∈ ch.2) (hx1 : x = ch1.1 ∨ x ∈ ch1.2) : ch = ch1 := by
  induction chains with
  | nil => exact absurd h (List.not_mem_nil _)
  | cons c cs ih =>
    unfold chain_clusters at hnodup
    have hnd := List.nodup_append.mp hnodup
    have hdis : ∀ a, a ∈ c.1 :: c.2 → a ∈ chain_clusters cs → False :=
      fun a ha hb => hnd.2.2 ha hb
    rcases List.mem_cons.mp h with e | e <;> rcases List.mem_cons.mp h1 with e1 | e1
    · rw [e, e1]
    · subst e
      exact absurd ((mem_chain_clusters cs x).mpr ⟨ch1, e1, hx1⟩)
        (fun hb => hdis x (List.mem_cons.mpr hx) hb)
    · subst e1
      exact absurd ((mem_chain_clusters cs x).mpr ⟨ch, e, hx⟩)
        (fun hb => hdis x (List.mem_cons.mpr hx1) hb)
    · exact ih hnd.2.1 e e1

/-- In a list of chains without a repeated cluster no chain repeats a cluster. -/
theorem chain_nodup (chains : List (Nat × List Nat)) (hnodup : (chain_clusters chains).Nodup)
    (ch : Nat × List Nat) (h : ch ∈ chains) : (ch.1 :: ch.2).Nodup := by
  induction chains with
  | nil => exact absurd h (List.not_mem_nil _)
  | cons c cs ih =>
    unfold chain_clusters at hnodup
    have hnd := List.nodup_append.mp hnodup
    rcases List.mem_cons.mp h with e | e
    · subst e; exact hnd.1
    · exact ih hnd.2.1 e

/-- Every cluster of a path after its start is the successor of a cluster of
the path. -/
theorem links_from_pred (fat : fat_descriptor) (rest : List Nat) :
    ∀ (c x : Nat), links_from fat c rest → x ∈ rest →
      ∃ p, (p = c ∨ p ∈ rest) ∧ fat_get_cl_next fat p = x := by
  induction rest with
  | nil => intro c x _ hx; exact absurd hx (List.not_mem_nil _)
  | cons d rest ih =>
    intro c x hl hx
    unfold links_from at hl
    rcases List.mem_cons.mp hx with e | e
    · exact ⟨c, Or.inl rfl, by rw [e]; exact hl.1⟩
    · obtain ⟨p, hp, hn⟩ := ih d x hl.2 e
      refine ⟨p, Or.inr ?_, hn⟩
      rcases hp with hp | hp
      · rw [hp]; exact List.mem_cons_self _ _
      · exact List.mem_cons_of_mem _ hp

/-- The head bitmap that `readfat` leaves on a well-formed table, in terms of
the entries after the scan: the bit of a cluster in range is set exactly if
its entry is neither free nor bad and no cluster in range links to it. -/
theorem readfat_head_final (ask : policy) (rdonly : Bool) (boot : bootblock)
    (buffer : List Nat) (r : readfat_result) (hwf : fat_wf ⟨boot, 0, buffer⟩)
    (h : readfat ask rdonly boot buffer = some r) (X : Nat)
    (hX1 : CLUST_FIRST ≤ X) (hX2 : X < boot.NumClusters) :
    (bitmap_get r.headbitmap X = true ↔
      (fat_get_cl_next r.fat X ≠ CLUST_FREE ∧ fat_get_cl_next r.fat X ≠ CLUST_BAD ∧
        ∀ c, CLUST_FIRST ≤ c → c < boot.NumClusters → fat_get_cl_next r.fat c ≠ X)) := by
  have hgeom : boot.NumClusters ≤ 2 ^ 30 := hwf.2.1
  obtain ⟨s1, hloop, _, hfat, hhead, _⟩ := readfat_eq ask rdonly boot buffer r h
  have hspec := readfat_loop_spec ask rdonly (readfat_fat ask boot buffer)
    (readfat_ret0 ask boot buffer) s1 hgeom rfl rfl hloop
  have hX := hspec.2.2.1 X hX1 hX2
  rw [readfat_start_entries ask boot buffer hgeom] at hX
  rw [hhead]
  obtain ⟨_, hent, _, _⟩ := readfat_loop_trunc ask rdonly (readfat_fat ask boot buffer)
    (readfat_ret0 ask boot buffer) s1 (readfat_fat_wf ask boot buffer hwf) rfl rfl hloop
  rw [readfat_start_entries ask boot buffer hgeom] at hent
  rw [hX, hfat]
  have kX := trunc_entry_same_kind ask rdonly (fat_get_cl_next ⟨boot, 0, buffer⟩)
    boot.NumClusters X _ hgeom (hent X hX1 hX2)
  have kc := fun c1 h1 h2 => (trunc_entry_same_kind ask rdonly
    (fat_get_cl_next ⟨boot, 0, buffer⟩) boot.NumClusters c1 _ hgeom
    (hent c1 h1 h2)).2.2 X hX1 hX2
  constructor
  · rintro ⟨a, b, c⟩
    exact ⟨fun e => a (kX.1.mp e), fun e => b (kX.2.1.mp e),
      fun c1 h1 h2 e => c c1 h1 h2 ((kc c1 h1 h2).mp e)⟩
  · rintro ⟨a, b, c⟩
    exact ⟨fun e => a (kX.1.mpr e), fun e => b (kX.2.1.mpr e),
      fun c1 h1 h2 e => c c1 h1 h2 ((kc c1 h1 h2).mpr e)⟩

/-- On a table whose allocated clusters are made up of chains without a
repeated cluster, a cluster in range whose head bit is set after `readfat` is
the head of one of the chains. -/
theorem readfat_head_is_chain_head (ask : policy) (rdonly : Bool) (boot : bootblock)
    (buffer : List Nat) (r : readfat_result) (chains : List (Nat × List Nat))
    (hwf : fat_wf ⟨boot, 0, buffer⟩)
    (hread : readfat ask rdonly boot buffer = some r)
    (hchains : ∀ ch ∈ chains, links_from r.fat ch.1 ch.2)
    (hcover : ∀ c, c ∈ chain_clusters chains ↔
      (CLUST_FIRST ≤ c ∧ c < boot.NumClusters ∧
        fat_get_cl_next r.fat c ≠ CLUST_FREE ∧ fat_get_cl_next r.fat c ≠ CLUST_BAD))
    (X : Nat) (hX1 : CLUST_FIRST ≤ X) (hX2 : X < boot.NumClusters)
    (hbit : bitmap_get r.headbitmap X = true) : ∃ ch ∈ chains, ch.1 = X := by
  obtain ⟨a, b, c⟩ := (readfat_head_final ask rdonly boot buffer r hwf hread X hX1 hX2).mp hbit
  obtain ⟨ch, hch, hx⟩ := (mem_chain_clusters chains X).mp ((hcover X).mpr ⟨hX1, hX2, a, b⟩)
  rcases hx with hx | hx
  · exact ⟨ch, hch, hx.symm⟩
  · obtain ⟨p, hp, hn⟩ := links_from_pred r.fat ch.2 ch.1 X (hchains ch hch) hx
    have hpin : p ∈ chain_clusters chains :=
      (mem_chain_clusters chains p).mpr ⟨ch, hch, hp⟩
    have hpr := (hcover p).mp hpin
    exact absurd hn (c p hpr.1 hpr.2.1)

/-- The iteration of the scan of `checklost` at a cluster whose head bit is
set and from which `checkchain` returns `FSOK`, with a `reconnect` that returns
`FSOK` and leaves the state alone: the head is recorded as walked and the scan
goes on at the next cluster. -/
theorem checklost_loop_walk (col : collaborators) (ask : policy) (rdonly : Bool)
    (cfuel fuel head chains : Nat) (s : lost_state) (cs : chain_state)
    (hcol : ∀ t h l, col.reconnect t h l = (FSOK, t))
    (hchains : chains > 0) (hhead : head < s.fat.boot.NumClusters)
    (hgeom : s.fat.boot.NumClusters ≤ 2 ^ 30)
    (hskip : ¬ (head % LONG_BIT = 0 ∧ bitmap_any_in_range s.headbitmap head = true))
    (hbit : bitmap_get s.headbitmap head = true) (hmod : s.mod = FSOK)
    (hcc : checkchain ask rdonly cfuel s.fat s.usedbitmap head = outcome.ok (FSOK, cs)) :
    checklost_loop col ask rdonly cfuel (fuel + 1) head chains s
      = checklost_loop col ask rdonly cfuel fuel (head + 1) (chains - 1)
          ⟨cs.fat, cs.usedbitmap, s.headbitmap, FSOK, s.walked ++ [head],
            s.reported ++ [(head, cs.chainsize)]⟩ := by
  conv => lhs; unfold checklost_loop
  rw [if_pos ⟨hchains, hhead⟩, if_neg hskip, if_pos hbit, hcc]
  have e : (head + 1) % 2 ^ 32 = head + 1 := by omega
  have n1 : FSOK ≠ FSERROR := by decide
  have n2 : FSOK ||| FSOK = FSOK := by decide
  have n3 : ¬ (FSOK &&& FSFATAL ≠ 0) := by decide
  have n4 : ¬ (FSOK = FSERROR ∧ ask 0 question.Clear head = true) := fun h => n1 h.1
  simp only [hcol, hmod, e, if_pos n1, n2, if_neg n3, if_neg n4]

/-- The iteration of the scan of `checklost` at a cluster whose head bit is
clear: the scan goes on at the next cluster. -/
theorem checklost_loop_pass (col : collaborators) (ask : policy) (rdonly : Bool)
    (cfuel fuel head chains : Nat) (s : lost_state)
    (hchains : chains > 0) (hhead : head < s.fat.boot.NumClusters)
    (hgeom : s.fat.boot.NumClusters ≤ 2 ^ 30)
    (hskip : ¬ (head % LONG_BIT = 0 ∧ bitmap_any_in_range s.headbitmap head = true))
    (hbit : bitmap_get s.headbitmap head = false) :
    checklost_loop col ask rdonly cfuel (fuel + 1) head chains s
      = checklost_loop col ask rdonly cfuel fuel (head + 1) (chains - 1) s := by
  conv => lhs; unfold checklost_loop
  have e : (head + 1) % 2 ^ 32 = head + 1 := by omega
  have hb : ¬ (bitmap_get s.headbitmap head = true) := by rw [hbit]; simp
  rw [if_pos ⟨hchains, hhead⟩, if_neg hskip, if_neg hb, e]

/-- The end of the scan of `checklost`: no head is left to find or the last
cluster has been passed. -/
theorem checklost_loop_exit (col : collaborators) (ask : policy) (rdonly : Bool)
    (cfuel fuel head chains : Nat) (s : lost_state)
    (h : ¬ (chains > 0 ∧ head < s.fat.boot.NumClusters)) :
    checklost_loop col ask rdonly cfuel (fuel + 1) head chains s = outcome.ok s := by
  conv => lhs; unfold checklost_loop
  rw [if_neg h]

/-- The scan of `checklost` on a table whose allocated clusters are made up of
chains that end above `CLUST_EOFS`, entered with head bits that stand on heads
of these chains only and with a `reconnect` that returns `FSOK` and leaves the
state alone: the scan returns and keeps the invariant `lost_inv`. -/
theorem checklost_loop_walks (col : collaborators) (ask : policy) (rdonly : Bool)
    (cfuel : Nat) (fat0 : fat_descriptor) (hb0 : long_bitmap_t)
    (chains : List (Nat × List Nat))
    (hcol : ∀ t h l, col.reconnect t h l = (FSOK, t))
    (hgeom : fat0.boot.NumClusters ≤ 2 ^ 30)
    (hchains : ∀ ch ∈ chains, links_from fat0 ch.1 ch.2 ∧
      CLUST_EOFS < fat_get_cl_next fat0 (ch.2.getLastD ch.1))
    (hnodup : (chain_clusters chains).Nodup)
    (hrange : ∀ c ∈ chain_clusters chains, CLUST_FIRST ≤ c ∧ c < fat0.boot.NumClusters)
    (hheads : ∀ X, CLUST_FIRST ≤ X → X < fat0.boot.NumClusters →
      bitmap_get hb0 X = true → ∃ ch ∈ chains, ch.1 = X)
    (hcfuel : fat0.boot.NumClusters + 1 ≤ cfuel) :
    ∀ (fuel head k : Nat) (s : lost_state) (marked : List Nat),
      CLUST_FIRST ≤ head → lost_inv fat0 hb0 chains head marked s →
      fat0.boot.NumClusters - head + 1 ≤ fuel →
      ∃ s1 marked1 head1, checklost_loop col ask rdonly cfuel fuel head k s = outcome.ok s1 ∧
        lost_inv fat0 hb0 chains head1 marked1 s1 := by
  obtain ⟨k0, k2, kbad, keofs, keof, kdead⟩ := clust_consts
  intro fuel
  induction fuel with
  | zero =>
    intro head k s marked _ _ hfuel
    omega
  | succ fuel ih =>
    intro head k s marked hh hinv hfuel
    obtain ⟨i1, i2, i3, i4, i5, i6, i7, i8, i9⟩ := hinv
    by_cases hc : k > 0 ∧ head < s.fat.boot.NumClusters
    · have hgs : s.fat.boot.NumClusters ≤ 2 ^ 30 := by rw [i1]; exact hgeom
      have hhN : head < fat0.boot.NumClusters := by rw [← i1]; exact hc.2
      by_cases hskip : head % LONG_BIT = 0 ∧ bitmap_any_in_range s.headbitmap head = true
      · rw [checklost_loop_skip col ask rdonly cfuel fuel head k s hc.1 hc.2 hgs hskip.1 hskip.2]
        exact ih (head + LONG_BIT + 1) _ s marked (by omega)
          ⟨i1, i2, i3, fun w hw => ⟨by have := (i4 w hw).1; omega, (i4 w hw).2⟩,
            i5, i6, i7, i8, i9⟩ (by omega)
      · cases hb : bitmap_get s.headbitmap head with
        | false =>
          rw [checklost_loop_pass col ask rdonly cfuel fuel head k s hc.1 hc.2 hgs hskip hb]
          exact ih (head + 1) _ s marked (by omega)
            ⟨i1, i2, i3, fun w hw => ⟨by have := (i4 w hw).1; omega, (i4 w hw).2⟩,
              i5, i6, i7, i8, i9⟩ (by omega)
        | true =>
          obtain ⟨ch, hch, hch1⟩ := hheads head hh hhN (by rw [← i2]; exact hb)
          obtain ⟨hlinks, hend⟩ := hchains ch hch
          have hnd := chain_nodup chains hnodup ch hch
          have hnd2 : ch.2.Nodup := (List.nodup_cons.mp hnd).2
          have hnot : head ∉ s.walked := fun hw => by have := (i4 head hw).1; omega
          have hunused : ∀ c ∈ ch.2, c ∉ marked := by
            intro c hc2 hm
            obtain ⟨ch1, hch1in, hw1, hx1⟩ := (i8 c).mp hm
            have e := chain_unique chains hnodup ch ch1 c hch hch1in (Or.inr hc2) (Or.inr hx1)
            rw [← e, hch1] at hw1
            exact hnot hw1
          have hr2 : ∀ c ∈ ch.2, CLUST_FIRST ≤ c ∧ c < fat0.boot.NumClusters :=
            fun c hc2 => hrange c ((mem_chain_clusters chains c).mpr ⟨ch, hch, Or.inr hc2⟩)
          have hmr : ∀ c ∈ marked, c < fat0.boot.NumClusters := by
            intro c hm
            obtain ⟨ch1, hch1in, _, hx1⟩ := (i8 c).mp hm
            exact (hrange c ((mem_chain_clusters chains c).mpr ⟨ch1, hch1in, Or.inr hx1⟩)).2
          have hlen2 := nodup_length_le ch.2 fat0.boot.NumClusters hnd2 (fun x hx => (hr2 x hx).2)
          have hdis : ∀ a, a ∈ marked → a ∈ ch.2 → False := fun a ha hb => hunused a hb ha
          have hnd3 : (marked ++ ch.2).Nodup := List.nodup_append.mpr ⟨i5, hnd2, hdis⟩
          have hlen3 := nodup_length_le (marked ++ ch.2) fat0.boot.NumClusters hnd3
            (fun x hx => by
              rcases List.mem_append.mp hx with h | h
              · exact hmr x h
              · exact (hr2 x h).2)
          obtain ⟨ub, w1, w2, w3, w4, w5⟩ := checkchain_natural_end ask rdonly fat0
            s.usedbitmap ch.1 ch.2 cfuel (by omega) hlinks hend hnd2
            (fun c hc2 => ⟨(hr2 c hc2).1, (hr2 c hc2).2, by
              rw [i7 c]; simp [hunused c hc2]⟩) i9 (by omega)
          rw [← i1, hch1] at w1
          rw [checklost_loop_walk col ask rdonly cfuel fuel head k s _ hcol hc.1 hc.2 hgs hskip
            hb i3 w1]
          refine ih (head + 1) _ _ (marked ++ ch.2) (by omega)
            ⟨i1, i2, rfl, ?_, hnd3, ?_, ?_, ?_, ?_⟩ (by omega)
          · intro w hw
            rcases List.mem_append.mp hw with h | h
            · exact ⟨by have := (i4 w h).1; omega, (i4 w h).2⟩
            · have e : w = head := List.mem_singleton.mp h
              exact ⟨by omega, ch, hch, by rw [e]; exact hch1⟩
          · show ub.count = (marked ++ ch.2).length
            have hlt := w4 (by rw [i6]; have := List.length_append marked ch.2; omega)
            rw [List.length_append] at hlen3 ⊢
            rw [i6, Nat.mod_eq_of_lt hlt, Nat.mod_eq_of_lt (by omega)] at w3
            exact w3
          · intro x
            show bitmap_get ub x = decide (x ∈ marked ++ ch.2)
            rw [w2 x, i7 x]
            simp only [List.mem_append, Bool.decide_or]
            exact Bool.or_comm _ _
          · intro x
            show x ∈ marked ++ ch.2 ↔ ∃ c ∈ chains, c.1 ∈ s.walked ++ [head] ∧ x ∈ c.2
            constructor
            · intro hx
              rcases List.mem_append.mp hx with h | h
              · obtain ⟨c, hcin, hw, hx1⟩ := (i8 x).mp h
                exact ⟨c, hcin, List.mem_append_left _ hw, hx1⟩
              · exact ⟨ch, hch, by rw [hch1]; simp, h⟩
            · rintro ⟨c, hcin, hw, hx1⟩
              rcases List.mem_append.mp hw with h | h
              · exact List.mem_append_left _ ((i8 x).mpr ⟨c, hcin, h, hx1⟩)
              · have e : c.1 = head := List.mem_singleton.mp h
                have e2 := chain_unique chains hnodup ch c head hch hcin (Or.inl hch1.symm)
                  (Or.inl e.symm)
                rw [← e2] at hx1
                exact List.mem_append_right _ hx1
          · show fat0.boot.NumClusters ≤ 64 * ub.map.length
            rw [w5]
            exact i9
    · rw [checklost_loop_exit col ask rdonly cfuel fuel head k s hc]
      exact ⟨s, marked, head, rfl, i1, i2, i3, i4, i5, i6, i7, i8, i9⟩

/-- The reconciliation of the FSInfo hints leaves the geometry and the counters
of the boot block alone. -/
theorem checklost_fsinfo_counters (ask : policy) (fat : fat_descriptor) :
    (checklost_fsinfo ask fat).1.NumClusters = fat.boot.NumClusters ∧
    (checklost_fsinfo ask fat).1.NumFree = fat.boot.NumFree ∧
    (checklost_fsinfo ask fat).1.NumBad = fat.boot.NumBad := by
  unfold checklost_fsinfo
  simp only
  split_ifs <;> (try split) <;> exact ⟨rfl, rfl, rfl⟩

/-- What `checklost` leaves of the state that its scan returns: the table
bytes, the counters, the record of the heads walked and the count of the used
bitmap. -/
theorem checklost_of_loop (col : collaborators) (ask : policy) (rdonly : Bool)
    (fuel cfuel : Nat) (t : table_state) (s1 : lost_state)
    (h : checklost_loop col ask rdonly cfuel fuel CLUST_FIRST (bitmap_count t.headbitmap)
      ⟨t.fat, t.usedbitmap, t.headbitmap, FSOK, [], []⟩ = outcome.ok s1) :
    ∃ m s, checklost col ask rdonly fuel cfuel t = outcome.ok (m, s) ∧
      s.fat.fatbuf = s1.fat.fatbuf ∧
      s.fat.boot.NumClusters = s1.fat.boot.NumClusters ∧
      s.fat.boot.NumFree = s1.fat.boot.NumFree ∧ s.fat.boot.NumBad = s1.fat.boot.NumBad ∧
      s.walked = s1.walked ∧ bitmap_count s.usedbitmap = s1.usedbitmap.count := by
  unfold checklost
  rw [h]
  simp only
  obtain ⟨c1, c2, c3⟩ := checklost_fsinfo_counters ask s1.fat
  by_cases hb : s1.fat.boot.bpbFSInfo ≠ 0
  · rw [if_pos hb]
    exact ⟨_, _, rfl, rfl, c1, c2, c3, rfl, rfl⟩
  · rw [if_neg hb]
    exact ⟨_, _, rfl, rfl, rfl, rfl, rfl, rfl, rfl⟩

/-- C19 (amended): let `readfat` complete its scan of a well-formed table, and
let the allocated clusters of the table it leaves (those in
`[CLUST_FIRST, NumClusters)` whose entry is neither free nor bad) be made up,
without repetition, of the clusters of a list of chains, each a head followed
by links up to an entry above `CLUST_EOFS`.  Let `checklost` be entered in the
state that `readfat` leaves, as on a volume where no directory entry claims a
chain, with a `reconnect` that returns `FSOK` and leaves the state alone.  Then
`checklost` returns with the table bytes and the counters unchanged, every head
it walked is the head of one of the chains, and the count of the used bitmap
is the number of clusters after the heads in the chains it walked.  This count
is at most `NumClusters - CLUST_FIRST - NumFree - NumBad` less the number of
chains, with equality when `checklost` walked the head of every chain, and so
it is always below `NumClusters - NumFree - NumBad`. -/
theorem checklost_used_count (ask ask1 : policy) (rdonly : Bool) (col : collaborators)
    (boot : bootblock) (buffer : List Nat) (r : readfat_result)
    (chains : List (Nat × List Nat)) (fuel cfuel : Nat)
    (hwf : fat_wf ⟨boot, 0, buffer⟩) (hfirst : CLUST_FIRST ≤ boot.NumClusters)
    (hread : readfat ask rdonly boot buffer = some r)
    (hchains : ∀ ch ∈ chains, links_from r.fat ch.1 ch.2 ∧
      CLUST_EOFS < fat_get_cl_next r.fat (ch.2.getLastD ch.1))
    (hnodup : (chain_clusters chains).Nodup)
    (hcover : ∀ c, c ∈ chain_clusters chains ↔
      (CLUST_FIRST ≤ c ∧ c < boot.NumClusters ∧
        fat_get_cl_next r.fat c ≠ CLUST_FREE ∧ fat_get_cl_next r.fat c ≠ CLUST_BAD))
    (hcol : ∀ t h l, col.reconnect t h l = (FSOK, t))
    (hfuel : boot.NumClusters ≤ fuel) (hcfuel : boot.NumClusters + 1 ≤ cfuel) :
    ∃ m s, checklost col ask1 rdonly fuel cfuel ⟨r.fat, r.usedbitmap, r.headbitmap⟩
        = outcome.ok (m, s) ∧
      s.fat.fatbuf = r.fat.fatbuf ∧
      s.fat.boot.NumFree = r.fat.boot.NumFree ∧ s.fat.boot.NumBad = r.fat.boot.NumBad ∧
      (∀ w ∈ s.walked, ∃ ch ∈ chains, ch.1 = w) ∧
      (∃ marked : List Nat, marked.Nodup ∧ bitmap_count s.usedbitmap = marked.length ∧
        ∀ x, x ∈ marked ↔ ∃ ch ∈ chains, ch.1 ∈ s.walked ∧ x ∈ ch.2) ∧
      bitmap_count s.usedbitmap + chains.length + s.fat.boot.NumFree + s.fat.boot.NumBad
        + CLUST_FIRST ≤ boot.NumClusters ∧
      ((∀ ch ∈ chains, ch.1 ∈ s.walked) →
        bitmap_count s.usedbitmap + chains.length + s.fat.boot.NumFree + s.fat.boot.NumBad
          + CLUST_FIRST = boot.NumClusters) ∧
      bitmap_count s.usedbitmap
        < boot.NumClusters - s.fat.boot.NumFree - s.fat.boot.NumBad := by
  obtain ⟨k0, k2, kbad, keofs, keof, kdead⟩ := clust_consts
  have hgeom : boot.NumClusters ≤ 2 ^ 30 := hwf.2.1
  obtain ⟨hnum, hfree, hbad, hcount, hzero, hmap⟩ :=
    readfat_counters_final ask rdonly boot buffer r hwf hread
  have hrange : ∀ c ∈ chain_clusters chains,
      CLUST_FIRST ≤ c ∧ c < r.fat.boot.NumClusters := fun c hc => by
    have := (hcover c).mp hc
    exact ⟨this.1, by rw [hnum]; exact this.2.1⟩
  have hheads : ∀ X, CLUST_FIRST ≤ X → X < r.fat.boot.NumClusters →
      bitmap_get r.headbitmap X = true → ∃ ch ∈ chains, ch.1 = X := fun X h1 h2 hb =>
    readfat_head_is_chain_head ask rdonly boot buffer r chains hwf hread
      (fun ch hch => (hchains ch hch).1) hcover X h1 (by rw [← hnum]; exact h2) hb
  obtain ⟨s1, marked, head1, hloop, i1, i2, i3, i4, i5, i6, i7, i8, i9⟩ :=
    checklost_loop_walks col ask1 rdonly cfuel r.fat r.headbitmap chains hcol
      (by rw [hnum]; exact hgeom) hchains hnodup hrange hheads (by rw [hnum]; exact hcfuel)
      fuel CLUST_FIRST (bitmap_count r.headbitmap)
      ⟨r.fat, r.usedbitmap, r.headbitmap, FSOK, [], []⟩ [] (Nat.le_refl _)
      ⟨rfl, rfl, rfl, fun w hw => absurd hw (List.not_mem_nil _), List.nodup_nil, hcount,
        fun x => by rw [hzero x]; simp, fun x => by simp, by rw [hnum]; exact hmap⟩
      (by rw [hnum]; omega)
  obtain ⟨m, s, hs, e1, e2, e3, e4, e5, e6⟩ := checklost_of_loop col ask1 rdonly fuel cfuel
    ⟨r.fat, r.usedbitmap, r.headbitmap⟩ s1 hloop
  have hsub : ∀ x ∈ marked, x ∈ chain_rests chains := fun x hx => by
    obtain ⟨ch, hch, _, hx1⟩ := (i8 x).mp hx
    exact (mem_chain_rests chains x).mpr ⟨ch, hch, hx1⟩
  have hrn : (chain_rests chains).Nodup := hnodup.sublist (chain_rests_sublist chains)
  have hle : marked.length ≤ (chain_rests chains).length :=
    (List.subperm_of_subset i5 hsub).length_le
  have hlen := count_allocated_eq_length (fat_get_cl_next r.fat) boot.NumClusters
    (chain_clusters chains) hnodup hcover
  have hadd := count_allocated_add (fat_get_cl_next r.fat) boot.NumClusters
  have hcl := chain_clusters_length chains
  have hbound : bitmap_count s.usedbitmap + chains.length + s.fat.boot.NumFree
      + s.fat.boot.NumBad + CLUST_FIRST ≤ boot.NumClusters := by
    rw [e6, i6, e3, e4, i1]
    omega
  refine ⟨m, s, hs, by rw [e1, i1], by rw [e3, i1], by rw [e4, i1], ?_, ?_, hbound, ?_, ?_⟩
  · intro w hw
    rw [e5] at hw
    exact (i4 w hw).2
  · refine ⟨marked, i5, by rw [e6, i6], fun x => ?_⟩
    rw [e5]
    exact i8 x
  · intro hall
    have hsup : ∀ x ∈ chain_rests chains, x ∈ marked := fun x hx => by
      obtain ⟨ch, hch, hx1⟩ := (mem_chain_rests chains x).mp hx
      exact (i8 x).mpr ⟨ch, hch, by rw [← e5]; exact hall ch hch, hx1⟩
    have hge : (chain_rests chains).length ≤ marked.length :=
      (List.subperm_of_subset hrn hsup).length_le
    rw [e6, i6, e3, e4, i1]
    omega
  · omega

/-! ## The theorems at concrete tables -/

/-- Witness of C1 on the 12-bit table `fat12_demo`: writing the first
end-of-chain value to cluster 3 succeeds and reads back unchanged. -/
theorem fat_set_get_roundtrip_witness :
    (fat_set_cl_next false fat12_demo 3 CLUST_EOFS).1 = FSOK ∧
    fat_get_cl_next (fat_set_cl_next false fat12_demo 3 CLUST_EOFS).2 3 = CLUST_EOFS :=
  have h := fat_set_get_roundtrip fat12_demo 3 CLUST_EOFS (by decide) (by decide)
    (by decide) (by decide) (by decide)
  ⟨h.1, h.2.2 (Or.inr (by decide))⟩

/-- Witness of C2 on `fat12_demo`: writing to the odd cluster 3 leaves the entry
of its neighbour 2, with which it shares a byte, as it was. -/
theorem fat_set_touches_only_entry_witness :
    fat_get_cl_next (fat_set_cl_next false fat12_demo 3 0).2 2 = fat_get_cl_next fat12_demo 2 :=
  (fat_set_touches_only_entry fat12_demo 3 0 (by decide) (by decide) (by decide)
    (by decide)).1 2 (by decide) (by decide) (by decide)

/-- Witness of C3 on `fat12_demo`: the entry of cluster 5 is all ones and reads as
`CLUST_EOF`. -/
theorem fat_get_sign_extension_normal_form_witness :
    raw_entry fat12_demo 5 = fat12_demo.boot.ClustMask ∧
    fat_get_cl_next fat12_demo 5 = CLUST_EOF :=
  ⟨by decide,
    (fat_get_sign_extension_normal_form fat12_demo 5 (by decide) (by decide) (by decide)
      (by decide)).2.2.2.2.1 (by decide)⟩

/-- Witness of C4 on `fat12_demo`, which has 8 clusters: cluster 8 is out of
range. -/
theorem fat_access_out_of_range_witness :
    fat_get_cl_next fat12_demo 8 = CLUST_DEAD ∧
    (fat_set_cl_next false fat12_demo 8 5).1 = FSFATAL ∧
    (fat_set_cl_next false fat12_demo 8 5).2 = fat12_demo :=
  fat_access_out_of_range false fat12_demo 8 5 (Or.inr (by decide))

/-- Witness of C6 on a bitmap of 70 bits built all-one: after clearing bits 3 and
69 and setting bit 3 again the count is the number of set bits. -/
theorem bitmap_count_invariant_witness :
    bitmap_run (bitmap_ctor true ⟨0, []⟩ 70 true).2
        [bitmap_op.clear 3, bitmap_op.clear 69, bitmap_op.set 3]
      = some ⟨69, [18446744073709551615, 18446744073709551583]⟩ ∧
    bitmap_count ⟨69, [18446744073709551615, 18446744073709551583]⟩
      = bitmap_popcount ⟨69, [18446744073709551615, 18446744073709551583]⟩ 70 :=
  ⟨by decide,
    ((bitmap_count_invariant ⟨0, []⟩ 70 (by decide)).2.2 true
      [bitmap_op.clear 3, bitmap_op.clear 69, bitmap_op.set 3]
      ⟨69, [18446744073709551615, 18446744073709551583]⟩ (by decide) (by decide)).1⟩

/-- Witness of C7 on `fat12_demo`: the scan completes, and the head bit of
cluster 3, which no cluster links to, satisfies the equivalence. -/
theorem readfat_head_bitmap_witness :
    readfat policy_yes false (boot12 8) fat12_demo.fatbuf = some readfat_demo ∧
    (bitmap_get readfat_demo.headbitmap 3 = true ↔
      (fat_get_cl_next ⟨boot12 8, 0, fat12_demo.fatbuf⟩ 3 ≠ CLUST_FREE ∧
        fat_get_cl_next ⟨boot12 8, 0, fat12_demo.fatbuf⟩ 3 ≠ CLUST_BAD ∧
        ∀ c, CLUST_FIRST ≤ c → c < (boot12 8).NumClusters →
          fat_get_cl_next ⟨boot12 8, 0, fat12_demo.fatbuf⟩ c ≠ 3)) :=
  ⟨by decide,
    (readfat_head_bitmap policy_yes false (boot12 8) fat12_demo.fatbuf readfat_demo
      (by decide) (by decide) 3 (by decide) (by decide)).1⟩

/-- Witness of C8 on `fat12_demo`: the scan completes and counts the one free
cluster and no bad cluster. -/
theorem readfat_free_bad_counters_witness :
    readfat policy_yes false (boot12 8) fat12_demo.fatbuf = some readfat_demo ∧
    readfat_demo.fat.boot.NumFree
      = count_clusters (fat_get_cl_next ⟨boot12 8, 0, fat12_demo.fatbuf⟩) CLUST_FREE
          (boot12 8).NumClusters ∧
    readfat_demo.fat.boot.NumBad
      = count_clusters (fat_get_cl_next ⟨boot12 8, 0, fat12_demo.fatbuf⟩) CLUST_BAD
          (boot12 8).NumClusters :=
  ⟨by decide,
    (readfat_free_bad_counters policy_yes false (boot12 8) fat12_demo.fatbuf readfat_demo
      (by decide) (by decide)).1⟩

/-- Witness of C9 on `fat12_demo`: cluster 7, whose successor 1 is a bad link,
reads `CLUST_EOF` after the scan, and the status carries `FSFATMOD`. -/
theorem readfat_truncates_bad_links_witness :
    bad_link (boot12 8).NumClusters (fat_get_cl_next ⟨boot12 8, 0, fat12_demo.fatbuf⟩ 7) ∧
    fat_get_cl_next readfat_demo.fat 7 = CLUST_EOF ∧
    readfat_demo.ret &&& FSFATMOD ≠ 0 :=
  have h := readfat_truncates_bad_links policy_yes (boot12 8) fat12_demo.fatbuf readfat_demo
    (by decide) (fun _ => rfl) (by decide)
  ⟨by decide, (h.1 7 (by decide) (by decide)).1 (by decide),
    h.2.mpr ⟨7, by decide, by decide, by decide⟩⟩

/-- Witness of C10: in the 12-bit table `fat12_demo` the chain 2 → 5 → EOF has
length 2. -/
theorem checkchain_chain_length_witness :
    chain_from fat12_demo 2 [5] ∧
    ∃ ub, checkchain policy_yes false 2 fat12_demo ⟨0, [0]⟩ 2
      = outcome.ok (FSOK, ⟨fat12_demo, ub, 2⟩) :=
  ⟨by decide,
    checkchain_chain_length policy_yes false fat12_demo ⟨0, [0]⟩ 2 [5] 2 (by decide)
      (by decide) (by decide) (by decide) (by decide) (by decide)⟩

/-- Counterexample to C11 as stated: in the 12-bit table `fat12_demo` the walk
from head 2 over the chain 2 → 5 → EOF returns `FSOK` with length 2 and leaves
the used bit of cluster 5 set but the used bit of the head 2 clear. -/
theorem checkchain_head_not_marked :
    checkchain policy_yes false 2 fat12_demo ⟨0, [0]⟩ 2
      = outcome.ok (FSOK, ⟨fat12_demo, ⟨1, [32]⟩, 2⟩) ∧
    bitmap_get ⟨1, [32]⟩ 5 = true ∧ bitmap_get ⟨1, [32]⟩ 2 = false := by
  decide

/-- Witness of C11 as amended on `fat12_demo` and the chain 2 → 5 → EOF. -/
theorem checkchain_marks_successors_witness :
    chain_from fat12_demo 2 [5] ∧
    ∃ ub, checkchain policy_yes false 2 fat12_demo ⟨0, [0]⟩ 2
        = outcome.ok (FSOK, ⟨fat12_demo, ub, 2⟩) ∧
      (∀ x, bitmap_get ub x = true ↔ (x ∈ [5] ∨ bitmap_get ⟨0, [0]⟩ x = true)) ∧
      bitmap_get ub 2 = false :=
  ⟨by decide,
    checkchain_marks_successors policy_yes false fat12_demo ⟨0, [0]⟩ 2 [5] 2 (by decide)
      (by decide) (by decide) (by decide) (by decide) (by decide) (by decide)⟩

/-- Witness of C13 on `fat12_cross`: the walk from head 8 reaches cluster 9,
whose successor 4 is already used; the truncation leaves entry 9 reading
`CLUST_EOF` and everything else as it was. -/
theorem checkchain_cross_link_witness :
    fat_get_cl_next fat12_cross 9 = 4 ∧ bitmap_get ⟨1, [16]⟩ 4 = true ∧
    ∃ ub, (∀ x, bitmap_get ub x = (decide (x ∈ [9]) || bitmap_get ⟨1, [16]⟩ x)) ∧
      bitmap_get ub 4 = true ∧
      (policy_yes 0 question.Truncate ([9].getLastD 8) = true →
        ∃ fat1, checkchain policy_yes false 2 fat12_cross ⟨1, [16]⟩ 8
            = outcome.ok (FSFATMOD, ⟨fat1, ub, [9].length⟩) ∧
          fat_get_cl_next fat1 ([9].getLastD 8) = CLUST_EOF ∧
          ∀ c, c ≠ [9].getLastD 8 → fat_get_cl_next fat1 c = fat_get_cl_next fat12_cross c) ∧
      (policy_yes 0 question.Truncate ([9].getLastD 8) = false →
        checkchain policy_yes false 2 fat12_cross ⟨1, [16]⟩ 8
          = outcome.ok (FSERROR, ⟨fat12_cross, ub, [9].length⟩)) :=
  ⟨by decide, by decide,
    checkchain_cross_link policy_yes fat12_cross ⟨1, [16]⟩ 8 [9] 4 2 (by decide) (by decide)
      (by decide) (by decide) (by decide) (by decide) (by decide) (by decide)
      (Or.inr (by decide)) (by decide)⟩

/-- Witness of C14 on `fat12_loop`, whose chain from head 2 loops back onto
itself (2 → 5 → 3 → 2), with the used bits of clusters 3, 5, 6 and 7 set:
`clearchain` returns with entries 2, 3 and 5 free and their used bits clear,
and the chain 6 → 7 → EOF and its used bits as before. -/
theorem clearchain_clears_reachable_witness :
    clearchain false 10 fat12_loop ⟨4, [232]⟩ 2
      = outcome.ok (⟨boot12 8, 12,
          [0xf8, 0xff, 0xff, 0x00, 0x00, 0x00, 0x00, 0x00, 0x00, 0x07, 0xf0, 0xff]⟩,
        ⟨2, [192]⟩) ∧
    ∃ fat1 ub, clearchain false 10 fat12_loop ⟨4, [232]⟩ 2 = outcome.ok (fat1, ub) ∧
      fat1.boot = fat12_loop.boot ∧
      (∀ x, reach fat12_loop 2 x →
        fat_get_cl_next fat1 x = CLUST_FREE ∧ bitmap_get ub x = false) ∧
      (∀ x, ¬ reach fat12_loop 2 x →
        fat_get_cl_next fat1 x = fat_get_cl_next fat12_loop x ∧
        bitmap_get ub x = bitmap_get ⟨4, [232]⟩ x) ∧
      (¬ (CLUST_FIRST ≤ 2 ∧ 2 < fat12_loop.boot.NumClusters) →
        fat1 = fat12_loop ∧ ub = ⟨4, [232]⟩) :=
  ⟨by decide,
    clearchain_clears_reachable fat12_loop ⟨4, [232]⟩ 2 10 (by decide) (by decide)⟩

/-- Witness of C18 on the table of `fat12_demo` with a damaged signature byte:
the first run corrects the signature and truncates cluster 7, and the second
run changes nothing. -/
theorem readfat_idempotent_witness :
    readfat policy_yes false (boot12 8)
        [0x00, 0xff, 0xff, 0x05, 0x60, 0x00, 0x00, 0xf0, 0xff, 0xff, 0x1f, 0x00]
      = some readfat_demo ∧
    ∃ r2, readfat policy_yes false readfat_demo.fat.boot readfat_demo.fat.fatbuf = some r2 ∧
      r2.fat.fatbuf = readfat_demo.fat.fatbuf ∧ r2.ret &&& FSFATMOD = 0 :=
  ⟨by decide,
    readfat_idempotent policy_yes (boot12 8)
      [0x00, 0xff, 0xff, 0x05, 0x60, 0x00, 0x00, 0xf0, 0xff, 0xff, 0x1f, 0x00]
      readfat_demo (by decide) (fun _ _ _ => rfl) (by decide)⟩
/-- Counterexample to C19 as stated: on the 12-bit volume with ten clusters and
no file whose table `fat12_lost_low` holds the one chain 2 → 3 → EOF and six
free clusters, `readfat` leaves the state `lost12_low_state`, and `checklost`
walks the head 2, reports the chain of length 2 and leaves the used bitmap
with the count 1 (the bit of cluster 3), not
`NumClusters - NumFree - NumBad = 4`.  On the table `fat12_lost`, whose one chain
is 7 → 8 → EOF, `checklost` walks no head and leaves the count 0. -/
theorem checklost_used_count_not_total :
    (readfat policy_yes false (boot12 10) fat12_lost_low).map
        (fun r => (r.ret, (⟨r.fat, r.usedbitmap, r.headbitmap⟩ : table_state)))
      = some (FSOK, lost12_low_state) ∧
    checklost collab_ok policy_yes false 20 20 lost12_low_state
      = outcome.ok (FSOK,
          ⟨lost12_low_state.fat, ⟨1, []⟩, lost12_low_state.headbitmap, FSOK, [2], [(2, 2)]⟩) ∧
    bitmap_count ⟨1, []⟩ = 1 ∧
    lost12_low_state.fat.boot.NumClusters - lost12_low_state.fat.boot.NumFree
      - lost12_low_state.fat.boot.NumBad = 4 ∧
    (readfat policy_yes false (boot12 10) fat12_lost).map
        (fun r => (r.ret, (⟨r.fat, r.usedbitmap, r.headbitmap⟩ : table_state)))
      = some (FSOK, lost12_state) ∧
    checklost collab_ok policy_yes false 20 20 lost12_state
      = outcome.ok (FSOK,
          ⟨lost12_state.fat, ⟨0, []⟩, lost12_state.headbitmap, FSOK, [], []⟩) ∧
    bitmap_count ⟨0, []⟩ = 0 ∧
    lost12_state.fat.boot.NumClusters - lost12_state.fat.boot.NumFree
      - lost12_state.fat.boot.NumBad = 4 := by
  decide

/-- Witness of C19 as amended on the table `fat12_lost_low` with its one chain
2 → 3 → EOF: `checklost` walks the head 2, and the used count 1 with one chain,
six free clusters, no bad cluster and `CLUST_FIRST` makes up the ten clusters. -/
theorem checklost_used_count_witness :
    readfat policy_yes false (boot12 10) fat12_lost_low
      = some ⟨FSOK, lost12_low_state.fat, lost12_low_state.usedbitmap,
          lost12_low_state.headbitmap⟩ ∧
    ∃ m s, checklost collab_ok policy_yes false 20 20
          ⟨lost12_low_state.fat, lost12_low_state.usedbitmap, lost12_low_state.headbitmap⟩
        = outcome.ok (m, s) ∧
      s.fat.fatbuf = lost12_low_state.fat.fatbuf ∧
      s.fat.boot.NumFree = lost12_low_state.fat.boot.NumFree ∧
      s.fat.boot.NumBad = lost12_low_state.fat.boot.NumBad ∧
      (∀ w ∈ s.walked, ∃ ch ∈ [(2, [3])], ch.1 = w) ∧
      (∃ marked : List Nat, marked.Nodup ∧ bitmap_count s.usedbitmap = marked.length ∧
        ∀ x, x ∈ marked ↔ ∃ ch ∈ [(2, [3])], ch.1 ∈ s.walked ∧ x ∈ ch.2) ∧
      bitmap_count s.usedbitmap + [(2, [3])].length + s.fat.boot.NumFree + s.fat.boot.NumBad
        + CLUST_FIRST ≤ (boot12 10).NumClusters ∧
      ((∀ ch ∈ [(2, [3])], ch.1 ∈ s.walked) →
        bitmap_count s.usedbitmap + [(2, [3])].length + s.fat.boot.NumFree
          + s.fat.boot.NumBad + CLUST_FIRST = (boot12 10).NumClusters) ∧
      bitmap_count s.usedbitmap
        < (boot12 10).NumClusters - s.fat.boot.NumFree - s.fat.boot.NumBad :=
  ⟨by decide,
    checklost_used_count policy_yes policy_yes false collab_ok (boot12 10) fat12_lost_low
      ⟨FSOK, lost12_low_state.fat, lost12_low_state.usedbitmap, lost12_low_state.headbitmap⟩
      [(2, [3])] 20 20 (by decide) (by decide) (by decide) (by decide) (by decide)
      (fun c => by
        show c ∈ [2, 3] ↔ _
        constructor
        · intro h
          simp only [List.mem_cons, List.mem_singleton, List.not_mem_nil, or_false] at h
          rcases h with h | h <;> subst h <;> decide
        · rintro ⟨h1, h2, h3, _⟩
          have h2' : c < 10 := h2
          have h1' : 2 ≤ c := h1
          interval_cases c <;> first | (exact absurd rfl h3) | simp)
      (fun _ _ _ => rfl) (by decide) (by decide)⟩

set_option maxRecDepth 1000000 in
/-- Witness of C21 on the one-sector table `fat12_sector` of a 12-bit volume
with two copies of the table: `readfat` returns a descriptor with `fatsize` 0,
and `writefat`, with every seek and write succeeding, seeks to the offsets 512
and 1024 of the two copies, writes no byte to either and returns `FSOK`. -/
theorem writefat_after_readfat_writes_nothing_witness :
    (readfat policy_yes false (boot12 8) fat12_sector).map
        (fun r => (r.fat.boot.FATsecs * r.fat.boot.bpbBytesPerSec, r.fat.fatbuf.length,
          writefat false (fun _ => true) (fun _ d => d.length) r.fat.boot r.fat))
      = some (512, 512, (FSOK, [(512, []), (1024, [])])) ∧
    ∀ r, readfat policy_yes false (boot12 8) fat12_sector = some r →
      r.fat.fatsize = 0 ∧
      ∀ w ∈ (writefat false (fun _ => true) (fun _ d => d.length) r.fat.boot r.fat).2,
        w.2 = [] :=
  ⟨by decide, fun r h =>
    writefat_after_readfat_writes_nothing policy_yes false false (boot12 8) fat12_sector r
      (fun _ => true) (fun _ d => d.length) h⟩

/-- Witness of C23 on the 12-bit table `fat12_reserved_link`, whose cluster 2
has the reserved successor 1, under the declining policy: `readfat` leaves the
table as loaded and returns `FSOK`, a status without `FSERROR`.  `checkchain`
from cluster 2, declined the same truncation, returns `FSERROR`, and
`checklost`, which walks cluster 2 and is declined the clearing of the chain,
returns `FSOK` as well. -/
theorem readfat_declined_not_reported_witness :
    bad_link (boot12 8).NumClusters (fat_get_cl_next ⟨boot12 8, 0, fat12_reserved_link⟩ 2) ∧
    policy_no 0 question.Truncate 2 = false ∧
    checkchain policy_no false 8 reserved_link_state.fat reserved_link_state.usedbitmap 2
      = outcome.ok (FSERROR,
          ⟨reserved_link_state.fat, reserved_link_state.usedbitmap, 0⟩) ∧
    checklost collab_ok policy_no false 20 20 reserved_link_state
      = outcome.ok (FSOK,
          ⟨reserved_link_state.fat, ⟨0, []⟩, reserved_link_state.headbitmap, FSOK, [2], []⟩) ∧
    fat_wf ⟨boot12 8, 0, fat12_reserved_link⟩ ∧
    readfat policy_no false (boot12 8) fat12_reserved_link
      = some ⟨FSOK, reserved_link_state.fat, reserved_link_state.usedbitmap,
          reserved_link_state.headbitmap⟩ ∧
    FSOK &&& FSERROR = 0 ∧ FSOK &&& FSFATAL = 0 ∧
    (∀ c, CLUST_FIRST ≤ c → c < (boot12 8).NumClusters →
      bad_link (boot12 8).NumClusters
        (fat_get_cl_next ⟨boot12 8, 0, fat12_reserved_link⟩ c) →
      policy_no 0 question.Truncate c = false →
      fat_get_cl_next reserved_link_state.fat c
        = fat_get_cl_next ⟨boot12 8, 0, fat12_reserved_link⟩ c) ∧
    ((∀ c, CLUST_FIRST ≤ c → c < (boot12 8).NumClusters →
        bad_link (boot12 8).NumClusters
          (fat_get_cl_next ⟨boot12 8, 0, fat12_reserved_link⟩ c) →
        policy_no 0 question.Truncate c = false) →
      (FSOK = FSOK ∨ FSOK = FSOK ||| FSDIRTY) ∧ FSOK &&& FSFATMOD = 0) :=
  ⟨by decide, by decide, by decide, by decide, by decide, by decide,
    readfat_declined_not_reported policy_no false (boot12 8) fat12_reserved_link
      ⟨FSOK, reserved_link_state.fat, reserved_link_state.usedbitmap,
        reserved_link_state.headbitmap⟩ (by decide) (by decide)⟩

/-- Counterexample to C28 as stated: in the 32-bit table `fat32_reserved` the
word of cluster 2 is `0xf0000005`; after `fat_set_cl_next` has stored the
successor 3 the word is `0x00000003`: the four reserved high bits, which were
`0xf`, are 0. -/
theorem fat32_set_clears_reserved_bits :
    le32dec fat32_reserved.fatbuf 8 = 0xf0000005 ∧
    le32dec fat32_reserved.fatbuf 8 / 2 ^ 28 = 0xf ∧
    fat_get_cl_next fat32_reserved 2 = 5 ∧
    le32dec (fat_set_cl_next false fat32_reserved 2 3).2.fatbuf 8 = 0x00000003 ∧
    le32dec (fat_set_cl_next false fat32_reserved 2 3).2.fatbuf 8 / 2 ^ 28 = 0 := by
  decide

/-- Witness of C28 as amended on `fat32_reserved`, cluster 2 and the value 3. -/
theorem fat32_set_writes_whole_word_witness :
    fat32_reserved.boot.ClustMask = CLUST32_MASK ∧
    (fat_set_cl_next false fat32_reserved 2 3).1 = 0 ∧
    le32dec (fat_set_cl_next false fat32_reserved 2 3).2.fatbuf (4 * 2) = 3 % 2 ^ 28 ∧
    le32dec (fat_set_cl_next false fat32_reserved 2 3).2.fatbuf (4 * 2) / 2 ^ 28 = 0 ∧
    (∀ j, j < 4 * 2 ∨ 4 * 2 + 4 ≤ j →
      rdb (fat_set_cl_next false fat32_reserved 2 3).2.fatbuf j
        = rdb fat32_reserved.fatbuf j) ∧
    fat_get_cl_next fat32_reserved 2
      = sx 0xffffff7 0xf0000000 (le32dec fat32_reserved.fatbuf (4 * 2) % 2 ^ 28) :=
  ⟨by decide,
    fat32_set_writes_whole_word fat32_reserved 2 3 (by decide) (by decide) (by decide)
      (by decide) (by decide)⟩

end FsckMsdosfs
